import Mathlib

/-!
Evas filter blend (CPU): dispatcher, blit kernels and tiling engine.

A shallow embedding of `src/lib/evas/filters/evas_filter_blend.c`.

* C `int` values are `Int`.  The tiling arithmetic is carried out on image
  extents and offsets, far below `2^31`, so it is written without wrap-around;
  the count-down loops of the kernels (`for (y = src_h; y; y--)`) run
  `n mod 2^32` times, which is what a 32-bit counter does.
* `/` and `%` of C truncate toward zero: `Int.tdiv` and `Int.tmod`.  A zero
  divisor traps, which the tiling engine reports as `none`.
* A pixel buffer's storage is a `List Nat` in row-major order (row stride
  equal to the width): one byte per pixel for an alpha-only buffer, one 32-bit
  word per pixel for an RGBA buffer.  A null storage pointer is `none`.
* The blit callback `image_draw` acts on an explicit state; the tiling engine
  threads that state through its calls and discards the boolean result, as the
  C code does.
* A blend function returns its boolean result, the output image after the call
  and the ordered list of the calls it made to its collaborators (lock, scaler,
  draw context, blit); the collaborators themselves are parameters.
-/

namespace EvasFilterBlend

/-! ## Data model -/

/-- Modelled from the spec: the `Evas_Filter_Fill_Mode` flag set, whose
declaration (`evas_filter.h`) is not among the sources.  The spec describes it
as a set of independent per-axis flags; `fillmode & FLAG` is the corresponding
field and `EVAS_FILTER_FILL_MODE_NONE` is the empty set. -/
structure Evas_Filter_Fill_Mode where
  stretch_x : Bool
  stretch_y : Bool
  repeat_x : Bool
  repeat_y : Bool
deriving DecidableEq, Repr

/-- The empty flag set. -/
def EVAS_FILTER_FILL_MODE_NONE : Evas_Filter_Fill_Mode := ⟨false, false, false, false⟩

/-- The flag set with only `STRETCH_X`. -/
def EVAS_FILTER_FILL_MODE_STRETCH_X : Evas_Filter_Fill_Mode := ⟨true, false, false, false⟩

/-- The flag set with only `STRETCH_Y`. -/
def EVAS_FILTER_FILL_MODE_STRETCH_Y : Evas_Filter_Fill_Mode := ⟨false, true, false, false⟩

/-- The flag set with only `REPEAT_X`. -/
def EVAS_FILTER_FILL_MODE_REPEAT_X : Evas_Filter_Fill_Mode := ⟨false, false, true, false⟩

/-- The flag set with only `REPEAT_Y`. -/
def EVAS_FILTER_FILL_MODE_REPEAT_Y : Evas_Filter_Fill_Mode := ⟨false, false, false, true⟩

/-- The flag set `STRETCH_X | STRETCH_Y`. -/
def EVAS_FILTER_FILL_MODE_STRETCH_XY : Evas_Filter_Fill_Mode := ⟨true, true, false, false⟩

/-- An `RGBA_Image` as far as the blend code reads it: `cache_entry.w`,
`cache_entry.h` and the pixel storage (`mask.data` for an alpha-only image,
`image.data` for an RGBA one; `none` is the null pointer). -/
structure RGBA_Image where
  w : Int
  h : Int
  data : Option (List Nat)
deriving DecidableEq, Repr

/-- An `Evas_Filter_Buffer` as far as the blend code reads it. -/
structure Evas_Filter_Buffer where
  alpha_only : Bool
  locked : Bool
  backing : Option RGBA_Image
deriving DecidableEq, Repr

/-- The clip rectangle of a draw command. -/
structure Clip where
  x : Int
  y : Int
  w : Int
  h : Int
deriving DecidableEq, Repr

/-- The `draw` part of an `Evas_Filter_Command`. -/
structure Draw where
  ox : Int
  oy : Int
  fillmode : Evas_Filter_Fill_Mode
  render_op : Int
  R : Nat
  G : Nat
  B : Nat
  A : Nat
  clip_use : Bool
  clip : Clip
deriving DecidableEq, Repr

/-- An `Evas_Filter_Command`; an absent buffer pointer is `none`. -/
structure Evas_Filter_Command where
  input : Option Evas_Filter_Buffer
  output : Option Evas_Filter_Buffer
  draw : Draw
deriving DecidableEq, Repr

/-- The four functions `evas_filter_blend_cpu_func_get` can return, by name. -/
inductive Evas_Filter_Apply_Func where
  | _filter_blend_cpu_alpha
  | _filter_blend_cpu_mask_rgba
  | _filter_blend_cpu_rgba2alpha
  | _filter_blend_cpu_rgba
deriving DecidableEq, Repr

/-! ## Dispatcher -/

/-- The dispatcher `evas_filter_blend_cpu_func_get`: the three null checks, then the choice
on `(input->alpha_only, output->alpha_only)`.  `none` is the `NULL` result. -/
def evas_filter_blend_cpu_func_get (cmd : Option Evas_Filter_Command) :
    Option Evas_Filter_Apply_Func :=
  match cmd with
  | none => none
  | some c =>
    match c.output with
    | none => none
    | some output =>
      match c.input with
      | none => none
      | some input =>
        if input.alpha_only then
          if output.alpha_only then some Evas_Filter_Apply_Func._filter_blend_cpu_alpha
          else some Evas_Filter_Apply_Func._filter_blend_cpu_mask_rgba
        else
          if output.alpha_only then some Evas_Filter_Apply_Func._filter_blend_cpu_rgba2alpha
          else some Evas_Filter_Apply_Func._filter_blend_cpu_rgba

/-! ## Integer helpers -/

/-- The number of iterations of a count-down loop `for (y = n; y; y--)` over a
32-bit counter: `n` itself when `0 ≤ n`, and `2^32 + n` for a negative `n`
(the counter wraps before it reaches zero). -/
def loopCount (n : Int) : Nat := (n % 4294967296).toNat

/-- The value of the C expression `1 << n` in a 32-bit `int`, for `n < 32`
(`1 << 31` is the sign bit). -/
def shl1 (n : Nat) : Int := if n < 31 then 2 ^ n else -2147483648

/-- The C macro `MIN`. -/
def MIN (a b : Int) : Int := if a < b then a else b

/-- A read through a pointer `base + i`; outside the storage it reads `0`. -/
def peek (m : List Nat) (i : Int) : Nat := if 0 ≤ i then m.getD i.toNat 0 else 0

/-- A write through a pointer `base + i`; outside the storage nothing is
recorded. -/
def poke (m : List Nat) (i : Int) (v : Nat) : List Nat :=
  if 0 ≤ i then m.set i.toNat v else m

/-! ## The divider -/

/-- The loop of `_smallest_pow2_larger_than`, from counter `n` with
`fuel = 32 - n` iterations left; falling out of the loop returns 32. -/
def _smallest_pow2_larger_than.loop (val : Int) : Nat → Nat → Int
  | 0, _ => 32
  | fuel + 1, n => if val ≤ shl1 n then (n : Int) else _smallest_pow2_larger_than.loop val fuel (n + 1)

/-- The function `_smallest_pow2_larger_than`: the first `n` in `0..31` with
`val <= (1 << n)`, or 32. -/
def _smallest_pow2_larger_than (val : Int) : Int :=
  _smallest_pow2_larger_than.loop val 32 0

/-- The constants a `DEFINE_DIVIDER(div)` line declares. -/
structure Divider where
  pow2 : Int
  numerator : Int
  divider : Int
deriving DecidableEq, Repr

/-- The macro `DEFINE_DIVIDER(div)`.  The flag is the configuration macro
`DIV_USING_BITSHIFT`, whose definition is not among the sources.  With the
flag set, `pow2 = _smallest_pow2_larger_than(div << 10)` and
`numerator = (1 << pow2) / div`.  Without the flag the `#else` branch defines
`DEFINE_DIAMETER(div)`, not `DEFINE_DIVIDER(div)`, so the kernel's
`DEFINE_DIVIDER(3)` declares no `divider` and the file does not build: only the
branch with the flag set is built code.  The other branch records
`divider = div`, what the `#else` branch would declare under the name the
kernel uses. -/
def DEFINE_DIVIDER (div_using_bitshift : Bool) (div : Int) : Divider :=
  if div_using_bitshift then
    let pow2 := _smallest_pow2_larger_than (div * 1024)
    { pow2 := pow2, numerator := (shl1 pow2.toNat).tdiv div, divider := div }
  else
    { pow2 := 0, numerator := 0, divider := div }

/-- The macro `DIVIDE(val)`: `(val * numerator) >> pow2` with the bit-shift divider,
`val / divider` otherwise. -/
def DIVIDE (div_using_bitshift : Bool) (d : Divider) (val : Int) : Int :=
  if div_using_bitshift then (val * d.numerator) >>> d.pow2.toNat
  else val.tdiv d.divider

/-! ## Pixel words -/

/-- Modelled from the spec: the channel accessors `A_VAL`, `R_VAL`, `G_VAL`,
`B_VAL` and the constructor `ARGB_JOIN` come from a header that is not among
the sources.  A pixel is a 32-bit word of four 8-bit channels, alpha in the
top byte, then red, green, blue. -/
def R_VAL (p : Nat) : Int := ((p / 65536) % 256 : Nat)

/-- Modelled from the spec: the green channel of a pixel word (see `R_VAL`). -/
def G_VAL (p : Nat) : Int := ((p / 256) % 256 : Nat)

/-- Modelled from the spec: the blue channel of a pixel word (see `R_VAL`). -/
def B_VAL (p : Nat) : Int := (p % 256 : Nat)

/-- Modelled from the spec: the alpha channel of a pixel word (see `R_VAL`). -/
def A_VAL (p : Nat) : Int := ((p / 16777216) % 256 : Nat)

/-- Modelled from the spec: `ARGB_JOIN(a, r, g, b)` (see `R_VAL`). -/
def ARGB_JOIN (a r g b : Nat) : Nat := a * 16777216 + r * 65536 + g * 256 + b

/-! ## Blit kernels -/

/-- The `Alpha_Blend_Draw_Context` handed to the alpha kernels. -/
structure Alpha_Blend_Draw_Context where
  render_op : Int
  color : Nat
deriving DecidableEq, Repr

/-- An `Alpha_Gfx_Func` `func(src, dst, len)`: source storage and offset,
destination storage and offset, length; the result is the destination storage
after the call. -/
abbrev Alpha_Gfx_Func := List Nat → Int → List Nat → Int → Int → List Nat

/-- An `RGBA_Gfx_Func` `func(NULL, mask, col, dst, len)`: mask storage and
offset, colour, destination storage and offset, length; the result is the
destination storage after the call. -/
abbrev RGBA_Gfx_Func := List Nat → Int → Nat → List Nat → Int → Int → List Nat

/-- The storage of an image as the kernels read it. -/
def RGBA_Image.pixels (im : RGBA_Image) : List Nat := im.data.getD []

/-- The image with its storage rewritten by `f`. -/
def RGBA_Image.store (im : RGBA_Image) (f : List Nat → List Nat) : RGBA_Image :=
  { im with data := im.data.map f }

/-- The scanline loop of `_image_draw_cpu_alpha2alpha`: `y` rows left,
`srcdata` and `dstdata` as offsets into the two storages. -/
def _image_draw_cpu_alpha2alpha.rows (func : Alpha_Gfx_Func) (src : List Nat)
    (sw dw src_x dst_x src_w : Int) : Nat → Int → Int → List Nat → List Nat
  | 0, _, _, dst => dst
  | y + 1, srcdata, dstdata, dst =>
    _image_draw_cpu_alpha2alpha.rows func src sw dw src_x dst_x src_w y
      (srcdata + sw) (dstdata + dw)
      (func src (srcdata + src_x) dst (dstdata + dst_x) src_w)

/-- The kernel `_image_draw_cpu_alpha2alpha`.  The operator table
`evas_common_alpha_func_get` is an external collaborator and a parameter. -/
def _image_draw_cpu_alpha2alpha (evas_common_alpha_func_get : Int → Option Alpha_Gfx_Func)
    (dc : Alpha_Blend_Draw_Context) (dst src : RGBA_Image)
    (src_x src_y src_w src_h dst_x dst_y dst_w dst_h : Int) : Bool × RGBA_Image :=
  if ¬ (src_w = dst_w ∧ src_h = dst_h) then (false, dst)
  else
    match evas_common_alpha_func_get dc.render_op with
    | none => (false, dst)
    | some func =>
      let sw := src.w
      let dw := dst.w
      (true, dst.store (_image_draw_cpu_alpha2alpha.rows func src.pixels sw dw src_x dst_x src_w
        (loopCount src_h) (src_y * sw) (dst_y * dw)))

/-- The scanline loop of `_image_draw_cpu_alpha2rgba`. -/
def _image_draw_cpu_alpha2rgba.rows (func : RGBA_Gfx_Func) (src : List Nat) (color : Nat)
    (sw dw src_x dst_x src_w : Int) : Nat → Int → Int → List Nat → List Nat
  | 0, _, _, dst => dst
  | y + 1, srcdata, dstdata, dst =>
    _image_draw_cpu_alpha2rgba.rows func src color sw dw src_x dst_x src_w y
      (srcdata + sw) (dstdata + dw)
      (func src (srcdata + src_x) color dst (dstdata + dst_x) src_w)

/-- The kernel `_image_draw_cpu_alpha2rgba`.  The lookup
`evas_common_gfx_func_composite_mask_color_span_get(col, dst, pixels, op)` is
an external collaborator and a parameter. -/
def _image_draw_cpu_alpha2rgba
    (evas_common_gfx_func_composite_mask_color_span_get :
      Nat → RGBA_Image → Int → Int → Option RGBA_Gfx_Func)
    (dc : Alpha_Blend_Draw_Context) (dst src : RGBA_Image)
    (src_x src_y src_w src_h dst_x dst_y dst_w dst_h : Int) : Bool × RGBA_Image :=
  if ¬ (src_w = dst_w ∧ src_h = dst_h) then (false, dst)
  else
    match evas_common_gfx_func_composite_mask_color_span_get dc.color dst 1 dc.render_op with
    | none => (false, dst)
    | some func =>
      let sw := src.w
      let dw := dst.w
      (true, dst.store (_image_draw_cpu_alpha2rgba.rows func src.pixels dc.color sw dw src_x dst_x
        src_w (loopCount src_h) (src_y * sw) (dst_y * dw)))

/-- The byte `_image_draw_cpu_rgba2alpha` stores for the source pixel `p`:
`*d = DIVIDE(R_VAL(s) + G_VAL(s) + B_VAL(s))`, narrowed to a `DATA8`. -/
def _image_draw_cpu_rgba2alpha.pixel (div_using_bitshift : Bool) (p : Nat) : Nat :=
  ((DIVIDE div_using_bitshift (DEFINE_DIVIDER div_using_bitshift 3)
    (R_VAL p + G_VAL p + B_VAL p)) % 256).toNat

/-- The pixel loop of `_image_draw_cpu_rgba2alpha`: `x` pixels left, `s` and
`d` as offsets into the two storages. -/
def _image_draw_cpu_rgba2alpha.span (div_using_bitshift : Bool) (src : List Nat) :
    Nat → Int → Int → List Nat → List Nat
  | 0, _, _, dst => dst
  | x + 1, s, d, dst =>
    _image_draw_cpu_rgba2alpha.span div_using_bitshift src x (s + 1) (d + 1)
      (poke dst d (_image_draw_cpu_rgba2alpha.pixel div_using_bitshift (peek src s)))

/-- The scanline loop of `_image_draw_cpu_rgba2alpha`. -/
def _image_draw_cpu_rgba2alpha.rows (div_using_bitshift : Bool) (src : List Nat)
    (sw dw src_x dst_x src_w : Int) : Nat → Int → Int → List Nat → List Nat
  | 0, _, _, dst => dst
  | y + 1, srcdata, dstdata, dst =>
    _image_draw_cpu_rgba2alpha.rows div_using_bitshift src sw dw src_x dst_x src_w y
      (srcdata + sw) (dstdata + dw)
      (_image_draw_cpu_rgba2alpha.span div_using_bitshift src (loopCount src_w)
        (srcdata + src_x) (dstdata + dst_x) dst)

/-- The kernel `_image_draw_cpu_rgba2alpha`; the draw context is unused. -/
def _image_draw_cpu_rgba2alpha (div_using_bitshift : Bool) (dst src : RGBA_Image)
    (src_x src_y src_w src_h dst_x dst_y dst_w dst_h : Int) : Bool × RGBA_Image :=
  if ¬ (src_w = dst_w ∧ src_h = dst_h) then (false, dst)
  else
    let sw := src.w
    let dw := dst.w
    (true, dst.store (_image_draw_cpu_rgba2alpha.rows div_using_bitshift src.pixels sw dw
      src_x dst_x src_w (loopCount src_h) (src_y * sw) (dst_y * dw)))

/-! ## Tiling engine -/

/-- The type `image_draw_func` of the blit callback, acting on a state `σ`:
the eight rectangle arguments, the state before, the boolean result and the
state after.  The arguments `data`, `context`, `surface`, `image`, `smooth` and
`do_async` are the same in every call of one run and are part of the closure. -/
abbrev image_draw_func (σ : Type) :=
  Int → Int → Int → Int → Int → Int → Int → Int → σ → Bool × σ

/-- What `_clip_to_target` writes through its six output pointers. -/
structure ClipResult where
  sx : Int
  sy : Int
  dx : Int
  dy : Int
  rows : Int
  cols : Int
deriving DecidableEq, Repr

/-- Modelled from the spec: `_clip_to_target` is defined in a file that is not
among the sources.  On each axis it keeps the overlap of the source placed at
the offset with the destination: a positive offset moves the destination start,
a negative one moves the source start, and the count is clipped to the
destination extent. -/
def _clip_to_target (sw sh ox oy dw dh : Int) : ClipResult :=
  { sx := if ox < 0 then -ox else 0
    dx := if ox > 0 then ox else 0
    cols := if ox > 0 then MIN sw (dw - ox) else if ox < 0 then MIN (sw + ox) dw else MIN sw dw
    sy := if oy < 0 then -oy else 0
    dy := if oy > 0 then oy else 0
    rows := if oy > 0 then MIN sh (dh - oy) else if oy < 0 then MIN (sh + oy) dh else MIN sh dh }

/-- The column loop `for (; col <= cols; col++)` of `_mapped_blend_cpu` for one
row (`src_y`, `src_h`, `dst_y`, `dst_h`): `n` iterations left, at column `col`.
A column with a non-positive width breaks out of the loop. -/
def _mapped_blend_cpu.colLoop {σ : Type} (image_draw : image_draw_func σ)
    (stretch_x : Bool) (sw dx dw left right cols src_y src_h dst_y dst_h : Int) :
    Nat → Int → σ → σ
  | 0, _, st => st
  | n + 1, col, st =>
    let src_x : Int :=
      if col = -1 ∧ left > 0 then sw - left
      else 0
    let dst_x : Int :=
      if col = -1 ∧ left > 0 then dx
      else if col = cols ∧ right > 0 then left + dx + col * sw
      else if stretch_x then 0
      else left + dx + col * sw
    let src_w : Int :=
      if col = -1 ∧ left > 0 then left
      else if col = cols ∧ right > 0 then right
      else if stretch_x then sw
      else MIN (dw - dst_x) sw
    let dst_w : Int :=
      if col = -1 ∧ left > 0 then src_w
      else if col = cols ∧ right > 0 then src_w
      else if stretch_x then dw
      else src_w
    if src_w ≤ 0 ∨ dst_w ≤ 0 then st
    else
      _mapped_blend_cpu.colLoop image_draw stretch_x sw dx dw left right cols
        src_y src_h dst_y dst_h n (col + 1)
        (image_draw src_x src_y src_w src_h dst_x dst_y dst_w dst_h st).2

/-- The row loop `for (; row <= rows; row++)` of `_mapped_blend_cpu`: `n`
iterations left, at row `row`.  A row with a non-positive height breaks out of
the loop; otherwise the column loop runs from `col = -1` (when `left > 0`) or
`col = 0` up to `cols`. -/
def _mapped_blend_cpu.rowLoop {σ : Type} (image_draw : image_draw_func σ)
    (stretch_x stretch_y : Bool)
    (sw sh dx dy dw dh left right cols top bottom rows : Int) :
    Nat → Int → σ → σ
  | 0, _, st => st
  | n + 1, row, st =>
    let src_y : Int :=
      if row = -1 ∧ top > 0 then sh - top
      else 0
    let dst_y : Int :=
      if row = -1 ∧ top > 0 then dy
      else if row = rows ∧ bottom > 0 then top + dy + row * sh
      else if stretch_y then 0
      else top + dy + row * sh
    let src_h : Int :=
      if row = -1 ∧ top > 0 then top
      else if row = rows ∧ bottom > 0 then bottom
      else if stretch_y then sh
      else MIN (dh - dst_y) sh
    let dst_h : Int :=
      if row = -1 ∧ top > 0 then src_h
      else if row = rows ∧ bottom > 0 then src_h
      else if stretch_y then dh
      else src_h
    if src_h ≤ 0 ∨ dst_h ≤ 0 then st
    else
      let col : Int := if left > 0 then -1 else 0
      _mapped_blend_cpu.rowLoop image_draw stretch_x stretch_y
        sw sh dx dy dw dh left right cols top bottom rows n (row + 1)
        (_mapped_blend_cpu.colLoop image_draw stretch_x sw dx dw left right cols
          src_y src_h dst_y dst_h (cols - col + 1).toNat col st)

/-- The five variables an axis of `_mapped_blend_cpu` is set up with: on X
`left`, `right`, `cols`, `dx`, `dw`; on Y `top`, `bottom`, `rows`, `dy`, `dh`. -/
structure AxisSetup where
  lead : Int
  trail : Int
  count : Int
  off : Int
  extent : Int
deriving DecidableEq, Repr

/-- The X-axis setup of `_mapped_blend_cpu` (the `if` chain on `REPEAT_X`,
`STRETCH_X`); `none` is the trap of `dx % sw` or `dw / sw` with `sw = 0`. -/
def _mapped_blend_cpu.xsetup (fillmode : Evas_Filter_Fill_Mode) (out_w sw dx dw : Int) :
    Option AxisSetup :=
  if fillmode.repeat_x then
    if sw = 0 then none
    else
      let left : Int :=
        if dx > 0 then dx.tmod sw else if dx < 0 then sw + dx.tmod sw else 0
      let cols : Int := dw.tdiv sw
      let right : Int :=
        if left > 0 then dw - (sw * (cols - 1)) - left else dw - (sw * cols)
      some ⟨left, right, cols, 0, dw⟩
  else if fillmode.stretch_x then some ⟨0, 0, 0, 0, out_w⟩
  else some ⟨0, 0, 0, dx, out_w - dx⟩

/-- The Y-axis setup of `_mapped_blend_cpu` (the `if` chain on `REPEAT_Y`,
`STRETCH_Y`); `none` is the trap of `dy % sh` or `dh / sh` with `sh = 0`. -/
def _mapped_blend_cpu.ysetup (fillmode : Evas_Filter_Fill_Mode) (out_h sh dy dh : Int) :
    Option AxisSetup :=
  if fillmode.repeat_y then
    if sh = 0 then none
    else
      let top : Int :=
        if dy > 0 then dy.tmod sh else if dy < 0 then sh + dy.tmod sh else 0
      let rows : Int := dh.tdiv sh
      let bottom : Int :=
        if top > 0 then dh - (sh * (rows - 1)) - top else dh - (sh * rows)
      some ⟨top, bottom, rows, 0, dh⟩
  else if fillmode.stretch_y then some ⟨0, 0, 0, 0, out_h⟩
  else some ⟨0, 0, 0, dy, out_h - dy⟩

/-- The tiling engine `_mapped_blend_cpu`, with the output image's extents `out_w`, `out_h`
(`out->cache_entry.w`, `out->cache_entry.h`).  The result is the state after
the last blit call; `none` is the trap of a `%` or `/` by zero.  The arguments
`sx`, `sy` are only ever overwritten (by `_clip_to_target`). -/
def _mapped_blend_cpu {σ : Type} (image_draw : image_draw_func σ) (st : σ)
    (out_w out_h : Int) (fillmode : Evas_Filter_Fill_Mode)
    (sx sy sw sh dx dy dw dh : Int) : Option σ :=
  if fillmode = EVAS_FILTER_FILL_MODE_NONE then
    let c := _clip_to_target sw sh dx dy out_w out_h
    some (image_draw c.sx c.sy c.cols c.rows c.dx c.dy c.cols c.rows st).2
  else
    match _mapped_blend_cpu.xsetup fillmode out_w sw dx dw,
        _mapped_blend_cpu.ysetup fillmode out_h sh dy dh with
    | some ⟨left, right, cols, dx, dw⟩, some ⟨top, bottom, rows, dy, dh⟩ =>
      let row : Int := if top > 0 then -1 else 0
      some (_mapped_blend_cpu.rowLoop image_draw fillmode.stretch_x fillmode.stretch_y
        sw sh dx dy dw dh left right cols top bottom rows (rows - row + 1).toNat row st)
    | _, _ => none

/-- One blit call: the eight rectangle arguments of `image_draw`. -/
structure Blit where
  src_x : Int
  src_y : Int
  src_w : Int
  src_h : Int
  dst_x : Int
  dst_y : Int
  dst_w : Int
  dst_h : Int
deriving DecidableEq, Repr

/-- A blit callback that only records its arguments, in call order. -/
def Blit.record : image_draw_func (List Blit) :=
  fun src_x src_y src_w src_h dst_x dst_y dst_w dst_h st =>
    (true, st ++ [⟨src_x, src_y, src_w, src_h, dst_x, dst_y, dst_w, dst_h⟩])

/-- The ordered sequence of blit calls `_mapped_blend_cpu` issues. -/
def _mapped_blend_cpu.calls (out_w out_h : Int) (fillmode : Evas_Filter_Fill_Mode)
    (sx sy sw sh dx dy dw dh : Int) : Option (List Blit) :=
  _mapped_blend_cpu Blit.record [] out_w out_h fillmode sx sy sw sh dx dy dw dh

/-! ## Per-axis description of the tiling -/

/-- One interval of an axis: where it starts and how long it is in the source
and in the destination. -/
structure Interval where
  src_pos : Int
  src_len : Int
  dst_pos : Int
  dst_len : Int
deriving DecidableEq, Repr

/-- The blit call made of an X interval and a Y interval. -/
def Blit.ofIntervals (x y : Interval) : Blit :=
  ⟨x.src_pos, y.src_pos, x.src_len, y.src_len, x.dst_pos, y.dst_pos, x.dst_len, y.dst_len⟩

/-- The intervals one axis contributes, walking the index `i` up to `count`
with `n` steps left: index `-1` is the lead (the source's last `lead` units),
index `count` the trail (the source's first `trail` units), any other index a
stretched or clipped full tile; the walk stops at the first interval of
non-positive length. -/
def axisWalk (stretch : Bool) (s : Int) (a : AxisSetup) : Nat → Int → List Interval
  | 0, _ => []
  | n + 1, i =>
    let iv : Interval :=
      if i = -1 ∧ a.lead > 0 then ⟨s - a.lead, a.lead, a.off, a.lead⟩
      else if i = a.count ∧ a.trail > 0 then ⟨0, a.trail, a.lead + a.off + i * s, a.trail⟩
      else if stretch then ⟨0, s, 0, a.extent⟩
      else ⟨0, MIN (a.extent - (a.lead + a.off + i * s)) s, a.lead + a.off + i * s,
        MIN (a.extent - (a.lead + a.off + i * s)) s⟩
    if iv.src_len ≤ 0 ∨ iv.dst_len ≤ 0 then []
    else iv :: axisWalk stretch s a n (i + 1)

/-- The interval list of an axis after its setup: the walk from index `-1`
(with a lead) or `0` up to `count`. -/
def axisIntervals (stretch : Bool) (s : Int) (a : AxisSetup) : List Interval :=
  axisWalk stretch s a (a.count - (if a.lead > 0 then -1 else 0) + 1).toNat
    (if a.lead > 0 then -1 else 0)

/-- The row-major product of a Y interval list and an X interval list: rows
outside, columns inside. -/
def rowMajor (ys xs : List Interval) : List Blit :=
  ys.flatMap fun y => xs.map fun x => Blit.ofIntervals x y

/-- Running a blit callback over a list of calls, left to right, keeping the
state and dropping each boolean result. -/
def runBlits {σ : Type} (image_draw : image_draw_func σ) (st : σ) (l : List Blit) : σ :=
  l.foldl (fun s b =>
    (image_draw b.src_x b.src_y b.src_w b.src_h b.dst_x b.dst_y b.dst_w b.dst_h s).2) st

/-- The setup of one axis from that axis's inputs alone: its Repeat and
Stretch flags, the output extent `out`, the tile extent `s`, the offset `o` and
the destination extent `d`.  `none` is the division trap of a Repeat axis whose
tile extent is zero. -/
def axisSetup (rep stretch : Bool) (out s o d : Int) : Option AxisSetup :=
  if rep then
    if s = 0 then none
    else
      let lead : Int := if o > 0 then o.tmod s else if o < 0 then s + o.tmod s else 0
      let count : Int := d.tdiv s
      let trail : Int := if lead > 0 then d - (s * (count - 1)) - lead else d - (s * count)
      some ⟨lead, trail, count, 0, d⟩
  else if stretch then some ⟨0, 0, 0, 0, out⟩
  else some ⟨0, 0, 0, o, out - o⟩

/-- The interval list of one axis, a function of that axis's inputs alone. -/
def axisList (rep stretch : Bool) (out s o d : Int) : Option (List Interval) :=
  (axisSetup rep stretch out s o d).map (axisIntervals stretch s)

/-! ## Blend functions -/

/-- What a blend function does besides writing pixels, in the order it does
it: taking and releasing the buffer lock, asking the scaler for a copy of size
`w`x`h`, clearing the `locked` flag of the buffer received, the draw-context
calls of the engine, and each blit call with its eight rectangle arguments. -/
inductive Event where
  | buffers_lock
  | scaled_get (w h : Int)
  | buffers_unlock
  | locked_clear
  | context_new
  | context_color_set (r g b a : Nat)
  | context_render_op_set (op : Int)
  | context_clip_set (x y w h : Int)
  | context_clip_clip (x y w h : Int)
  | image_draw (b : Blit)
  | context_free
deriving DecidableEq, Repr

/-- The state a blend function threads through its blit calls: the output
image and the events so far. -/
structure Run where
  out : RGBA_Image
  trace : List Event
deriving DecidableEq, Repr

/-- What a blend function leaves behind: its `Eina_Bool` result, the output
buffer's backing image after the call, and the events in order. -/
structure Outcome where
  ok : Bool
  backing : Option RGBA_Image
  trace : List Event
deriving DecidableEq, Repr

/-- A pixel-loop kernel as `_filter_blend_cpu_generic_do` receives it: draw
context, surface (destination), image (source), the eight rectangle arguments;
the result and the surface after the call. -/
abbrev kernel_func :=
  Alpha_Blend_Draw_Context → RGBA_Image → RGBA_Image →
    Int → Int → Int → Int → Int → Int → Int → Int → Bool × RGBA_Image

/-- The blit callback a blend function hands to `_mapped_blend_cpu`: it runs
the draw function `draw` on the current output image and records the call. -/
def Run.blit (draw : RGBA_Image → Int → Int → Int → Int → Int → Int → Int → Int →
    Bool × RGBA_Image) : image_draw_func Run :=
  fun src_x src_y src_w src_h dst_x dst_y dst_w dst_h st =>
    let r := draw st.out src_x src_y src_w src_h dst_x dst_y dst_w dst_h
    (r.1, ⟨r.2, st.trace ++
      [Event.image_draw ⟨src_x, src_y, src_w, src_h, dst_x, dst_y, dst_w, dst_h⟩]⟩)

/-- The function `_filter_blend_cpu_generic_do`.  The scaler
`evas_filter_buffer_scaled_get(ctx, input, w, h)` is an external collaborator
and a parameter; `none` from it is the null buffer.

The result `none` is a crash: a null `cmd->input` or `cmd->output` (both are
dereferenced unchecked), a division trap of the tiling engine, or a scaled
buffer without backing image when at least one blit call would read it. -/
def _filter_blend_cpu_generic_do
    (evas_filter_buffer_scaled_get : Evas_Filter_Buffer → Int → Int → Option Evas_Filter_Buffer)
    (image_draw : kernel_func) (cmd : Evas_Filter_Command) : Option Outcome :=
  match cmd.input, cmd.output with
  | some input, some output =>
    match input.backing, output.backing with
    | none, backing => some ⟨false, backing, []⟩
    | some _, none => some ⟨false, none, []⟩
    | some in_, some out =>
      if in_.data = none then some ⟨false, some out, []⟩
      else if out.data = none then some ⟨false, some out, []⟩
      else
        let sx : Int := 0
        let sy : Int := 0
        let sw : Int := in_.w
        let sh : Int := in_.h
        let dx : Int := cmd.draw.ox
        let dy : Int := cmd.draw.oy
        let dw : Int := out.w
        let dh : Int := out.h
        if dw ≤ 0 ∨ dh ≤ 0 ∨ sw ≤ 0 ∨ sh ≤ 0 then some ⟨true, some out, []⟩
        else
          let dc : Alpha_Blend_Draw_Context :=
            ⟨cmd.draw.render_op, ARGB_JOIN cmd.draw.A cmd.draw.R cmd.draw.G cmd.draw.B⟩
          if (sw ≠ dw ∨ sh ≠ dh) ∧
              (cmd.draw.fillmode.stretch_x = true ∨ cmd.draw.fillmode.stretch_y = true) then
            let sw : Int := if cmd.draw.fillmode.stretch_x then dw else sw
            let sh : Int := if cmd.draw.fillmode.stretch_y then dh else sh
            let asked : List Event :=
              [Event.buffers_lock, Event.scaled_get sw sh, Event.buffers_unlock]
            match evas_filter_buffer_scaled_get input sw sh with
            | none => some ⟨false, some out, asked⟩
            | some fb =>
              match fb.backing with
              | some in_ =>
                (_mapped_blend_cpu (Run.blit fun surface => image_draw dc surface in_)
                  ⟨out, asked ++ [Event.locked_clear]⟩ out.w out.h cmd.draw.fillmode
                  sx sy sw sh dx dy dw dh).map fun st => ⟨true, some st.out, st.trace⟩
              | none =>
                match _mapped_blend_cpu.calls out.w out.h cmd.draw.fillmode
                    sx sy sw sh dx dy dw dh with
                | some [] => some ⟨true, some out, asked ++ [Event.locked_clear]⟩
                | _ => none
          else
            (_mapped_blend_cpu (Run.blit fun surface => image_draw dc surface in_)
              ⟨out, []⟩ out.w out.h cmd.draw.fillmode
              sx sy sw sh dx dy dw dh).map fun st => ⟨true, some st.out, st.trace⟩
  | _, _ => none

/-- The blend function `_filter_blend_cpu_alpha`. -/
def _filter_blend_cpu_alpha
    (evas_common_alpha_func_get : Int → Option Alpha_Gfx_Func)
    (evas_filter_buffer_scaled_get : Evas_Filter_Buffer → Int → Int → Option Evas_Filter_Buffer)
    (cmd : Evas_Filter_Command) : Option Outcome :=
  _filter_blend_cpu_generic_do evas_filter_buffer_scaled_get
    (_image_draw_cpu_alpha2alpha evas_common_alpha_func_get) cmd

/-- The blend function `_filter_blend_cpu_mask_rgba`. -/
def _filter_blend_cpu_mask_rgba
    (evas_common_gfx_func_composite_mask_color_span_get :
      Nat → RGBA_Image → Int → Int → Option RGBA_Gfx_Func)
    (evas_filter_buffer_scaled_get : Evas_Filter_Buffer → Int → Int → Option Evas_Filter_Buffer)
    (cmd : Evas_Filter_Command) : Option Outcome :=
  _filter_blend_cpu_generic_do evas_filter_buffer_scaled_get
    (_image_draw_cpu_alpha2rgba evas_common_gfx_func_composite_mask_color_span_get) cmd

/-- The blend function `_filter_blend_cpu_rgba2alpha`; its kernel ignores the
draw context. -/
def _filter_blend_cpu_rgba2alpha (div_using_bitshift : Bool)
    (evas_filter_buffer_scaled_get : Evas_Filter_Buffer → Int → Int → Option Evas_Filter_Buffer)
    (cmd : Evas_Filter_Command) : Option Outcome :=
  _filter_blend_cpu_generic_do evas_filter_buffer_scaled_get
    (fun _ => _image_draw_cpu_rgba2alpha div_using_bitshift) cmd

/-- The engine functions `cmd->ENFN` that `_filter_blend_cpu_rgba` calls, over
a draw-context type `κ`.  They are external collaborators; the context is
passed along functionally, and `image_draw` takes the context, the surface,
the image and the eight rectangle arguments (smooth, not asynchronous). -/
structure Evas_Func (κ : Type) where
  context_new : κ
  context_color_set : κ → Nat → Nat → Nat → Nat → κ
  context_render_op_set : κ → Int → κ
  context_clip_set : κ → Int → Int → Int → Int → κ
  context_clip_clip : κ → Int → Int → Int → Int → κ
  image_draw : κ → RGBA_Image → RGBA_Image →
    Int → Int → Int → Int → Int → Int → Int → Int → Bool × RGBA_Image

/-- The draw context `_filter_blend_cpu_rgba` builds for a command on an
output of extents `out_w`, `out_h`. -/
def _filter_blend_cpu_rgba.drawctx {κ : Type} (ENFN : Evas_Func κ) (cmd : Evas_Filter_Command)
    (out_w out_h : Int) : κ :=
  let drawctx := ENFN.context_new
  let drawctx := ENFN.context_color_set drawctx cmd.draw.R cmd.draw.G cmd.draw.B cmd.draw.A
  let drawctx := ENFN.context_render_op_set drawctx cmd.draw.render_op
  if cmd.draw.clip_use then
    ENFN.context_clip_clip
      (ENFN.context_clip_set drawctx cmd.draw.clip.x cmd.draw.clip.y cmd.draw.clip.w
        cmd.draw.clip.h)
      0 0 out_w out_h
  else
    ENFN.context_clip_set drawctx 0 0 out_w out_h

/-- The events of building that draw context, in call order. -/
def _filter_blend_cpu_rgba.setup (cmd : Evas_Filter_Command) (out_w out_h : Int) : List Event :=
  [Event.context_new,
    Event.context_color_set cmd.draw.R cmd.draw.G cmd.draw.B cmd.draw.A,
    Event.context_render_op_set cmd.draw.render_op] ++
  (if cmd.draw.clip_use then
    [Event.context_clip_set cmd.draw.clip.x cmd.draw.clip.y cmd.draw.clip.w cmd.draw.clip.h,
      Event.context_clip_clip 0 0 out_w out_h]
  else [Event.context_clip_set 0 0 out_w out_h])

/-- The blend function `_filter_blend_cpu_rgba`.  The result `none` is a
crash: a null `cmd->input` or `cmd->output`, or a division trap of the tiling
engine. -/
def _filter_blend_cpu_rgba {κ : Type} (ENFN : Evas_Func κ) (cmd : Evas_Filter_Command) :
    Option Outcome :=
  match cmd.input, cmd.output with
  | some input, some output =>
    match input.backing, output.backing with
    | none, backing => some ⟨false, backing, []⟩
    | some _, none => some ⟨false, none, []⟩
    | some in_, some out =>
      if in_.data = none then some ⟨false, some out, []⟩
      else if out.data = none then some ⟨false, some out, []⟩
      else
        let sx : Int := 0
        let sy : Int := 0
        let sw : Int := in_.w
        let sh : Int := in_.h
        let dx : Int := cmd.draw.ox
        let dy : Int := cmd.draw.oy
        let dw : Int := out.w
        let dh : Int := out.h
        if dw ≤ 0 ∨ dh ≤ 0 ∨ sw ≤ 0 ∨ sh ≤ 0 then some ⟨true, some out, []⟩
        else
          let drawctx := _filter_blend_cpu_rgba.drawctx ENFN cmd out.w out.h
          (_mapped_blend_cpu (Run.blit fun surface => ENFN.image_draw drawctx surface in_)
            ⟨out, _filter_blend_cpu_rgba.setup cmd out.w out.h⟩ out.w out.h cmd.draw.fillmode
            sx sy sw sh dx dy dw dh).map fun st =>
              ⟨true, some st.out, st.trace ++ [Event.context_free]⟩
  | _, _ => none

/-- The function a selection stands for, given the collaborators. -/
def Evas_Filter_Apply_Func.apply {κ : Type}
    (evas_common_alpha_func_get : Int → Option Alpha_Gfx_Func)
    (evas_common_gfx_func_composite_mask_color_span_get :
      Nat → RGBA_Image → Int → Int → Option RGBA_Gfx_Func)
    (div_using_bitshift : Bool)
    (evas_filter_buffer_scaled_get : Evas_Filter_Buffer → Int → Int → Option Evas_Filter_Buffer)
    (ENFN : Evas_Func κ) : Evas_Filter_Apply_Func → Evas_Filter_Command → Option Outcome
  | Evas_Filter_Apply_Func._filter_blend_cpu_alpha =>
    EvasFilterBlend._filter_blend_cpu_alpha evas_common_alpha_func_get evas_filter_buffer_scaled_get
  | Evas_Filter_Apply_Func._filter_blend_cpu_mask_rgba =>
    EvasFilterBlend._filter_blend_cpu_mask_rgba evas_common_gfx_func_composite_mask_color_span_get
      evas_filter_buffer_scaled_get
  | Evas_Filter_Apply_Func._filter_blend_cpu_rgba2alpha =>
    EvasFilterBlend._filter_blend_cpu_rgba2alpha div_using_bitshift evas_filter_buffer_scaled_get
  | Evas_Filter_Apply_Func._filter_blend_cpu_rgba =>
    EvasFilterBlend._filter_blend_cpu_rgba ENFN

/-! ## Span functions of the operator table -/

/-- A span function that combines pixel by pixel: `len` times, left to right,
`dst[k] = f(src[k], dst[k])`. -/
def combineSpan (f : Nat → Nat → Nat) (src : List Nat) :
    Nat → Int → Int → List Nat → List Nat
  | 0, _, _, dst => dst
  | n + 1, s, d, dst =>
    combineSpan f src n (s + 1) (d + 1) (poke dst d (f (peek src s) (peek dst d)))

/-- The `Alpha_Gfx_Func` that applies the per-pixel combine `f`. -/
def Alpha_Gfx_Func.ofCombine (f : Nat → Nat → Nat) : Alpha_Gfx_Func :=
  fun src s dst d len => combineSpan f src len.toNat s d dst

/-- A span function `func` applies the per-pixel combine `f`: it keeps the
length of the destination storage, every destination position of the span
`[d, d + len)` inside the storage ends up as `f` of the source byte at the
same place in the span and the old destination byte, and every other position
keeps its byte. -/
def AppliesCombine (f : Nat → Nat → Nat) (func : Alpha_Gfx_Func) : Prop :=
  ∀ (src : List Nat) (s : Int) (dst : List Nat) (d len idx : Int),
    (func src s dst d len).length = dst.length ∧
    peek (func src s dst d len) idx =
      if d ≤ idx ∧ idx < d + len ∧ 0 ≤ idx ∧ idx < dst.length then
        f (peek src (s + (idx - d))) (peek dst idx)
      else peek dst idx

/-! ## Descriptions used by the statements about blend functions -/

/-- Running a draw function over a list of calls, left to right, keeping the
surface and dropping each boolean result. -/
def blitAll (draw : RGBA_Image → Int → Int → Int → Int → Int → Int → Int → Int →
    Bool × RGBA_Image) (out : RGBA_Image) (l : List Blit) : RGBA_Image :=
  l.foldl (fun o b =>
    (draw o b.src_x b.src_y b.src_w b.src_h b.dst_x b.dst_y b.dst_w b.dst_h).2) out

/-- Where a run stands with respect to the buffer lock: not holding it,
holding it before the lookup, holding it after the lookup. -/
inductive LockState where
  | free
  | held
  | looked_up
deriving DecidableEq, Repr

/-- One event under the lock discipline: the lock is taken only when free, the
scaler lookup is the one thing done while holding it, the unlock follows the
lookup, and every other event needs the lock to be free.  `none` is a
violation. -/
def lockStep : LockState → Event → Option LockState
  | LockState.free, Event.buffers_lock => some LockState.held
  | LockState.held, Event.scaled_get _ _ => some LockState.looked_up
  | LockState.looked_up, Event.buffers_unlock => some LockState.free
  | LockState.free, Event.scaled_get _ _ => none
  | LockState.free, Event.buffers_unlock => none
  | LockState.free, _ => some LockState.free
  | _, _ => none

/-- The lock state after a list of events, `none` after a violation. -/
def lockRun : LockState → List Event → Option LockState
  | st, [] => some st
  | st, e :: tr =>
    match lockStep st e with
    | none => none
    | some st2 => lockRun st2 tr

/-- A trace keeps the lock discipline when it runs without violation and ends
with the lock free. -/
def lockDiscipline (tr : List Event) : Bool :=
  lockRun LockState.free tr == some LockState.free

/-- The destination rectangle of a call covers the storage position `idx` of
an image of width `w`. -/
def Blit.covers (b : Blit) (w : Int) (idx : Int) : Prop :=
  ∃ i j : Nat, (i : Int) < b.dst_w ∧ (j : Int) < b.dst_h ∧
    idx = (b.dst_y + j) * w + b.dst_x + i

/-- The destination rectangle of `a` ends before that of `b` begins, in X or
in Y. -/
def Blit.before (a b : Blit) : Prop :=
  a.dst_x + a.dst_w ≤ b.dst_x ∨ a.dst_y + a.dst_h ≤ b.dst_y

/-- A call has equal extents on both sides and a destination rectangle of
non-negative extents inside an image of extents `w`, `h`. -/
def Blit.fits (b : Blit) (w h : Int) : Prop :=
  b.src_w = b.dst_w ∧ b.src_h = b.dst_h ∧ 0 ≤ b.dst_w ∧ 0 ≤ b.dst_h ∧
    0 ≤ b.dst_x ∧ b.dst_x + b.dst_w ≤ w ∧ 0 ≤ b.dst_y ∧ b.dst_y + b.dst_h ≤ h

/-- An interval list is in ascending order on the destination side: each
interval ends before any later one begins. -/
def Ascending (l : List Interval) : Prop :=
  l.Pairwise fun x y => x.dst_pos + x.dst_len ≤ y.dst_pos

/-- The fill mode with the X flags and the Y flags exchanged. -/
def Evas_Filter_Fill_Mode.transpose (m : Evas_Filter_Fill_Mode) : Evas_Filter_Fill_Mode :=
  ⟨m.stretch_y, m.stretch_x, m.repeat_y, m.repeat_x⟩

/-- The call with X and Y exchanged on both sides. -/
def Blit.transpose (b : Blit) : Blit :=
  ⟨b.src_y, b.src_x, b.src_h, b.src_w, b.dst_y, b.dst_x, b.dst_h, b.dst_w⟩

/-- The destination rectangles of two calls lie apart: one of them ends before
the other begins, in X or in Y. -/
def Blit.apart (a b : Blit) : Prop := a.before b ∨ b.before a

/-! ## Dispatcher: selection table and null result -/

/-- C1: for a command whose input and output buffers are present, the selected
function is the table entry of `(input.alpha_only, output.alpha_only)`, and two
such commands that agree on these two flags get the same selection whatever
else they carry. -/
theorem func_get_selects_by_format (cmd : Evas_Filter_Command) (i o : Evas_Filter_Buffer)
    (hi : cmd.input = some i) (ho : cmd.output = some o) :
    evas_filter_blend_cpu_func_get (some cmd) =
        some (match i.alpha_only, o.alpha_only with
          | true, true => Evas_Filter_Apply_Func._filter_blend_cpu_alpha
          | true, false => Evas_Filter_Apply_Func._filter_blend_cpu_mask_rgba
          | false, true => Evas_Filter_Apply_Func._filter_blend_cpu_rgba2alpha
          | false, false => Evas_Filter_Apply_Func._filter_blend_cpu_rgba) ∧
      ∀ (cmd2 : Evas_Filter_Command) (i2 o2 : Evas_Filter_Buffer),
        cmd2.input = some i2 → cmd2.output = some o2 →
        i2.alpha_only = i.alpha_only → o2.alpha_only = o.alpha_only →
        evas_filter_blend_cpu_func_get (some cmd2) = evas_filter_blend_cpu_func_get (some cmd) := by
  refine ⟨?_, ?_⟩
  · simp only [evas_filter_blend_cpu_func_get, hi, ho]
    cases i.alpha_only <;> cases o.alpha_only <;> rfl
  · intro cmd2 i2 o2 hi2 ho2 hia hoa
    simp only [evas_filter_blend_cpu_func_get, hi, ho, hi2, ho2, hia, hoa]

/-- Witness of C1: an alpha-only input blended onto an RGBA output. -/
theorem func_get_selects_by_format_witness :
    evas_filter_blend_cpu_func_get
        (some ⟨some ⟨true, false, none⟩, some ⟨false, false, none⟩,
          ⟨0, 0, EVAS_FILTER_FILL_MODE_NONE, 0, 0, 0, 0, 0, false, ⟨0, 0, 0, 0⟩⟩⟩) =
      some Evas_Filter_Apply_Func._filter_blend_cpu_mask_rgba :=
  (func_get_selects_by_format
    ⟨some ⟨true, false, none⟩, some ⟨false, false, none⟩,
      ⟨0, 0, EVAS_FILTER_FILL_MODE_NONE, 0, 0, 0, 0, 0, false, ⟨0, 0, 0, 0⟩⟩⟩
    ⟨true, false, none⟩ ⟨false, false, none⟩ rfl rfl).1

/-- C2: the selection is null exactly when the command, its output buffer or
its input buffer is absent; otherwise it is one of the four blend functions. -/
theorem func_get_null_iff (cmd : Option Evas_Filter_Command) :
    (evas_filter_blend_cpu_func_get cmd = none ↔
        (cmd = none ∨ (∃ c, cmd = some c ∧ (c.output = none ∨ c.input = none)))) ∧
      (¬ (cmd = none ∨ (∃ c, cmd = some c ∧ (c.output = none ∨ c.input = none))) →
        evas_filter_blend_cpu_func_get cmd = some Evas_Filter_Apply_Func._filter_blend_cpu_alpha ∨
        evas_filter_blend_cpu_func_get cmd = some Evas_Filter_Apply_Func._filter_blend_cpu_mask_rgba ∨
        evas_filter_blend_cpu_func_get cmd = some Evas_Filter_Apply_Func._filter_blend_cpu_rgba2alpha ∨
        evas_filter_blend_cpu_func_get cmd = some Evas_Filter_Apply_Func._filter_blend_cpu_rgba) := by
  cases cmd with
  | none => simp [evas_filter_blend_cpu_func_get]
  | some c =>
    rcases c with ⟨input, output, draw⟩
    cases input with
    | none => cases output <;> simp [evas_filter_blend_cpu_func_get]
    | some i =>
      cases output with
      | none => simp [evas_filter_blend_cpu_func_get]
      | some o =>
        rcases i with ⟨ia, il, ib⟩
        rcases o with ⟨oa, ol, ob⟩
        cases ia <;> cases oa <;> simp [evas_filter_blend_cpu_func_get]

/-! ## Kernels: the size check -/

/-- C4: each of the three pixel-loop kernels, called with `src_w ≠ dst_w` or
`src_h ≠ dst_h`, returns failure and hands back the destination image exactly
as it received it, whatever the operator table holds. -/
theorem kernels_reject_size_mismatch
    (alpha_func_get : Int → Option Alpha_Gfx_Func)
    (mask_color_span_get : Nat → RGBA_Image → Int → Int → Option RGBA_Gfx_Func)
    (div_using_bitshift : Bool) (dc : Alpha_Blend_Draw_Context) (dst src : RGBA_Image)
    (src_x src_y src_w src_h dst_x dst_y dst_w dst_h : Int)
    (hne : src_w ≠ dst_w ∨ src_h ≠ dst_h) :
    _image_draw_cpu_alpha2alpha alpha_func_get dc dst src
        src_x src_y src_w src_h dst_x dst_y dst_w dst_h = (false, dst) ∧
      _image_draw_cpu_alpha2rgba mask_color_span_get dc dst src
        src_x src_y src_w src_h dst_x dst_y dst_w dst_h = (false, dst) ∧
      _image_draw_cpu_rgba2alpha div_using_bitshift dst src
        src_x src_y src_w src_h dst_x dst_y dst_w dst_h = (false, dst) := by
  have h : ¬ (src_w = dst_w ∧ src_h = dst_h) := by
    rintro ⟨h1, h2⟩
    rcases hne with h | h
    · exact h h1
    · exact h h2
  refine ⟨?_, ?_, ?_⟩
  · simp only [_image_draw_cpu_alpha2alpha, h, not_false_eq_true, if_true]
  · simp only [_image_draw_cpu_alpha2rgba, h, not_false_eq_true, if_true]
  · simp only [_image_draw_cpu_rgba2alpha, h, not_false_eq_true, if_true]

/-- Witness of C4: a 2x2 rectangle blitted onto a 3x2 one, with an operator
that would overwrite every destination byte with 7. -/
theorem kernels_reject_size_mismatch_witness :
    _image_draw_cpu_alpha2alpha (fun _ => some (fun _ _ dst _ _ => dst.map (fun _ => 7)))
        ⟨0, 0⟩ ⟨3, 2, some [1, 2, 3, 4, 5, 6]⟩ ⟨2, 2, some [9, 9, 9, 9]⟩
        0 0 2 2 0 0 3 2 = (false, ⟨3, 2, some [1, 2, 3, 4, 5, 6]⟩) :=
  (kernels_reject_size_mismatch (fun _ => some (fun _ _ dst _ _ => dst.map (fun _ => 7)))
    (fun _ _ _ _ => none) true ⟨0, 0⟩ ⟨3, 2, some [1, 2, 3, 4, 5, 6]⟩ ⟨2, 2, some [9, 9, 9, 9]⟩
    0 0 2 2 0 0 3 2 (Or.inl (by decide))).1

/-! ## Tiling engine: the calls are a row-major product -/

theorem runBlits_nil {σ : Type} (image_draw : image_draw_func σ) (st : σ) :
    runBlits image_draw st [] = st := rfl

theorem runBlits_cons {σ : Type} (image_draw : image_draw_func σ) (st : σ) (b : Blit)
    (l : List Blit) :
    runBlits image_draw st (b :: l) =
      runBlits image_draw
        (image_draw b.src_x b.src_y b.src_w b.src_h b.dst_x b.dst_y b.dst_w b.dst_h st).2 l := rfl

theorem runBlits_append {σ : Type} (image_draw : image_draw_func σ) (st : σ)
    (l₁ l₂ : List Blit) :
    runBlits image_draw st (l₁ ++ l₂) = runBlits image_draw (runBlits image_draw st l₁) l₂ := by
  simp [runBlits, List.foldl_append]

theorem runBlits_record (st l : List Blit) : runBlits Blit.record st l = st ++ l := by
  induction l generalizing st with
  | nil => simp [runBlits]
  | cons b l ih =>
    rw [runBlits_cons, ih]
    simp [Blit.record]

theorem xsetup_eq_axisSetup (fillmode : Evas_Filter_Fill_Mode) (out_w sw dx dw : Int) :
    _mapped_blend_cpu.xsetup fillmode out_w sw dx dw =
      axisSetup fillmode.repeat_x fillmode.stretch_x out_w sw dx dw := rfl

theorem ysetup_eq_axisSetup (fillmode : Evas_Filter_Fill_Mode) (out_h sh dy dh : Int) :
    _mapped_blend_cpu.ysetup fillmode out_h sh dy dh =
      axisSetup fillmode.repeat_y fillmode.stretch_y out_h sh dy dh := rfl

theorem colLoop_eq_runBlits {σ : Type} (image_draw : image_draw_func σ) (stretch_x : Bool)
    (sw dx dw left right cols src_y src_h dst_y dst_h : Int) (n : Nat) (col : Int) (st : σ) :
    _mapped_blend_cpu.colLoop image_draw stretch_x sw dx dw left right cols
        src_y src_h dst_y dst_h n col st =
      runBlits image_draw st
        ((axisWalk stretch_x sw ⟨left, right, cols, dx, dw⟩ n col).map
          fun x => Blit.ofIntervals x ⟨src_y, src_h, dst_y, dst_h⟩) := by
  induction n generalizing col st with
  | zero => rfl
  | succ n ih =>
    unfold _mapped_blend_cpu.colLoop axisWalk
    have step : ∀ (b : Interval) (l : List Interval) (s : σ),
        runBlits image_draw s ((b :: l).map
          fun x => Blit.ofIntervals x ⟨src_y, src_h, dst_y, dst_h⟩) =
        runBlits image_draw
          (image_draw b.src_pos src_y b.src_len src_h b.dst_pos dst_y b.dst_len dst_h s).2
          (l.map fun x => Blit.ofIntervals x ⟨src_y, src_h, dst_y, dst_h⟩) := by
      intro b l s
      rfl
    by_cases h1 : col = -1 ∧ left > 0
    · simp only [h1, and_self, if_true]
      split_ifs
      · rfl
      · rw [step, ih]
    · by_cases h2 : col = cols ∧ right > 0
      · simp only [h1, h2, and_self, if_true, if_false]
        split_ifs
        all_goals first
          | rfl
          | rw [step, ih]
      · cases stretch_x
        · simp only [h1, h2, if_false, Bool.false_eq_true]
          split_ifs
          all_goals first
            | rfl
            | rw [step, ih]
        · simp only [h1, h2, if_false, if_true]
          split_ifs
          all_goals first
            | rfl
            | rw [step, ih]

theorem rowMajor_nil (xs : List Interval) : rowMajor [] xs = [] := rfl

theorem rowMajor_cons (y : Interval) (ys xs : List Interval) :
    rowMajor (y :: ys) xs = (xs.map fun x => Blit.ofIntervals x y) ++ rowMajor ys xs := by
  simp [rowMajor]

theorem rowLoop_eq_runBlits {σ : Type} (image_draw : image_draw_func σ)
    (stretch_x stretch_y : Bool)
    (sw sh dx dy dw dh left right cols top bottom rows : Int) (n : Nat) (row : Int) (st : σ) :
    _mapped_blend_cpu.rowLoop image_draw stretch_x stretch_y
        sw sh dx dy dw dh left right cols top bottom rows n row st =
      runBlits image_draw st
        (rowMajor (axisWalk stretch_y sh ⟨top, bottom, rows, dy, dh⟩ n row)
          (axisIntervals stretch_x sw ⟨left, right, cols, dx, dw⟩)) := by
  induction n generalizing row st with
  | zero => rfl
  | succ n ih =>
    unfold _mapped_blend_cpu.rowLoop axisWalk
    generalize hcol : (if left > 0 then (-1 : Int) else 0) = col0
    have step : ∀ (y : Interval) (l : List Interval) (s : σ),
        runBlits image_draw s
          (rowMajor (y :: l) (axisIntervals stretch_x sw ⟨left, right, cols, dx, dw⟩)) =
        runBlits image_draw
          (_mapped_blend_cpu.colLoop image_draw stretch_x sw dx dw left right cols
            y.src_pos y.src_len y.dst_pos y.dst_len
            (cols - col0 + 1).toNat col0 s)
          (rowMajor l (axisIntervals stretch_x sw ⟨left, right, cols, dx, dw⟩)) := by
      intro y l s
      rw [rowMajor_cons, runBlits_append, colLoop_eq_runBlits, axisIntervals]
      simp only [hcol]
    by_cases h1 : row = -1 ∧ top > 0
    · simp only [h1, and_self, if_true]
      split_ifs
      all_goals first
        | rfl
        | rw [step, ih]
    · by_cases h2 : row = rows ∧ bottom > 0
      · simp only [h1, h2, and_self, if_true, if_false]
        split_ifs
        all_goals first
          | rfl
          | rw [step, ih]
      · cases stretch_y
        · simp only [h1, h2, if_false, Bool.false_eq_true]
          split_ifs
          all_goals first
            | rfl
            | rw [step, ih]
        · simp only [h1, h2, if_false, if_true]
          split_ifs
          all_goals first
            | rfl
            | rw [step, ih]

theorem mapped_blend_cpu_eq_runBlits {σ : Type} (image_draw : image_draw_func σ) (st : σ)
    (out_w out_h : Int) (fillmode : Evas_Filter_Fill_Mode) (sx sy sw sh dx dy dw dh : Int)
    (hfill : fillmode ≠ EVAS_FILTER_FILL_MODE_NONE) :
    _mapped_blend_cpu image_draw st out_w out_h fillmode sx sy sw sh dx dy dw dh =
      (axisList fillmode.repeat_x fillmode.stretch_x out_w sw dx dw).bind fun xs =>
        (axisList fillmode.repeat_y fillmode.stretch_y out_h sh dy dh).bind fun ys =>
          some (runBlits image_draw st (rowMajor ys xs)) := by
  unfold _mapped_blend_cpu axisList
  rw [if_neg hfill, xsetup_eq_axisSetup, ysetup_eq_axisSetup]
  cases hx : axisSetup fillmode.repeat_x fillmode.stretch_x out_w sw dx dw with
  | none => rfl
  | some x =>
    cases hy : axisSetup fillmode.repeat_y fillmode.stretch_y out_h sh dy dh with
    | none => rfl
    | some y =>
      rcases x with ⟨left, right, cols, dx2, dw2⟩
      rcases y with ⟨top, bottom, rows, dy2, dh2⟩
      simp only [Option.map_some', Option.some_bind]
      rw [rowLoop_eq_runBlits]
      rfl

theorem calls_eq_rowMajor (out_w out_h : Int) (fillmode : Evas_Filter_Fill_Mode)
    (sx sy sw sh dx dy dw dh : Int) (hfill : fillmode ≠ EVAS_FILTER_FILL_MODE_NONE) :
    _mapped_blend_cpu.calls out_w out_h fillmode sx sy sw sh dx dy dw dh =
      (axisList fillmode.repeat_x fillmode.stretch_x out_w sw dx dw).bind fun xs =>
        (axisList fillmode.repeat_y fillmode.stretch_y out_h sh dy dh).bind fun ys =>
          some (rowMajor ys xs) := by
  unfold _mapped_blend_cpu.calls
  rw [mapped_blend_cpu_eq_runBlits _ _ _ _ _ _ _ _ _ _ _ _ _ hfill]
  simp only [runBlits_record, List.nil_append]

/-- C10: for every fill mode other than None, running `_mapped_blend_cpu` with
any blit callback from any state is running that callback over one fixed list
of calls, the row-major product (rows outside, columns inside) of the Y
interval list and the X interval list; the X list is `axisList` of the X
inputs (`REPEAT_X`, `STRETCH_X`, `out.w`, `sw`, `dx`, `dw`) and the Y list is
`axisList` of the Y inputs, so the list depends on the geometry and the fill
mode alone and each row has the same columns. -/
theorem mapped_blend_cpu_row_major {σ : Type} (image_draw : image_draw_func σ) (st : σ)
    (out_w out_h : Int) (fillmode : Evas_Filter_Fill_Mode) (sx sy sw sh dx dy dw dh : Int)
    (hfill : fillmode ≠ EVAS_FILTER_FILL_MODE_NONE) :
    _mapped_blend_cpu image_draw st out_w out_h fillmode sx sy sw sh dx dy dw dh =
        ((axisList fillmode.repeat_x fillmode.stretch_x out_w sw dx dw).bind fun xs =>
          (axisList fillmode.repeat_y fillmode.stretch_y out_h sh dy dh).bind fun ys =>
            some (runBlits image_draw st (rowMajor ys xs))) ∧
      _mapped_blend_cpu.calls out_w out_h fillmode sx sy sw sh dx dy dw dh =
        ((axisList fillmode.repeat_x fillmode.stretch_x out_w sw dx dw).bind fun xs =>
          (axisList fillmode.repeat_y fillmode.stretch_y out_h sh dy dh).bind fun ys =>
            some (rowMajor ys xs)) :=
  ⟨mapped_blend_cpu_eq_runBlits image_draw st out_w out_h fillmode sx sy sw sh dx dy dw dh hfill,
    calls_eq_rowMajor out_w out_h fillmode sx sy sw sh dx dy dw dh hfill⟩

/-- Witness of C10: Repeat on both axes, a 10x8 tile on a 25x20 output: three
rows of three columns, in row-major order. -/
theorem mapped_blend_cpu_row_major_witness :
    _mapped_blend_cpu.calls 25 20 ⟨false, false, true, true⟩ 0 0 10 8 0 0 25 20 =
      ((axisList true false 25 10 0 25).bind fun xs =>
        (axisList true false 20 8 0 20).bind fun ys => some (rowMajor ys xs)) :=
  (mapped_blend_cpu_row_major Blit.record [] 25 20 ⟨false, false, true, true⟩
    0 0 10 8 0 0 25 20 (by decide)).2

/-! ## Tiling engine: Stretch on both axes -/

/-- C9: with fill mode `STRETCH_X | STRETCH_Y`, positive source and output
extents and any offset, `_mapped_blend_cpu` makes exactly one blit call, from
the whole source `(0, 0, sw, sh)` to the whole output `(0, 0, out.w, out.h)`;
the offset `(dx, dy)` and the extents `dw`, `dh` passed in play no part. -/
theorem stretch_xy_single_blit {σ : Type} (image_draw : image_draw_func σ) (st : σ)
    (out_w out_h sx sy sw sh dx dy dw dh : Int)
    (hsw : 0 < sw) (hsh : 0 < sh) (how : 0 < out_w) (hoh : 0 < out_h) :
    _mapped_blend_cpu image_draw st out_w out_h EVAS_FILTER_FILL_MODE_STRETCH_XY
        sx sy sw sh dx dy dw dh = some (image_draw 0 0 sw sh 0 0 out_w out_h st).2 ∧
      _mapped_blend_cpu.calls out_w out_h EVAS_FILTER_FILL_MODE_STRETCH_XY
        sx sy sw sh dx dy dw dh = some [⟨0, 0, sw, sh, 0, 0, out_w, out_h⟩] := by
  have hlist : ∀ (out s o d : Int), 0 < s → 0 < out →
      axisList false true out s o d = some [⟨0, s, 0, out⟩] := by
    intro out s o d hs hout
    have h1 : ¬ (s ≤ 0 ∨ out ≤ 0) := by omega
    simp [axisList, axisSetup, axisIntervals, axisWalk, h1]
  have hfill : EVAS_FILTER_FILL_MODE_STRETCH_XY ≠ EVAS_FILTER_FILL_MODE_NONE := by decide
  refine ⟨?_, ?_⟩
  · rw [mapped_blend_cpu_eq_runBlits _ _ _ _ _ _ _ _ _ _ _ _ _ hfill]
    simp only [EVAS_FILTER_FILL_MODE_STRETCH_XY]
    rw [hlist out_w sw dx dw hsw how, hlist out_h sh dy dh hsh hoh]
    rfl
  · rw [calls_eq_rowMajor _ _ _ _ _ _ _ _ _ _ _ hfill]
    simp only [EVAS_FILTER_FILL_MODE_STRETCH_XY]
    rw [hlist out_w sw dx dw hsw how, hlist out_h sh dy dh hsh hoh]
    rfl

/-- Witness of C9: a 10x8 source stretched over a 25x20 output, offset (-3, 5). -/
theorem stretch_xy_single_blit_witness :
    _mapped_blend_cpu.calls 25 20 EVAS_FILTER_FILL_MODE_STRETCH_XY 0 0 10 8 (-3) 5 25 20 =
      some [⟨0, 0, 10, 8, 0, 0, 25, 20⟩] :=
  (stretch_xy_single_blit Blit.record [] 25 20 0 0 10 8 (-3) 5 25 20
    (by decide) (by decide) (by decide) (by decide)).2

/-! ## Tiling engine: Repeat without a lead -/

theorem MIN_eq_right {a b : Int} (h : b ≤ a) : MIN a b = b := by
  unfold MIN
  split_ifs with h1
  · omega
  · rfl

theorem MIN_eq_left {a b : Int} (h : a ≤ b) : MIN a b = a := by
  unfold MIN
  split_ifs with h1
  · rfl
  · omega

/-- The walk of a Repeat axis without lead, from index `i` with `m` full tiles
left before the trail index. -/
theorem axisWalk_full_tiles (s d count trail : Int) (hs : 0 < s)
    (htrail : trail = d - s * count) (h0 : 0 ≤ trail) (h1 : trail < s) :
    ∀ (m : Nat) (i : Int), 0 ≤ i → i + m = count →
      axisWalk false s ⟨0, trail, count, 0, d⟩ (m + 1) i =
        (List.range m).map (fun k : Nat => (⟨0, s, (i + k) * s, s⟩ : Interval)) ++
          (if trail > 0 then [⟨0, trail, count * s, trail⟩] else []) := by
  intro m
  induction m with
  | zero =>
    intro i hi hic
    have hic2 : i = count := by simpa using hic
    subst hic2
    unfold axisWalk
    by_cases ht : trail > 0
    · have h2 : ¬ (i = -1 ∧ (0 : Int) > 0) := by omega
      have h3 : ¬ (trail ≤ 0 ∨ trail ≤ 0) := by omega
      simp [h2, ht, h3, axisWalk]
    · have h2 : ¬ (i = -1 ∧ (0 : Int) > 0) := by omega
      have h4 : trail = 0 := by omega
      have h5 : MIN (d - i * s) s = 0 := by
        rw [MIN_eq_left]
        · rw [h4] at htrail
          rw [Int.mul_comm] at htrail
          omega
        · rw [Int.mul_comm] at htrail
          omega
      simp [h2, ht, h5]
  | succ m ih =>
    intro i hi hic
    have hlt : i + 1 ≤ count := by
      push_cast at hic
      omega
    have hmul : (i + 1) * s ≤ count * s := Int.mul_le_mul_of_nonneg_right hlt (by omega)
    have hexp : (i + 1) * s = i * s + s := by ring
    have hcs : s * count = count * s := Int.mul_comm _ _
    have hmin : MIN (d - (0 + 0 + i * s)) s = s := by
      apply MIN_eq_right
      omega
    have h2 : ¬ (i = -1 ∧ (0 : Int) > 0) := by omega
    have h3 : ¬ (i = count ∧ trail > 0) := by omega
    have h4 : ¬ (s ≤ 0 ∨ s ≤ 0) := by omega
    rw [axisWalk]
    simp only [h2, h3, if_false, hmin, h4, Bool.false_eq_true]
    rw [ih (i + 1) (by omega) (by push_cast at hic; omega), List.range_succ_eq_map]
    simp only [List.map_cons, List.map_map, List.cons_append, Nat.cast_zero, Int.add_zero]
    congr 1
    · simp
    · congr 1
      apply List.map_congr_left
      intro k _
      simp only [Function.comp, Nat.succ_eq_add_one, Nat.cast_add, Nat.cast_one]
      congr 1
      ring

/-- The interval list of a Repeat axis at offset 0: the full tiles, then the
trail when the division leaves a remainder. -/
theorem axisList_repeat_offset_zero (out s d : Int) (hs : 0 < s) (hd : 0 ≤ d) :
    axisList true false out s 0 d =
      some ((List.range (d / s).toNat).map (fun k : Nat => (⟨0, s, k * s, s⟩ : Interval)) ++
        (if d % s > 0 then [⟨0, d % s, (d / s) * s, d % s⟩] else [])) := by
  have hdiv : d.tdiv s = d / s := Int.tdiv_eq_ediv hd (by omega)
  have hq : 0 ≤ d / s := Int.ediv_nonneg hd (by omega)
  have hmod : d - s * (d / s) = d % s := by
    have := Int.emod_add_ediv d s
    omega
  have hm0 : 0 ≤ d % s := Int.emod_nonneg d (by omega)
  have hm1 : d % s < s := Int.emod_lt_of_pos d hs
  have hs0 : s ≠ 0 := by omega
  simp only [axisList, axisSetup, if_true, hs0, if_false, lt_self_iff_false, gt_iff_lt,
    Option.map_some', axisIntervals, hdiv, hmod, Int.sub_zero]
  have hn : (d / s + 1).toNat = (d / s).toNat + 1 := by omega
  rw [hn, axisWalk_full_tiles s d (d / s) (d % s) hs hmod.symm hm0 hm1 (d / s).toNat 0
    (by omega) (by omega)]
  simp

/-- The interval list of an axis with neither flag at offset 0: the overlap of
the source with the output. -/
theorem axisList_unfilled_offset_zero (out s d : Int) (hs : 0 < s) (hout : 0 < out) :
    axisList false false out s 0 d = some [⟨0, MIN out s, 0, MIN out s⟩] := by
  have hmin : 0 < MIN out s := by
    unfold MIN
    split_ifs <;> omega
  simp [axisList, axisSetup, axisIntervals, axisWalk, hmin]

theorem sum_map_const_range (n : Nat) (c : Int) :
    ((List.range n).map (fun _ : Nat => c)).sum = n * c := by
  induction n with
  | zero => simp
  | succ n ih =>
    rw [List.range_succ, List.map_append, List.sum_append, ih]
    simp
    ring

/-- C5: with fill mode `REPEAT_X` alone, offset 0 on both axes, `sw > 0`,
`dw > 0` and a non-empty row (`sh > 0`, `out.h > 0`), the calls are the
`dw / sw` full tiles of width `sw` at `dst_x = 0, sw, 2 sw, ...`, each with
`src_x = 0`, followed, only when `dw mod sw > 0`, by one rectangle of width
`dw mod sw` with `src_x = 0`; that is `ceil (dw / sw)` calls whose widths sum
to `dw`. -/
theorem repeat_x_offset_zero_tiles (out_w out_h sx sy sw sh dw dh : Int)
    (hsw : 0 < sw) (hdw : 0 < dw) (hsh : 0 < sh) (hoh : 0 < out_h) :
    ∃ l : List Blit,
      _mapped_blend_cpu.calls out_w out_h EVAS_FILTER_FILL_MODE_REPEAT_X
        sx sy sw sh 0 0 dw dh = some l ∧
      l = (List.range (dw / sw).toNat).map
            (fun k : Nat => (⟨0, 0, sw, MIN out_h sh, k * sw, 0, sw, MIN out_h sh⟩ : Blit)) ++
          (if dw % sw > 0 then
            [⟨0, 0, dw % sw, MIN out_h sh, (dw / sw) * sw, 0, dw % sw, MIN out_h sh⟩]
          else []) ∧
      (l.length : Int) = (dw + sw - 1) / sw ∧
      (l.map fun b => b.dst_w).sum = dw ∧
      (l.map fun b => b.src_w).sum = dw := by
  have hfill : EVAS_FILTER_FILL_MODE_REPEAT_X ≠ EVAS_FILTER_FILL_MODE_NONE := by decide
  have hq : 0 ≤ dw / sw := Int.ediv_nonneg (by omega) (by omega)
  have hmd := Int.emod_add_ediv dw sw
  have hm0 : 0 ≤ dw % sw := Int.emod_nonneg dw (by omega)
  have hm1 : dw % sw < sw := Int.emod_lt_of_pos dw hsw
  have hcomm : sw * (dw / sw) = dw / sw * sw := Int.mul_comm _ _
  refine ⟨_, ?_, rfl, ?_, ?_, ?_⟩
  · rw [calls_eq_rowMajor _ _ _ _ _ _ _ _ _ _ _ hfill]
    simp only [EVAS_FILTER_FILL_MODE_REPEAT_X]
    rw [axisList_repeat_offset_zero out_w sw dw hsw (by omega),
      axisList_unfilled_offset_zero out_h sh dh hsh hoh]
    simp only [Option.some_bind, rowMajor, List.flatMap_cons, List.flatMap_nil, List.append_nil,
      List.map_append, List.map_map]
    congr 1
    congr 1
    split_ifs <;> rfl
  · rw [List.length_append, List.length_map, List.length_range]
    have hdist : sw * (dw / sw + 1) = sw * (dw / sw) + sw := by ring
    by_cases hr : dw % sw > 0
    · simp only [hr, if_true, List.length_singleton]
      have h2 := (Int.ediv_emod_unique (a := dw + sw - 1) (r := dw % sw - 1)
        (q := dw / sw + 1) hsw).2 ⟨by omega, by omega, by omega⟩
      rw [h2.1]
      push_cast
      omega
    · simp only [hr, if_false, List.length_nil]
      have h2 := (Int.ediv_emod_unique (a := dw + sw - 1) (r := sw - 1)
        (q := dw / sw) hsw).2 ⟨by omega, by omega, by omega⟩
      rw [h2.1]
      push_cast
      omega
  · rw [List.map_append, List.sum_append, List.map_map]
    have hc : ((fun b : Blit => b.dst_w) ∘ fun k : Nat =>
        (⟨0, 0, sw, MIN out_h sh, k * sw, 0, sw, MIN out_h sh⟩ : Blit)) = fun _ => sw := rfl
    rw [hc, sum_map_const_range]
    by_cases hr : dw % sw > 0
    · simp only [hr, if_true, List.map_cons, List.map_nil, List.sum_cons, List.sum_nil]
      rw [Int.toNat_of_nonneg hq]
      omega
    · simp only [hr, if_false, List.map_nil, List.sum_nil]
      rw [Int.toNat_of_nonneg hq]
      omega
  · rw [List.map_append, List.sum_append, List.map_map]
    have hc : ((fun b : Blit => b.src_w) ∘ fun k : Nat =>
        (⟨0, 0, sw, MIN out_h sh, k * sw, 0, sw, MIN out_h sh⟩ : Blit)) = fun _ => sw := rfl
    rw [hc, sum_map_const_range]
    by_cases hr : dw % sw > 0
    · simp only [hr, if_true, List.map_cons, List.map_nil, List.sum_cons, List.sum_nil]
      rw [Int.toNat_of_nonneg hq]
      omega
    · simp only [hr, if_false, List.map_nil, List.sum_nil]
      rw [Int.toNat_of_nonneg hq]
      omega

/-- Witness of C5: tile width 10 on destination width 25 gives exactly three
calls, of widths 10, 10 and 5. -/
theorem repeat_x_offset_zero_tiles_witness :
    ∃ l : List Blit,
      _mapped_blend_cpu.calls 25 8 EVAS_FILTER_FILL_MODE_REPEAT_X 0 0 10 8 0 0 25 8 = some l ∧
      l = [⟨0, 0, 10, 8, 0, 0, 10, 8⟩, ⟨0, 0, 10, 8, 10, 0, 10, 8⟩, ⟨0, 0, 5, 8, 20, 0, 5, 8⟩] ∧
      (l.length : Int) = 3 ∧
      (l.map fun b => b.dst_w).sum = 25 ∧
      (l.map fun b => b.src_w).sum = 25 := by
  obtain ⟨l, h1, h2, h3, h4, h5⟩ :=
    repeat_x_offset_zero_tiles 25 8 0 0 10 8 25 8 (by decide) (by decide) (by decide) (by decide)
  exact ⟨l, h1, h2.trans (by decide), h3, h4, h5⟩

/-! ## Tiling engine: Repeat with a lead -/

/-- The truncating remainder of a negative offset, in terms of the
mathematical modulo. -/
theorem tmod_of_neg (s o : Int) (hs : 0 < s) (ho : o < 0) :
    o.tmod s = if o % s = 0 then 0 else o % s - s := by
  have h1 : o.tdiv s = -((-o) / s) := by
    have h := Int.neg_tdiv (-o) s
    rw [Int.neg_neg] at h
    rw [h, Int.tdiv_eq_ediv (by omega) (by omega)]
  have hp := Int.emod_add_ediv (-o) s
  have hp0 : 0 ≤ (-o) % s := Int.emod_nonneg _ (by omega)
  have hp1 : (-o) % s < s := Int.emod_lt_of_pos _ hs
  have hmn : s * -(-o / s) = -(s * (-o / s)) := by ring
  rw [Int.tmod_def, h1]
  by_cases hz : (-o) % s = 0
  · have h2 := (Int.ediv_emod_unique (a := o) (r := 0) (q := -((-o) / s)) hs).2
      ⟨by omega, by omega, by omega⟩
    rw [h2.2]
    simp only [if_true]
    omega
  · have hdist : s * (-((-o) / s) - 1) = -(s * ((-o) / s)) - s := by ring
    have h2 := (Int.ediv_emod_unique (a := o) (r := s - (-o) % s) (q := -((-o) / s) - 1) hs).2
      ⟨by omega, by omega, by omega⟩
    rw [h2.2]
    have hne : ¬ (s - (-o) % s = 0) := by omega
    simp only [hne, if_false]
    omega

/-- The lead expression of a Repeat axis (`left`, `top`), in terms of the
mathematical modulo: it is `o mod s`, except that a negative multiple of the
tile gives the whole tile `s`. -/
theorem repeat_lead_eq (s o : Int) (hs : 0 < s) :
    (if o > 0 then o.tmod s else if o < 0 then s + o.tmod s else 0) =
      if o < 0 ∧ o % s = 0 then s else o % s := by
  by_cases hpos : o > 0
  · have hn : ¬ (o < 0 ∧ o % s = 0) := by omega
    simp only [hpos, if_true, hn, if_false]
    exact Int.tmod_eq_emod (by omega) (by omega)
  · by_cases hneg : o < 0
    · simp only [hpos, if_false, hneg, if_true, true_and]
      rw [tmod_of_neg s o hs hneg]
      split_ifs <;> omega
    · have h0 : o = 0 := by omega
      subst h0
      simp

theorem axisSetup_isSome (rep stretch : Bool) (out s o d : Int) (hs : s ≠ 0) :
    ∃ a, axisSetup rep stretch out s o d = some a := by
  unfold axisSetup
  cases rep <;> cases stretch <;> simp [hs]

/-- C6: with `REPEAT_X` set, `sw > 0` and an offset `dx` that is not a multiple
of `sw`, every row of calls starts with the lead rectangle: its width is
`dx mod sw` (the mathematical modulo, between 1 and `sw - 1`), it samples the
source columns `[sw - lead, sw)` and it is placed at `dst_x = 0`.  The rows are
the Y interval list `ys`, and the calls are the row-major product of `ys` with
a column list whose head is the lead. -/
theorem repeat_x_lead_first (out_w out_h : Int) (fillmode : Evas_Filter_Fill_Mode)
    (sx sy sw sh dx dy dw dh : Int)
    (hrep : fillmode.repeat_x = true) (hsw : 0 < sw) (hsh : 0 < sh) (hdw : 0 < dw)
    (hdx : dx % sw ≠ 0) :
    1 ≤ dx % sw ∧ dx % sw ≤ sw - 1 ∧
      ∃ (ys rest : List Interval),
        axisList fillmode.repeat_y fillmode.stretch_y out_h sh dy dh = some ys ∧
        _mapped_blend_cpu.calls out_w out_h fillmode sx sy sw sh dx dy dw dh =
          some (rowMajor ys (⟨sw - dx % sw, dx % sw, 0, dx % sw⟩ :: rest)) := by
  have hm0 : 0 ≤ dx % sw := Int.emod_nonneg dx (by omega)
  have hm1 : dx % sw < sw := Int.emod_lt_of_pos dx hsw
  have hfill : fillmode ≠ EVAS_FILTER_FILL_MODE_NONE := by
    intro h
    rw [h] at hrep
    exact absurd hrep (by decide)
  obtain ⟨ay, hay⟩ := axisSetup_isSome fillmode.repeat_y fillmode.stretch_y out_h sh dy dh
    (by omega)
  have hlead : (if dx > 0 then dx.tmod sw else if dx < 0 then sw + dx.tmod sw else 0) =
      dx % sw := by
    rw [repeat_lead_eq sw dx hsw]
    have hn : ¬ (dx < 0 ∧ dx % sw = 0) := fun h => hdx h.2
    simp only [hn, if_false]
  have hcols : 0 ≤ dw.tdiv sw := Int.tdiv_nonneg (by omega) (by omega)
  have hpos : dx % sw > 0 := by omega
  have hsw0 : sw ≠ 0 := by omega
  obtain ⟨m, hm⟩ : ∃ m : Nat, (dw.tdiv sw - -1 + 1).toNat = m + 1 :=
    ⟨(dw.tdiv sw + 1).toNat, by omega⟩
  have hx : ∃ rest, axisList true fillmode.stretch_x out_w sw dx dw =
      some (⟨sw - dx % sw, dx % sw, 0, dx % sw⟩ :: rest) := by
    have hdeg : ¬ (dx % sw ≤ 0 ∨ dx % sw ≤ 0) := by omega
    simp only [axisList, axisSetup, if_true, hsw0, if_false, hlead, hpos, Option.map_some',
      axisIntervals, hm]
    rw [axisWalk]
    simp only [hpos, and_self, if_true, hdeg, if_false]
    exact ⟨_, rfl⟩
  obtain ⟨rest, hrest⟩ := hx
  refine ⟨by omega, by omega, axisIntervals fillmode.stretch_y sh ay, rest, ?_, ?_⟩
  · simp [axisList, hay]
  · rw [calls_eq_rowMajor _ _ _ _ _ _ _ _ _ _ _ hfill, hrep, hrest]
    simp [axisList, hay]

/-- Witness of C6: tile width 10 at offset -3: the lead has width 7 and
samples the source columns `[3, 10)`. -/
theorem repeat_x_lead_first_witness :
    (1 : Int) ≤ 7 ∧ (7 : Int) ≤ 10 - 1 ∧
      ∃ (ys rest : List Interval),
        axisList false false 8 8 0 8 = some ys ∧
        _mapped_blend_cpu.calls 25 8 EVAS_FILTER_FILL_MODE_REPEAT_X 0 0 10 8 (-3) 0 25 8 =
          some (rowMajor ys (⟨3, 7, 0, 7⟩ :: rest)) := by
  have h := repeat_x_lead_first 25 8 EVAS_FILTER_FILL_MODE_REPEAT_X 0 0 10 8 (-3) 0 25 8
    rfl (by decide) (by decide) (by decide) (by decide)
  have e : (-3 : Int) % 10 = 7 := by decide
  rw [e] at h
  exact h

/-- C7 at the input `REPEAT_X`, tile width 10, destination width 25, offset
-3: the calls are the lead (width 7), a full tile, a tile clipped to the 8
columns that remain, and then a fourth rectangle of width 8 at `dst_x = 27`.
The widths sum to 33 and the last call ends at column 35, both past the
destination width 25. -/
theorem repeat_x_lead_overshoots :
    ∃ l : List Blit,
      _mapped_blend_cpu.calls 25 8 EVAS_FILTER_FILL_MODE_REPEAT_X 0 0 10 8 (-3) 0 25 8 = some l ∧
      l = [⟨3, 0, 7, 8, 0, 0, 7, 8⟩, ⟨0, 0, 10, 8, 7, 0, 10, 8⟩,
        ⟨0, 0, 8, 8, 17, 0, 8, 8⟩, ⟨0, 0, 8, 8, 27, 0, 8, 8⟩] ∧
      (l.map fun b => b.dst_w).sum = 33 ∧
      (l.map fun b => b.dst_x + b.dst_w).getLast? = some 35 ∧
      (l.map fun b => b.dst_w).sum ≠ 25 ∧
      (l.map fun b => b.dst_x + b.dst_w).getLast? ≠ some 25 :=
  ⟨_, by decide, rfl, by decide, by decide, by decide, by decide⟩

/-- C8 at the input tile extent 10, offset -10 (a negative multiple of the
tile): the lead set up for the Repeat axis is 10, the tile extent itself, on X
(`left`) as on Y (`top`), so it is not below the tile extent. -/
theorem repeat_lead_negative_multiple :
    (_mapped_blend_cpu.xsetup EVAS_FILTER_FILL_MODE_REPEAT_X 25 10 (-10) 25).map
        (fun a => a.lead) = some 10 ∧
      (_mapped_blend_cpu.ysetup EVAS_FILTER_FILL_MODE_REPEAT_Y 25 10 (-10) 25).map
        (fun a => a.lead) = some 10 ∧
      ¬ ((10 : Int) < 10) := by
  decide

/-! ## Storage reads and writes -/

theorem poke_length (m : List Nat) (i : Int) (v : Nat) : (poke m i v).length = m.length := by
  unfold poke
  split_ifs <;> simp

theorem peek_poke (m : List Nat) (i j : Int) (v : Nat) :
    peek (poke m i v) j = if j = i ∧ 0 ≤ i ∧ i < m.length then v else peek m j := by
  unfold peek poke
  by_cases hi : 0 ≤ i
  · by_cases hj : 0 ≤ j
    · simp only [hi, hj, if_true, List.getD_eq_getElem?_getD, List.getElem?_set, true_and]
      by_cases hij : j = i
      · subst hij
        by_cases hlt : j < m.length
        · have : j.toNat < m.length := by omega
          simp [this, hlt]
        · have h2 : ¬ j.toNat < m.length := by omega
          have h3 : m[j.toNat]? = none := List.getElem?_eq_none (by omega)
          simp [h2, hlt, h3]
      · have : i.toNat ≠ j.toNat := by omega
        simp [this, hij]
    · have : j ≠ i := by omega
      simp [hi, hj, this]
  · simp [hi]

/-! ## The rgba2alpha kernel, pixel by pixel -/

theorem rgba2alpha_span_length (bs : Bool) (src : List Nat) (n : Nat) (s d : Int)
    (dst : List Nat) :
    (_image_draw_cpu_rgba2alpha.span bs src n s d dst).length = dst.length := by
  induction n generalizing s d dst with
  | zero => rfl
  | succ n ih => rw [_image_draw_cpu_rgba2alpha.span, ih, poke_length]

/-- What a read finds after the pixel loop: inside the span (and inside the
storage) the byte computed from the source pixel, elsewhere the old content. -/
theorem rgba2alpha_span_peek (bs : Bool) (src : List Nat) (n : Nat) (s d : Int)
    (dst : List Nat) (idx : Int) :
    peek (_image_draw_cpu_rgba2alpha.span bs src n s d dst) idx =
      if d ≤ idx ∧ idx < d + n ∧ 0 ≤ idx ∧ idx < dst.length then
        _image_draw_cpu_rgba2alpha.pixel bs (peek src (s + (idx - d)))
      else peek dst idx := by
  induction n generalizing s d dst with
  | zero =>
    have h : ¬ (d ≤ idx ∧ idx < d + ((0 : Nat) : Int) ∧ 0 ≤ idx ∧ idx < dst.length) := by omega
    rw [_image_draw_cpu_rgba2alpha.span, if_neg h]
  | succ n ih =>
    rw [_image_draw_cpu_rgba2alpha.span, ih, peek_poke, poke_length]
    by_cases h1 : idx = d
    · subst h1
      have h3 : ¬ (idx + 1 ≤ idx ∧ idx < idx + 1 + (n : Int) ∧ 0 ≤ idx ∧ idx < dst.length) := by
        omega
      by_cases h2 : 0 ≤ idx ∧ idx < (dst.length : Int)
      · have h4 : (idx ≤ idx ∧ idx < idx + ((n + 1 : Nat) : Int) ∧ 0 ≤ idx ∧
            idx < dst.length) := by
          push_cast
          omega
        rw [if_neg h3, if_pos ⟨rfl, h2⟩, if_pos h4]
        simp
      · have h4 : ¬ (idx ≤ idx ∧ idx < idx + ((n + 1 : Nat) : Int) ∧ 0 ≤ idx ∧
            idx < dst.length) := by
          omega
        have h5 : ¬ (idx = idx ∧ 0 ≤ idx ∧ idx < dst.length) := by omega
        rw [if_neg h3, if_neg h4, if_neg h5]
    · have h5 : ¬ (idx = d ∧ 0 ≤ d ∧ d < dst.length) := by omega
      rw [if_neg h5]
      by_cases h2 : d + 1 ≤ idx ∧ idx < d + 1 + (n : Int) ∧ 0 ≤ idx ∧ idx < dst.length
      · have h4 : (d ≤ idx ∧ idx < d + ((n + 1 : Nat) : Int) ∧ 0 ≤ idx ∧ idx < dst.length) := by
          push_cast
          omega
        rw [if_pos h2, if_pos h4]
        congr 2
        ring
      · have h4 : ¬ (d ≤ idx ∧ idx < d + ((n + 1 : Nat) : Int) ∧ 0 ≤ idx ∧
            idx < dst.length) := by
          push_cast
          omega
        rw [if_neg h2, if_neg h4]

theorem rgba2alpha_rows_length (bs : Bool) (src : List Nat) (sw dw src_x dst_x src_w : Int)
    (y : Nat) (sd dd : Int) (dst : List Nat) :
    (_image_draw_cpu_rgba2alpha.rows bs src sw dw src_x dst_x src_w y sd dd dst).length =
      dst.length := by
  induction y generalizing sd dd dst with
  | zero => rfl
  | succ y ih => rw [_image_draw_cpu_rgba2alpha.rows, ih, rgba2alpha_span_length]

/-- A position that lies in none of the scanline spans keeps its content. -/
theorem rgba2alpha_rows_peek_outside (bs : Bool) (src : List Nat)
    (sw dw src_x dst_x src_w : Int) (idx : Int) (y : Nat) (sd dd : Int) (dst : List Nat)
    (hout : ∀ r : Nat, r < y →
      ¬ (dd + r * dw + dst_x ≤ idx ∧ idx < dd + r * dw + dst_x + loopCount src_w)) :
    peek (_image_draw_cpu_rgba2alpha.rows bs src sw dw src_x dst_x src_w y sd dd dst) idx =
      peek dst idx := by
  induction y generalizing sd dd dst with
  | zero => rfl
  | succ y ih =>
    rw [_image_draw_cpu_rgba2alpha.rows, ih, rgba2alpha_span_peek]
    · have h0 := hout 0 (by omega)
      have h1 : ¬ (dd + dst_x ≤ idx ∧ idx < dd + dst_x + (loopCount src_w : Int) ∧ 0 ≤ idx ∧
          idx < dst.length) := by
        simp only [Nat.cast_zero, Int.zero_mul, Int.add_zero] at h0
        omega
      rw [if_neg h1]
    · intro r hr
      have h := hout (r + 1) (by omega)
      have e : ((r + 1 : Nat) : Int) * dw = dw + r * dw := by
        push_cast
        ring
      rw [e] at h
      omega

/-- A position inside the span of scanline `r`, column `k`, holds the byte
computed from the source pixel of that scanline and column. -/
theorem rgba2alpha_rows_peek_inside (bs : Bool) (src : List Nat)
    (sw dw src_x dst_x src_w : Int) (hx : 0 ≤ dst_x) (hxw : dst_x + loopCount src_w ≤ dw)
    (k : Nat) (hk : k < loopCount src_w) (y : Nat) (r : Nat) (hr : r < y) (sd dd : Int)
    (dst : List Nat) (h0 : 0 ≤ dd + r * dw + dst_x + k)
    (hlen : dd + r * dw + dst_x + k < dst.length) :
    peek (_image_draw_cpu_rgba2alpha.rows bs src sw dw src_x dst_x src_w y sd dd dst)
        (dd + r * dw + dst_x + k) =
      _image_draw_cpu_rgba2alpha.pixel bs (peek src (sd + r * sw + src_x + k)) := by
  induction y generalizing sd dd dst r with
  | zero => omega
  | succ y ih =>
    rw [_image_draw_cpu_rgba2alpha.rows]
    cases r with
    | zero =>
      simp only [Nat.cast_zero, Int.zero_mul, Int.add_zero] at h0 hlen ⊢
      rw [rgba2alpha_rows_peek_outside, rgba2alpha_span_peek]
      · have h1 : (dd + dst_x ≤ dd + dst_x + k ∧
            dd + dst_x + (k : Int) < dd + dst_x + (loopCount src_w : Int) ∧
            0 ≤ dd + dst_x + (k : Int) ∧ dd + dst_x + (k : Int) < dst.length) := by omega
        rw [if_pos h1]
        congr 2
        ring
      · intro r2 hr2
        have hdw : 0 ≤ dw := by omega
        have hmul : 0 ≤ (r2 : Int) * dw := Int.mul_nonneg (by omega) hdw
        omega
    | succ r =>
      have e1 : dd + ((r + 1 : Nat) : Int) * dw + dst_x + k = (dd + dw) + r * dw + dst_x + k := by
        push_cast
        ring
      have e2 : sd + ((r + 1 : Nat) : Int) * sw + src_x + k = (sd + sw) + r * sw + src_x + k := by
        push_cast
        ring
      rw [e1, e2]
      apply ih
      · omega
      · rw [← e1]
        exact h0
      · rw [← e1, rgba2alpha_span_length]
        exact hlen

theorem channels_of_ARGB_JOIN (a r g b : Nat) (hr : r ≤ 255) (hg : g ≤ 255) (hb : b ≤ 255) :
    R_VAL (ARGB_JOIN a r g b) = r ∧ G_VAL (ARGB_JOIN a r g b) = g ∧
      B_VAL (ARGB_JOIN a r g b) = b := by
  unfold R_VAL G_VAL B_VAL ARGB_JOIN
  refine ⟨?_, ?_, ?_⟩ <;> congr 1 <;> omega

theorem DEFINE_DIVIDER_bitshift_three : DEFINE_DIVIDER true 3 = ⟨12, 1365, 3⟩ := by decide

/-- The byte stored for a pixel with channels `r`, `g`, `b`: the exact quotient
without the bit shift, `(sum * 1365) / 4096` with it. -/
theorem rgba2alpha_pixel_value (a r g b : Nat) (hr : r ≤ 255) (hg : g ≤ 255) (hb : b ≤ 255) :
    _image_draw_cpu_rgba2alpha.pixel false (ARGB_JOIN a r g b) = (r + g + b) / 3 ∧
      _image_draw_cpu_rgba2alpha.pixel true (ARGB_JOIN a r g b) = (r + g + b) * 1365 / 4096 := by
  obtain ⟨h1, h2, h3⟩ := channels_of_ARGB_JOIN a r g b hr hg hb
  refine ⟨?_, ?_⟩
  · simp only [_image_draw_cpu_rgba2alpha.pixel, DIVIDE, DEFINE_DIVIDER, h1, h2, h3,
      Bool.false_eq_true, if_false]
    rw [Int.tdiv_eq_ediv (by omega) (by omega)]
    omega
  · simp only [_image_draw_cpu_rgba2alpha.pixel, DIVIDE, DEFINE_DIVIDER_bitshift_three, h1, h2,
      h3, if_true]
    rw [Int.shiftRight_eq_div_pow]
    have e : (((2 : Nat) ^ (12 : Int).toNat : Nat) : Int) = 4096 := by decide
    rw [e]
    have hv : (r : Int) + g + b = ((r + g + b : Nat) : Int) := by push_cast; rfl
    have hle : r + g + b ≤ 765 := by omega
    rw [hv]
    clear h1 h2 h3 hv
    generalize r + g + b = v at hle ⊢
    have hq : (v : Int) * 1365 / 4096 = ((v * 1365 / 4096 : Nat) : Int) := by
      push_cast
      rfl
    have hw : v * 1365 / 4096 ≤ 255 := by omega
    rw [hq]
    generalize v * 1365 / 4096 = w at hw ⊢
    omega

theorem loopCount_of_nonneg (n : Int) (h0 : 0 ≤ n) (h1 : n < 4294967296) :
    loopCount n = n.toNat := by
  unfold loopCount
  rw [Int.emod_eq_of_lt h0 h1]

theorem pixels_store (im : RGBA_Image) (d : List Nat) (f : List Nat → List Nat)
    (hd : im.data = some d) : (im.store f).pixels = f d := by
  simp [RGBA_Image.store, RGBA_Image.pixels, hd]

/-- C3, as the code has it: called with equal extents on a rectangle inside
the destination, the rgba2alpha kernel as built (with the bit-shift divider)
succeeds and the destination byte at column `i`, row `j` of the rectangle is
`DIVIDE(R + G + B) = ((R + G + B) * 1365) >> 12` of the source pixel at the
same column and row, for all channels `R`, `G`, `B` in 0..255; this is
`(R + G + B) / 3` when the sum is 0 or not a multiple of 3 and one less when
the sum is a positive multiple of 3. -/
theorem rgba2alpha_stores_divided_sum (dst src : RGBA_Image)
    (d : List Nat) (src_x src_y w h dst_x dst_y : Int) (i j : Nat) (a r g b : Nat)
    (hd : dst.data = some d) (hlen : (d.length : Int) = dst.w * dst.h)
    (hw : w < 2147483648) (hh : h < 2147483648)
    (hx : 0 ≤ dst_x) (hxw : dst_x + w ≤ dst.w) (hy : 0 ≤ dst_y) (hyh : dst_y + h ≤ dst.h)
    (hi : (i : Int) < w) (hj : (j : Int) < h)
    (hp : peek src.pixels ((src_y + j) * src.w + src_x + i) = ARGB_JOIN a r g b)
    (hr : r ≤ 255) (hg : g ≤ 255) (hb : b ≤ 255) :
    (_image_draw_cpu_rgba2alpha true dst src
        src_x src_y w h dst_x dst_y w h).1 = true ∧
      peek (_image_draw_cpu_rgba2alpha true dst src
        src_x src_y w h dst_x dst_y w h).2.pixels ((dst_y + j) * dst.w + dst_x + i) =
        (r + g + b) * 1365 / 4096 ∧
      ((r + g + b) % 3 ≠ 0 ∨ r + g + b = 0 → (r + g + b) * 1365 / 4096 = (r + g + b) / 3) ∧
      ((r + g + b) % 3 = 0 → 0 < r + g + b →
        (r + g + b) * 1365 / 4096 + 1 = (r + g + b) / 3) := by
  have hwc : loopCount w = w.toNat := loopCount_of_nonneg w (by omega) (by omega)
  have hhc : loopCount h = h.toNat := loopCount_of_nonneg h (by omega) (by omega)
  have hsz : ¬ ¬ (w = w ∧ h = h) := by simp
  have hdw : 0 ≤ dst.w := by omega
  have hrow0 : 0 ≤ (dst_y + j) * dst.w := Int.mul_nonneg (by omega) hdw
  have hrow1 : (dst_y + j + 1) * dst.w ≤ dst.h * dst.w :=
    Int.mul_le_mul_of_nonneg_right (by omega) hdw
  have hexp : (dst_y + j + 1) * dst.w = (dst_y + j) * dst.w + dst.w := by ring
  have hcomm : dst.w * dst.h = dst.h * dst.w := Int.mul_comm _ _
  have hidx : (dst_y + j) * dst.w + dst_x + i = dst_y * dst.w + j * dst.w + dst_x + i := by ring
  have hsrc : (src_y + j) * src.w + src_x + i = src_y * src.w + j * src.w + src_x + i := by ring
  have hbyte : peek (_image_draw_cpu_rgba2alpha true dst src
      src_x src_y w h dst_x dst_y w h).2.pixels ((dst_y + j) * dst.w + dst_x + i) =
      _image_draw_cpu_rgba2alpha.pixel true (ARGB_JOIN a r g b) := by
    rw [_image_draw_cpu_rgba2alpha, if_neg hsz]
    simp only []
    rw [pixels_store _ d _ hd, hidx, rgba2alpha_rows_peek_inside, ← hsrc, hp]
    · exact hx
    · omega
    · omega
    · omega
    · omega
    · omega
  obtain ⟨_, hv1⟩ := rgba2alpha_pixel_value a r g b hr hg hb
  refine ⟨?_, ?_, ?_, ?_⟩
  · rw [_image_draw_cpu_rgba2alpha, if_neg hsz]
  · rw [hbyte, hv1]
  · intro hs
    omega
  · intro hs hpos
    omega

/-- Witness of C3 as amended: the pixel (R = 60, G = 90, B = 121), whose
channel sum 271 is not a multiple of 3, yields the byte `271 / 3 = 90`. -/
theorem rgba2alpha_stores_divided_sum_witness :
    peek (_image_draw_cpu_rgba2alpha true ⟨1, 1, some [0]⟩
        ⟨1, 1, some [ARGB_JOIN 255 60 90 121]⟩ 0 0 1 1 0 0 1 1).2.pixels 0 = 90 ∧
      (60 + 90 + 121) * 1365 / 4096 = (60 + 90 + 121) / 3 :=
  ⟨(rgba2alpha_stores_divided_sum ⟨1, 1, some [0]⟩ ⟨1, 1, some [ARGB_JOIN 255 60 90 121]⟩
    [0] 0 0 1 1 0 0 0 0 255 60 90 121 rfl (by decide) (by decide) (by decide) (by decide)
    (by decide) (by decide) (by decide) (by decide) (by decide) (by decide) (by decide)
    (by decide) (by decide)).2.1, by decide⟩

/-- C3 at the pixel (R = 60, G = 90, B = 120) with the bit-shift divider: the
kernel stores the byte 89, not `(60 + 90 + 120) / 3 = 90`. -/
theorem rgba2alpha_bitshift_60_90_120 :
    _image_draw_cpu_rgba2alpha true ⟨1, 1, some [0]⟩ ⟨1, 1, some [ARGB_JOIN 255 60 90 120]⟩
        0 0 1 1 0 0 1 1 = (true, ⟨1, 1, some [89]⟩) ∧
      (89 : Nat) ≠ (60 + 90 + 120) / 3 := by
  decide

/-! ## Tiling engine: fill mode None -/

/-- C12: with fill mode None, `_mapped_blend_cpu` makes exactly one blit call,
for any callback and state and whatever `_clip_to_target` hands back (empty or
negative counts included); the call's source and destination rectangles both
have the clipped column count as width and the clipped row count as height. -/
theorem fill_none_single_blit {σ : Type} (image_draw : image_draw_func σ) (st : σ)
    (out_w out_h sx sy sw sh dx dy dw dh : Int) :
    _mapped_blend_cpu image_draw st out_w out_h EVAS_FILTER_FILL_MODE_NONE
        sx sy sw sh dx dy dw dh =
      some (image_draw (_clip_to_target sw sh dx dy out_w out_h).sx
        (_clip_to_target sw sh dx dy out_w out_h).sy
        (_clip_to_target sw sh dx dy out_w out_h).cols
        (_clip_to_target sw sh dx dy out_w out_h).rows
        (_clip_to_target sw sh dx dy out_w out_h).dx
        (_clip_to_target sw sh dx dy out_w out_h).dy
        (_clip_to_target sw sh dx dy out_w out_h).cols
        (_clip_to_target sw sh dx dy out_w out_h).rows st).2 ∧
      ∃ b : Blit,
        _mapped_blend_cpu.calls out_w out_h EVAS_FILTER_FILL_MODE_NONE
          sx sy sw sh dx dy dw dh = some [b] ∧
        b.src_w = (_clip_to_target sw sh dx dy out_w out_h).cols ∧
        b.dst_w = (_clip_to_target sw sh dx dy out_w out_h).cols ∧
        b.src_h = (_clip_to_target sw sh dx dy out_w out_h).rows ∧
        b.dst_h = (_clip_to_target sw sh dx dy out_w out_h).rows :=
  ⟨rfl, _, rfl, rfl, rfl, rfl, rfl⟩

/-! ## Tiling engine: equal extents on both sides of a call -/

theorem calls_fill_none (out_w out_h sx sy sw sh dx dy dw dh : Int) :
    _mapped_blend_cpu.calls out_w out_h EVAS_FILTER_FILL_MODE_NONE sx sy sw sh dx dy dw dh =
      some [⟨(_clip_to_target sw sh dx dy out_w out_h).sx,
        (_clip_to_target sw sh dx dy out_w out_h).sy,
        (_clip_to_target sw sh dx dy out_w out_h).cols,
        (_clip_to_target sw sh dx dy out_w out_h).rows,
        (_clip_to_target sw sh dx dy out_w out_h).dx,
        (_clip_to_target sw sh dx dy out_w out_h).dy,
        (_clip_to_target sw sh dx dy out_w out_h).cols,
        (_clip_to_target sw sh dx dy out_w out_h).rows⟩] := rfl

/-- Every interval of a walk has the same length on both sides, unless it is
a stretched tile whose source extent differs from the axis extent. -/
theorem axisWalk_len_eq (stretch : Bool) (s : Int) (a : AxisSetup)
    (h : stretch = false ∨ s = a.extent) (n : Nat) (i : Int) :
    ∀ x ∈ axisWalk stretch s a n i, x.src_len = x.dst_len := by
  induction n generalizing i with
  | zero =>
    intro x hx
    simp [axisWalk] at hx
  | succ n ih =>
    intro x hx
    rw [axisWalk] at hx
    split_ifs at hx
    all_goals first
      | exact absurd hx (List.not_mem_nil _)
      | (rcases List.mem_cons.1 hx with hx | hx
         · subst hx
           rcases h with h | h <;> simp_all
         · exact ih _ _ hx)

theorem axisSetup_extent (rep stretch : Bool) (out s o d : Int) (a : AxisSetup)
    (ha : axisSetup rep stretch out s o d = some a) (hs : stretch = true) :
    a.extent = out ∨ a.extent = d := by
  unfold axisSetup at ha
  subst hs
  cases rep
  · simp at ha
    rw [← ha]
    exact Or.inl rfl
  · by_cases h0 : s = 0
    · simp [h0] at ha
    · simp [h0] at ha
      rw [← ha]
      exact Or.inr rfl

theorem axisList_len_eq (rep stretch : Bool) (out s o d : Int) (l : List Interval)
    (hl : axisList rep stretch out s o d = some l)
    (h : stretch = false ∨ (s = out ∧ s = d)) :
    ∀ x ∈ l, x.src_len = x.dst_len := by
  unfold axisList at hl
  cases ha : axisSetup rep stretch out s o d with
  | none => simp [ha] at hl
  | some a =>
    simp only [ha, Option.map_some', Option.some.injEq] at hl
    subst hl
    have h2 : stretch = false ∨ s = a.extent := by
      rcases h with h | ⟨h1, h2⟩
      · exact Or.inl h
      · cases hs : stretch
        · exact Or.inl rfl
        · rcases axisSetup_extent rep stretch out s o d a ha hs with e | e
          · exact Or.inr (by rw [e, h1])
          · exact Or.inr (by rw [e, h2])
    exact axisWalk_len_eq stretch s a h2 _ _

theorem mem_rowMajor (ys xs : List Interval) (b : Blit) (hb : b ∈ rowMajor ys xs) :
    ∃ y ∈ ys, ∃ x ∈ xs, b = Blit.ofIntervals x y := by
  unfold rowMajor at hb
  rcases List.mem_flatMap.1 hb with ⟨y, hy, hb2⟩
  rcases List.mem_map.1 hb2 with ⟨x, hx, rfl⟩
  exact ⟨y, hy, x, hx, rfl⟩

/-- C13 at fill mode `REPEAT_X` alone, a 10x8 tile on a 25x8 output: with
`dy = 2` every call has `dst_y = 2`, `src_y = 0` and height 4, which is
`min (sh, out.h - 2 * dy)` and not the overlap `min (sh, out.h - dy) = 6`;
with `dy = -2` every call has `dst_y = -2`, `src_y = 0` and height 8, not
`dst_y = 0`, `src_y = 2` and height 6. -/
theorem unfilled_axis_offset_counted_twice :
    _mapped_blend_cpu.calls 25 8 EVAS_FILTER_FILL_MODE_REPEAT_X 0 0 10 8 0 2 25 8 =
        some [⟨0, 0, 10, 4, 0, 2, 10, 4⟩, ⟨0, 0, 10, 4, 10, 2, 10, 4⟩,
          ⟨0, 0, 5, 4, 20, 2, 5, 4⟩] ∧
      MIN 8 (8 - 2) = 6 ∧
      _mapped_blend_cpu.calls 25 8 EVAS_FILTER_FILL_MODE_REPEAT_X 0 0 10 8 0 (-2) 25 8 =
        some [⟨0, 0, 10, 8, 0, -2, 10, 8⟩, ⟨0, 0, 10, 8, 10, -2, 10, 8⟩,
          ⟨0, 0, 5, 8, 20, -2, 5, 8⟩] ∧
      MIN (8 + -2) 8 = 6 := by
  decide

/-! ## Blend functions: the checks before any work -/

/-- The function `_filter_blend_cpu_generic_do` with a null image or storage:
failure, no event, the output backing as it was. -/
theorem generic_do_null (scaled_get : Evas_Filter_Buffer → Int → Int → Option Evas_Filter_Buffer)
    (image_draw : kernel_func) (cmd : Evas_Filter_Command) (input output : Evas_Filter_Buffer)
    (hin : cmd.input = some input) (hout : cmd.output = some output)
    (hnull : input.backing = none ∨ output.backing = none ∨
      (∃ i, input.backing = some i ∧ i.data = none) ∨
      (∃ o, output.backing = some o ∧ o.data = none)) :
    _filter_blend_cpu_generic_do scaled_get image_draw cmd = some ⟨false, output.backing, []⟩ := by
  unfold _filter_blend_cpu_generic_do
  simp only [hin, hout]
  cases hib : input.backing with
  | none => rfl
  | some i =>
    cases hob : output.backing with
    | none => rfl
    | some o =>
      simp only []
      by_cases hid : i.data = none
      · rw [if_pos hid]
      · rw [if_neg hid]
        by_cases hod : o.data = none
        · rw [if_pos hod]
        · exfalso
          rcases hnull with h | h | ⟨i2, h1, h2⟩ | ⟨o2, h1, h2⟩
          · rw [hib] at h
            exact Option.noConfusion h
          · rw [hob] at h
            exact Option.noConfusion h
          · rw [hib] at h1
            exact hid (by rw [Option.some.inj h1]; exact h2)
          · rw [hob] at h1
            exact hod (by rw [Option.some.inj h1]; exact h2)

/-- The function `_filter_blend_cpu_rgba` with a null image or storage:
failure, no event, the output backing as it was. -/
theorem rgba_null {κ : Type} (ENFN : Evas_Func κ) (cmd : Evas_Filter_Command)
    (input output : Evas_Filter_Buffer)
    (hin : cmd.input = some input) (hout : cmd.output = some output)
    (hnull : input.backing = none ∨ output.backing = none ∨
      (∃ i, input.backing = some i ∧ i.data = none) ∨
      (∃ o, output.backing = some o ∧ o.data = none)) :
    _filter_blend_cpu_rgba ENFN cmd = some ⟨false, output.backing, []⟩ := by
  unfold _filter_blend_cpu_rgba
  simp only [hin, hout]
  cases hib : input.backing with
  | none => rfl
  | some i =>
    cases hob : output.backing with
    | none => rfl
    | some o =>
      simp only []
      by_cases hid : i.data = none
      · rw [if_pos hid]
      · rw [if_neg hid]
        by_cases hod : o.data = none
        · rw [if_pos hod]
        · exfalso
          rcases hnull with h | h | ⟨i2, h1, h2⟩ | ⟨o2, h1, h2⟩
          · rw [hib] at h
            exact Option.noConfusion h
          · rw [hob] at h
            exact Option.noConfusion h
          · rw [hib] at h1
            exact hid (by rw [Option.some.inj h1]; exact h2)
          · rw [hob] at h1
            exact hod (by rw [Option.some.inj h1]; exact h2)

/-- C18: each of the four blend functions, given a command whose input image,
output image, input storage or output storage is null, returns failure with an
empty event list (no blit call, no scaler request, no lock, no draw-context
call) and the output buffer's backing exactly as it was. -/
theorem blend_functions_fail_on_null {κ : Type}
    (alpha_func_get : Int → Option Alpha_Gfx_Func)
    (mask_color_span_get : Nat → RGBA_Image → Int → Int → Option RGBA_Gfx_Func)
    (div_using_bitshift : Bool)
    (scaled_get : Evas_Filter_Buffer → Int → Int → Option Evas_Filter_Buffer)
    (ENFN : Evas_Func κ) (cmd : Evas_Filter_Command) (input output : Evas_Filter_Buffer)
    (hin : cmd.input = some input) (hout : cmd.output = some output)
    (hnull : input.backing = none ∨ output.backing = none ∨
      (∃ i, input.backing = some i ∧ i.data = none) ∨
      (∃ o, output.backing = some o ∧ o.data = none)) :
    _filter_blend_cpu_alpha alpha_func_get scaled_get cmd = some ⟨false, output.backing, []⟩ ∧
      _filter_blend_cpu_mask_rgba mask_color_span_get scaled_get cmd =
        some ⟨false, output.backing, []⟩ ∧
      _filter_blend_cpu_rgba2alpha div_using_bitshift scaled_get cmd =
        some ⟨false, output.backing, []⟩ ∧
      _filter_blend_cpu_rgba ENFN cmd = some ⟨false, output.backing, []⟩ :=
  ⟨generic_do_null scaled_get _ cmd input output hin hout hnull,
    generic_do_null scaled_get _ cmd input output hin hout hnull,
    generic_do_null scaled_get _ cmd input output hin hout hnull,
    rgba_null ENFN cmd input output hin hout hnull⟩

/-- Witness of C18: an RGBA input whose storage pointer is null, blended onto
a 1x1 output. -/
theorem blend_functions_fail_on_null_witness :
    _filter_blend_cpu_rgba2alpha true (fun _ w h => some ⟨false, true, some ⟨w, h, some []⟩⟩)
        ⟨some ⟨false, false, some ⟨1, 1, none⟩⟩, some ⟨true, false, some ⟨1, 1, some [7]⟩⟩,
          ⟨0, 0, EVAS_FILTER_FILL_MODE_STRETCH_XY, 0, 0, 0, 0, 0, false, ⟨0, 0, 0, 0⟩⟩⟩ =
      some ⟨false, some ⟨1, 1, some [7]⟩, []⟩ :=
  (blend_functions_fail_on_null (κ := Unit) (fun _ => none) (fun _ _ _ _ => none) true
    (fun _ w h => some ⟨false, true, some ⟨w, h, some []⟩⟩)
    ⟨(), fun _ _ _ _ _ => (), fun _ _ => (), fun _ _ _ _ _ => (), fun _ _ _ _ _ => (),
      fun _ s _ _ _ _ _ _ _ _ _ => (true, s)⟩
    ⟨some ⟨false, false, some ⟨1, 1, none⟩⟩, some ⟨true, false, some ⟨1, 1, some [7]⟩⟩,
      ⟨0, 0, EVAS_FILTER_FILL_MODE_STRETCH_XY, 0, 0, 0, 0, 0, false, ⟨0, 0, 0, 0⟩⟩⟩
    ⟨false, false, some ⟨1, 1, none⟩⟩ ⟨true, false, some ⟨1, 1, some [7]⟩⟩ rfl rfl
    (Or.inr (Or.inr (Or.inl ⟨⟨1, 1, none⟩, rfl, rfl⟩)))).2.2.1

/-- The function `_filter_blend_cpu_generic_do` on valid images of which one
has a non-positive extent: success, no event, the output image as it was. -/
theorem generic_do_degenerate
    (scaled_get : Evas_Filter_Buffer → Int → Int → Option Evas_Filter_Buffer)
    (image_draw : kernel_func) (cmd : Evas_Filter_Command) (input output : Evas_Filter_Buffer)
    (in_ out : RGBA_Image)
    (hin : cmd.input = some input) (hout : cmd.output = some output)
    (hib : input.backing = some in_) (hob : output.backing = some out)
    (hid : in_.data ≠ none) (hod : out.data ≠ none)
    (hdeg : in_.w ≤ 0 ∨ in_.h ≤ 0 ∨ out.w ≤ 0 ∨ out.h ≤ 0) :
    _filter_blend_cpu_generic_do scaled_get image_draw cmd = some ⟨true, some out, []⟩ := by
  have hguard : out.w ≤ 0 ∨ out.h ≤ 0 ∨ in_.w ≤ 0 ∨ in_.h ≤ 0 := by
    rcases hdeg with h | h | h | h
    · exact Or.inr (Or.inr (Or.inl h))
    · exact Or.inr (Or.inr (Or.inr h))
    · exact Or.inl h
    · exact Or.inr (Or.inl h)
  unfold _filter_blend_cpu_generic_do
  simp only [hin, hout, hib, hob]
  rw [if_neg hid, if_neg hod, if_pos hguard]

/-- C14: each of the four blend functions, given present images and storage
but a zero or negative input width, input height, output width or output
height, returns success with an empty event list (no blit call, no scaler
request, no draw context) and the output image exactly as it was. -/
theorem blend_functions_skip_degenerate {κ : Type}
    (alpha_func_get : Int → Option Alpha_Gfx_Func)
    (mask_color_span_get : Nat → RGBA_Image → Int → Int → Option RGBA_Gfx_Func)
    (div_using_bitshift : Bool)
    (scaled_get : Evas_Filter_Buffer → Int → Int → Option Evas_Filter_Buffer)
    (ENFN : Evas_Func κ) (cmd : Evas_Filter_Command) (input output : Evas_Filter_Buffer)
    (in_ out : RGBA_Image)
    (hin : cmd.input = some input) (hout : cmd.output = some output)
    (hib : input.backing = some in_) (hob : output.backing = some out)
    (hid : in_.data ≠ none) (hod : out.data ≠ none)
    (hdeg : in_.w ≤ 0 ∨ in_.h ≤ 0 ∨ out.w ≤ 0 ∨ out.h ≤ 0) :
    _filter_blend_cpu_alpha alpha_func_get scaled_get cmd = some ⟨true, some out, []⟩ ∧
      _filter_blend_cpu_mask_rgba mask_color_span_get scaled_get cmd =
        some ⟨true, some out, []⟩ ∧
      _filter_blend_cpu_rgba2alpha div_using_bitshift scaled_get cmd =
        some ⟨true, some out, []⟩ ∧
      _filter_blend_cpu_rgba ENFN cmd = some ⟨true, some out, []⟩ := by
  refine ⟨generic_do_degenerate scaled_get _ cmd input output in_ out hin hout hib hob hid hod hdeg,
    generic_do_degenerate scaled_get _ cmd input output in_ out hin hout hib hob hid hod hdeg,
    generic_do_degenerate scaled_get _ cmd input output in_ out hin hout hib hob hid hod hdeg,
    ?_⟩
  have hguard : out.w ≤ 0 ∨ out.h ≤ 0 ∨ in_.w ≤ 0 ∨ in_.h ≤ 0 := by
    rcases hdeg with h | h | h | h
    · exact Or.inr (Or.inr (Or.inl h))
    · exact Or.inr (Or.inr (Or.inr h))
    · exact Or.inl h
    · exact Or.inr (Or.inl h)
  unfold _filter_blend_cpu_rgba
  simp only [hin, hout, hib, hob]
  rw [if_neg hid, if_neg hod, if_pos hguard]

/-- Witness of C14: a 2x0 input blended onto a 1x1 output by the RGBA blend
function, with an engine whose draw would blank the output. -/
theorem blend_functions_skip_degenerate_witness :
    _filter_blend_cpu_rgba (κ := Unit)
        ⟨(), fun _ _ _ _ _ => (), fun _ _ => (), fun _ _ _ _ _ => (), fun _ _ _ _ _ => (),
          fun _ s _ _ _ _ _ _ _ _ _ => (true, ⟨s.w, s.h, some []⟩)⟩
        ⟨some ⟨false, false, some ⟨2, 0, some []⟩⟩, some ⟨false, false, some ⟨1, 1, some [7]⟩⟩,
          ⟨0, 0, EVAS_FILTER_FILL_MODE_STRETCH_XY, 0, 0, 0, 0, 0, false, ⟨0, 0, 0, 0⟩⟩⟩ =
      some ⟨true, some ⟨1, 1, some [7]⟩, []⟩ :=
  (blend_functions_skip_degenerate (κ := Unit) (fun _ => none) (fun _ _ _ _ => none) true
    (fun _ _ _ => none)
    ⟨(), fun _ _ _ _ _ => (), fun _ _ => (), fun _ _ _ _ _ => (), fun _ _ _ _ _ => (),
      fun _ s _ _ _ _ _ _ _ _ _ => (true, ⟨s.w, s.h, some []⟩)⟩
    ⟨some ⟨false, false, some ⟨2, 0, some []⟩⟩, some ⟨false, false, some ⟨1, 1, some [7]⟩⟩,
      ⟨0, 0, EVAS_FILTER_FILL_MODE_STRETCH_XY, 0, 0, 0, 0, 0, false, ⟨0, 0, 0, 0⟩⟩⟩
    ⟨false, false, some ⟨2, 0, some []⟩⟩ ⟨false, false, some ⟨1, 1, some [7]⟩⟩
    ⟨2, 0, some []⟩ ⟨1, 1, some [7]⟩ rfl rfl rfl rfl (by decide) (by decide)
    (Or.inr (Or.inl (by decide)))).2.2.2

/-! ## Blend functions: the scaler gives no buffer -/

/-- C17: when a Stretch flag is set, the input and output sizes differ (all
four extents positive, images and storage present) and the scaler returns no
buffer for the requested size, `_filter_blend_cpu_generic_do` returns failure,
the output image is exactly as it was, and the only events are the lock, the
one scaler request and the unlock: no blit call is made, whatever the kernel. -/
theorem generic_do_fails_without_scaled_buffer
    (scaled_get : Evas_Filter_Buffer → Int → Int → Option Evas_Filter_Buffer)
    (image_draw : kernel_func) (cmd : Evas_Filter_Command) (input output : Evas_Filter_Buffer)
    (in_ out : RGBA_Image)
    (hin : cmd.input = some input) (hout : cmd.output = some output)
    (hib : input.backing = some in_) (hob : output.backing = some out)
    (hid : in_.data ≠ none) (hod : out.data ≠ none)
    (hsw : 0 < in_.w) (hsh : 0 < in_.h) (hdw : 0 < out.w) (hdh : 0 < out.h)
    (hdiff : in_.w ≠ out.w ∨ in_.h ≠ out.h)
    (hstretch : cmd.draw.fillmode.stretch_x = true ∨ cmd.draw.fillmode.stretch_y = true)
    (hnone : scaled_get input (if cmd.draw.fillmode.stretch_x then out.w else in_.w)
      (if cmd.draw.fillmode.stretch_y then out.h else in_.h) = none) :
    _filter_blend_cpu_generic_do scaled_get image_draw cmd =
      some ⟨false, some out,
        [Event.buffers_lock,
          Event.scaled_get (if cmd.draw.fillmode.stretch_x then out.w else in_.w)
            (if cmd.draw.fillmode.stretch_y then out.h else in_.h),
          Event.buffers_unlock]⟩ := by
  have hguard : ¬ (out.w ≤ 0 ∨ out.h ≤ 0 ∨ in_.w ≤ 0 ∨ in_.h ≤ 0) := by omega
  unfold _filter_blend_cpu_generic_do
  simp only [hin, hout, hib, hob]
  rw [if_neg hid, if_neg hod, if_neg hguard, if_pos ⟨hdiff, hstretch⟩]
  simp only [hnone]

/-- Witness of C17: a 1x2 alpha input stretched onto a 2x2 output, with a
scaler that has no buffer to give and a kernel that would blank the output. -/
theorem generic_do_fails_without_scaled_buffer_witness :
    _filter_blend_cpu_generic_do (fun _ _ _ => none)
        (fun _ surface _ _ _ _ _ _ _ _ _ => (true, ⟨surface.w, surface.h, some []⟩))
        ⟨some ⟨true, false, some ⟨1, 2, some [1, 2]⟩⟩,
          some ⟨true, false, some ⟨2, 2, some [10, 20, 30, 40]⟩⟩,
          ⟨0, 0, EVAS_FILTER_FILL_MODE_STRETCH_XY, 0, 0, 0, 0, 0, false, ⟨0, 0, 0, 0⟩⟩⟩ =
      some ⟨false, some ⟨2, 2, some [10, 20, 30, 40]⟩,
        [Event.buffers_lock, Event.scaled_get 2 2, Event.buffers_unlock]⟩ :=
  generic_do_fails_without_scaled_buffer (fun _ _ _ => none)
    (fun _ surface _ _ _ _ _ _ _ _ _ => (true, ⟨surface.w, surface.h, some []⟩))
    ⟨some ⟨true, false, some ⟨1, 2, some [1, 2]⟩⟩,
      some ⟨true, false, some ⟨2, 2, some [10, 20, 30, 40]⟩⟩,
      ⟨0, 0, EVAS_FILTER_FILL_MODE_STRETCH_XY, 0, 0, 0, 0, 0, false, ⟨0, 0, 0, 0⟩⟩⟩
    ⟨true, false, some ⟨1, 2, some [1, 2]⟩⟩ ⟨true, false, some ⟨2, 2, some [10, 20, 30, 40]⟩⟩
    ⟨1, 2, some [1, 2]⟩ ⟨2, 2, some [10, 20, 30, 40]⟩ rfl rfl rfl rfl (by decide) (by decide)
    (by decide) (by decide) (by decide) (by decide) (Or.inl (by decide)) (Or.inl rfl) rfl

/-! ## Blend functions: an operator without combine function -/

/-- C16 at an alpha-to-alpha and an alpha-to-RGBA command on 1x1 buffers with
fill mode None and an operator table that has no function for the command's
operator: the dispatcher selects `_filter_blend_cpu_alpha` (respectively
`_filter_blend_cpu_mask_rgba`), the kernel called for the one blit returns
failure and leaves the output as it was, and the selected blend function
returns success. -/
theorem unsupported_operator_reports_success :
    evas_filter_blend_cpu_func_get
        (some ⟨some ⟨true, false, some ⟨1, 1, some [5]⟩⟩,
          some ⟨true, false, some ⟨1, 1, some [7]⟩⟩,
          ⟨0, 0, EVAS_FILTER_FILL_MODE_NONE, 2, 0, 0, 0, 0, false, ⟨0, 0, 0, 0⟩⟩⟩) =
        some Evas_Filter_Apply_Func._filter_blend_cpu_alpha ∧
      _image_draw_cpu_alpha2alpha (fun _ => none) ⟨2, 0⟩ ⟨1, 1, some [7]⟩ ⟨1, 1, some [5]⟩
        0 0 1 1 0 0 1 1 = (false, ⟨1, 1, some [7]⟩) ∧
      _filter_blend_cpu_alpha (fun _ => none) (fun _ _ _ => none)
        ⟨some ⟨true, false, some ⟨1, 1, some [5]⟩⟩,
          some ⟨true, false, some ⟨1, 1, some [7]⟩⟩,
          ⟨0, 0, EVAS_FILTER_FILL_MODE_NONE, 2, 0, 0, 0, 0, false, ⟨0, 0, 0, 0⟩⟩⟩ =
        some ⟨true, some ⟨1, 1, some [7]⟩, [Event.image_draw ⟨0, 0, 1, 1, 0, 0, 1, 1⟩]⟩ ∧
      evas_filter_blend_cpu_func_get
        (some ⟨some ⟨true, false, some ⟨1, 1, some [5]⟩⟩,
          some ⟨false, false, some ⟨1, 1, some [7]⟩⟩,
          ⟨0, 0, EVAS_FILTER_FILL_MODE_NONE, 2, 0, 0, 0, 0, false, ⟨0, 0, 0, 0⟩⟩⟩) =
        some Evas_Filter_Apply_Func._filter_blend_cpu_mask_rgba ∧
      _filter_blend_cpu_mask_rgba (fun _ _ _ _ => none) (fun _ _ _ => none)
        ⟨some ⟨true, false, some ⟨1, 1, some [5]⟩⟩,
          some ⟨false, false, some ⟨1, 1, some [7]⟩⟩,
          ⟨0, 0, EVAS_FILTER_FILL_MODE_NONE, 2, 0, 0, 0, 0, false, ⟨0, 0, 0, 0⟩⟩⟩ =
        some ⟨true, some ⟨1, 1, some [7]⟩, [Event.image_draw ⟨0, 0, 1, 1, 0, 0, 1, 1⟩]⟩ := by
  decide

/-! ## The rgba2alpha kernel: frame and degenerate extents -/

theorem channel_bounds (p : Nat) :
    0 ≤ R_VAL p ∧ R_VAL p ≤ 255 ∧ 0 ≤ G_VAL p ∧ G_VAL p ≤ 255 ∧ 0 ≤ B_VAL p ∧ B_VAL p ≤ 255 := by
  unfold R_VAL G_VAL B_VAL
  omega

/-- The stored byte is the value of `DIVIDE` itself: narrowing to a byte loses
nothing. -/
theorem rgba2alpha_pixel_eq_DIVIDE (bs : Bool) (p : Nat) :
    (_image_draw_cpu_rgba2alpha.pixel bs p : Int) =
      DIVIDE bs (DEFINE_DIVIDER bs 3) (R_VAL p + G_VAL p + B_VAL p) := by
  obtain ⟨h1, h2, h3, h4, h5, h6⟩ := channel_bounds p
  unfold _image_draw_cpu_rgba2alpha.pixel
  have hv0 : 0 ≤ R_VAL p + G_VAL p + B_VAL p := by omega
  have hv1 : R_VAL p + G_VAL p + B_VAL p ≤ 765 := by omega
  generalize R_VAL p + G_VAL p + B_VAL p = v at hv0 hv1 ⊢
  cases bs
  · simp only [DIVIDE, DEFINE_DIVIDER, Bool.false_eq_true, if_false]
    rw [Int.tdiv_eq_ediv hv0 (by omega)]
    omega
  · simp only [DIVIDE, DEFINE_DIVIDER_bitshift_three, if_true]
    rw [Int.shiftRight_eq_div_pow]
    have e : (((2 : Nat) ^ (12 : Int).toNat : Nat) : Int) = 4096 := by decide
    rw [e]
    omega

/-- The source pixel and destination index of column `i`, row `j` in
flattened form. -/
theorem rect_index (y : Int) (j : Nat) (w x : Int) (i : Nat) :
    (y + j) * w + x + i = y * w + j * w + x + i := by ring

/-- C20: called with equal extents on rectangles inside both buffers, the
rgba2alpha kernel returns success; the destination keeps its extents and its
storage length; the byte at column `i`, row `j` of the destination rectangle
is `DIVIDE(R + G + B)` of the source pixel at column `i`, row `j` of the source
rectangle; every storage position outside the destination rectangle keeps its
byte.  The source is only read: the kernel hands back the destination alone. -/
theorem rgba2alpha_frame (div_using_bitshift : Bool) (dst src : RGBA_Image) (d : List Nat)
    (src_x src_y w h dst_x dst_y : Int)
    (hd : dst.data = some d) (hlen : (d.length : Int) = dst.w * dst.h)
    (hw0 : 0 ≤ w) (hh0 : 0 ≤ h) (hw : w < 2147483648) (hh : h < 2147483648)
    (hx : 0 ≤ dst_x) (hxw : dst_x + w ≤ dst.w) (hy : 0 ≤ dst_y) (hyh : dst_y + h ≤ dst.h)
    (_hsx : 0 ≤ src_x) (_hsxw : src_x + w ≤ src.w) (_hsy : 0 ≤ src_y)
    (_hsyh : src_y + h ≤ src.h) :
    ∃ d2 : List Nat,
      _image_draw_cpu_rgba2alpha div_using_bitshift dst src
        src_x src_y w h dst_x dst_y w h = (true, ⟨dst.w, dst.h, some d2⟩) ∧
      d2.length = d.length ∧
      (∀ i j : Nat, (i : Int) < w → (j : Int) < h →
        (peek d2 ((dst_y + j) * dst.w + dst_x + i) : Int) =
          DIVIDE div_using_bitshift (DEFINE_DIVIDER div_using_bitshift 3)
            (R_VAL (peek src.pixels ((src_y + j) * src.w + src_x + i)) +
              G_VAL (peek src.pixels ((src_y + j) * src.w + src_x + i)) +
              B_VAL (peek src.pixels ((src_y + j) * src.w + src_x + i)))) ∧
      (∀ idx : Int,
        (∀ i j : Nat, (i : Int) < w → (j : Int) < h → idx ≠ (dst_y + j) * dst.w + dst_x + i) →
        peek d2 idx = peek d idx) := by
  have hwc : loopCount w = w.toNat := loopCount_of_nonneg w hw0 (by omega)
  have hhc : loopCount h = h.toNat := loopCount_of_nonneg h hh0 (by omega)
  have hsz : ¬ ¬ (w = w ∧ h = h) := by simp
  refine ⟨_image_draw_cpu_rgba2alpha.rows div_using_bitshift src.pixels src.w dst.w
    src_x dst_x w (loopCount h) (src_y * src.w) (dst_y * dst.w) d, ?_, ?_, ?_, ?_⟩
  · rw [_image_draw_cpu_rgba2alpha, if_neg hsz]
    simp only [RGBA_Image.store, hd, Option.map_some']
  · exact rgba2alpha_rows_length _ _ _ _ _ _ _ _ _ _ _
  · intro i j hi hj
    have hdw : 0 ≤ dst.w := by omega
    have hrow0 : 0 ≤ (dst_y + j) * dst.w := Int.mul_nonneg (by omega) hdw
    have hrow1 : (dst_y + j + 1) * dst.w ≤ dst.h * dst.w :=
      Int.mul_le_mul_of_nonneg_right (by omega) hdw
    have hexp : (dst_y + j + 1) * dst.w = (dst_y + j) * dst.w + dst.w := by ring
    have hcomm : dst.w * dst.h = dst.h * dst.w := Int.mul_comm _ _
    have hidx := rect_index dst_y j dst.w dst_x i
    rw [← rgba2alpha_pixel_eq_DIVIDE, rect_index dst_y j dst.w dst_x i,
      rect_index src_y j src.w src_x i, rgba2alpha_rows_peek_inside]
    · exact hx
    · omega
    · omega
    · omega
    · omega
    · omega
  · intro idx hout
    apply rgba2alpha_rows_peek_outside
    intro r hr hin
    have hrh : (r : Int) < h := by omega
    have hk0 : 0 ≤ idx - (dst_y * dst.w + r * dst.w + dst_x) := by omega
    have hk : ((idx - (dst_y * dst.w + r * dst.w + dst_x)).toNat : Int) < w := by omega
    refine hout (idx - (dst_y * dst.w + r * dst.w + dst_x)).toNat r hk hrh ?_
    rw [rect_index, Int.toNat_of_nonneg hk0]
    omega

/-- Witness of C20: a 1x1 rectangle at column 1, row 0 of a 2x1 source, written
to column 0, row 1 of a 1x2 destination, with the exact divider. -/
theorem rgba2alpha_frame_witness :
    ∃ d2 : List Nat,
      _image_draw_cpu_rgba2alpha false ⟨1, 2, some [5, 6]⟩
        ⟨2, 1, some [0, ARGB_JOIN 255 60 90 120]⟩ 1 0 1 1 0 1 1 1 =
        (true, ⟨1, 2, some d2⟩) ∧
      d2.length = 2 ∧
      (∀ i j : Nat, (i : Int) < 1 → (j : Int) < 1 →
        (peek d2 (((1 : Int) + j) * 1 + 0 + i) : Int) =
          DIVIDE false (DEFINE_DIVIDER false 3)
            (R_VAL (peek [0, ARGB_JOIN 255 60 90 120] (((0 : Int) + j) * 2 + 1 + i)) +
              G_VAL (peek [0, ARGB_JOIN 255 60 90 120] (((0 : Int) + j) * 2 + 1 + i)) +
              B_VAL (peek [0, ARGB_JOIN 255 60 90 120] (((0 : Int) + j) * 2 + 1 + i)))) ∧
      (∀ idx : Int,
        (∀ i j : Nat, (i : Int) < 1 → (j : Int) < 1 → idx ≠ ((1 : Int) + j) * 1 + 0 + i) →
        peek d2 idx = peek [5, 6] idx) :=
  rgba2alpha_frame false ⟨1, 2, some [5, 6]⟩ ⟨2, 1, some [0, ARGB_JOIN 255 60 90 120]⟩ [5, 6]
    1 0 1 1 0 1 rfl (by decide) (by decide) (by decide) (by decide) (by decide) (by decide)
    (by decide) (by decide) (by decide) (by decide) (by decide) (by decide) (by decide)

/-- C15 at the rgba2alpha kernel with equal extents, width 1 and height -1,
on 1x1 buffers: the call returns success and the destination byte, 0 before
the call, is the divided channel sum of the source pixel afterwards (30 with
the exact divider, 29 with the bit-shift divider), because the scanline loop
`for (y = src_h; y; y--)` runs its body before the counter can reach zero. -/
theorem rgba2alpha_negative_height_writes (div_using_bitshift : Bool) :
    (_image_draw_cpu_rgba2alpha div_using_bitshift ⟨1, 1, some [0]⟩
        ⟨1, 1, some [ARGB_JOIN 255 30 30 30]⟩ 0 0 1 (-1) 0 0 1 (-1)).1 = true ∧
      peek (_image_draw_cpu_rgba2alpha div_using_bitshift ⟨1, 1, some [0]⟩
        ⟨1, 1, some [ARGB_JOIN 255 30 30 30]⟩ 0 0 1 (-1) 0 0 1 (-1)).2.pixels 0 =
        (if div_using_bitshift then 29 else 30) ∧
      peek (RGBA_Image.pixels ⟨1, 1, some [0]⟩) 0 = 0 := by
  have hsz : ¬ ¬ ((1 : Int) = 1 ∧ (-1 : Int) = -1) := by simp
  have hcount : 0 < loopCount (-1) := by decide
  have h := rgba2alpha_rows_peek_inside div_using_bitshift [ARGB_JOIN 255 30 30 30]
    1 1 0 0 1 (by decide) (by decide) 0 (by decide) (loopCount (-1)) 0 hcount (0 * 1) (0 * 1)
    [0] (by decide) (by decide)
  have e : (0 : Int) * 1 + ((0 : Nat) : Int) * 1 + 0 + ((0 : Nat) : Int) = 0 := by decide
  rw [e] at h
  refine ⟨?_, ?_, by decide⟩
  · rw [_image_draw_cpu_rgba2alpha, if_neg hsz]
  · rw [_image_draw_cpu_rgba2alpha, if_neg hsz]
    simp only []
    rw [pixels_store _ [0] _ rfl]
    rw [show RGBA_Image.pixels ⟨1, 1, some [ARGB_JOIN 255 30 30 30]⟩ =
      [ARGB_JOIN 255 30 30 30] from rfl]
    show peek (_image_draw_cpu_rgba2alpha.rows div_using_bitshift [ARGB_JOIN 255 30 30 30]
      1 1 0 0 1 (loopCount (-1)) (0 * 1) (0 * 1) [0]) 0 = _
    rw [h]
    cases div_using_bitshift <;> decide

/-! ## The alpha2alpha kernel: per-pixel combine and frame -/

theorem combineSpan_length (f : Nat → Nat → Nat) (src : List Nat) (n : Nat) (s d : Int)
    (dst : List Nat) : (combineSpan f src n s d dst).length = dst.length := by
  induction n generalizing s d dst with
  | zero => rfl
  | succ n ih => rw [combineSpan, ih, poke_length]

theorem combineSpan_peek (f : Nat → Nat → Nat) (src : List Nat) (n : Nat) (s d : Int)
    (dst : List Nat) (idx : Int) :
    peek (combineSpan f src n s d dst) idx =
      if d ≤ idx ∧ idx < d + n ∧ 0 ≤ idx ∧ idx < dst.length then
        f (peek src (s + (idx - d))) (peek dst idx)
      else peek dst idx := by
  induction n generalizing s d dst with
  | zero =>
    have h : ¬ (d ≤ idx ∧ idx < d + ((0 : Nat) : Int) ∧ 0 ≤ idx ∧ idx < dst.length) := by omega
    rw [combineSpan, if_neg h]
  | succ n ih =>
    rw [combineSpan, ih, peek_poke, poke_length]
    by_cases h1 : idx = d
    · subst h1
      have h3 : ¬ (idx + 1 ≤ idx ∧ idx < idx + 1 + (n : Int) ∧ 0 ≤ idx ∧ idx < dst.length) := by
        omega
      by_cases h2 : 0 ≤ idx ∧ idx < (dst.length : Int)
      · have h4 : (idx ≤ idx ∧ idx < idx + ((n + 1 : Nat) : Int) ∧ 0 ≤ idx ∧
            idx < dst.length) := by
          push_cast
          omega
        rw [if_neg h3, if_pos ⟨rfl, h2⟩, if_pos h4]
        simp
      · have h4 : ¬ (idx ≤ idx ∧ idx < idx + ((n + 1 : Nat) : Int) ∧ 0 ≤ idx ∧
            idx < dst.length) := by
          omega
        have h5 : ¬ (idx = idx ∧ 0 ≤ idx ∧ idx < dst.length) := by omega
        rw [if_neg h3, if_neg h4, if_neg h5]
    · have h5 : ¬ (idx = d ∧ 0 ≤ d ∧ d < dst.length) := by omega
      rw [if_neg h5]
      by_cases h2 : d + 1 ≤ idx ∧ idx < d + 1 + (n : Int) ∧ 0 ≤ idx ∧ idx < dst.length
      · have h4 : (d ≤ idx ∧ idx < d + ((n + 1 : Nat) : Int) ∧ 0 ≤ idx ∧ idx < dst.length) := by
          push_cast
          omega
        rw [if_pos h2, if_pos h4]
        congr 2
        ring
      · have h4 : ¬ (d ≤ idx ∧ idx < d + ((n + 1 : Nat) : Int) ∧ 0 ≤ idx ∧
            idx < dst.length) := by
          push_cast
          omega
        rw [if_neg h2, if_neg h4]

/-- The span function built from a per-pixel combine applies that combine. -/
theorem ofCombine_applies (f : Nat → Nat → Nat) :
    AppliesCombine f (Alpha_Gfx_Func.ofCombine f) := by
  intro src s dst d len idx
  refine ⟨combineSpan_length f src _ s d dst, ?_⟩
  unfold Alpha_Gfx_Func.ofCombine
  rw [combineSpan_peek]
  by_cases h : d ≤ idx ∧ idx < d + len ∧ 0 ≤ idx ∧ idx < dst.length
  · have h2 : d ≤ idx ∧ idx < d + (len.toNat : Int) ∧ 0 ≤ idx ∧ idx < dst.length := by omega
    rw [if_pos h, if_pos h2]
  · have h2 : ¬ (d ≤ idx ∧ idx < d + (len.toNat : Int) ∧ 0 ≤ idx ∧ idx < dst.length) := by
      omega
    rw [if_neg h, if_neg h2]

theorem alpha2alpha_rows_length (f : Nat → Nat → Nat) (func : Alpha_Gfx_Func)
    (happ : AppliesCombine f func) (src : List Nat) (sw dw src_x dst_x src_w : Int)
    (y : Nat) (sd dd : Int) (dst : List Nat) :
    (_image_draw_cpu_alpha2alpha.rows func src sw dw src_x dst_x src_w y sd dd dst).length =
      dst.length := by
  induction y generalizing sd dd dst with
  | zero => rfl
  | succ y ih => rw [_image_draw_cpu_alpha2alpha.rows, ih, (happ _ _ _ _ _ 0).1]

/-- A position that lies in none of the scanline spans keeps its byte. -/
theorem alpha2alpha_rows_peek_outside (f : Nat → Nat → Nat) (func : Alpha_Gfx_Func)
    (happ : AppliesCombine f func) (src : List Nat)
    (sw dw src_x dst_x src_w : Int) (idx : Int) (y : Nat) (sd dd : Int) (dst : List Nat)
    (hout : ∀ r : Nat, r < y →
      ¬ (dd + r * dw + dst_x ≤ idx ∧ idx < dd + r * dw + dst_x + src_w)) :
    peek (_image_draw_cpu_alpha2alpha.rows func src sw dw src_x dst_x src_w y sd dd dst) idx =
      peek dst idx := by
  induction y generalizing sd dd dst with
  | zero => rfl
  | succ y ih =>
    rw [_image_draw_cpu_alpha2alpha.rows, ih, (happ _ _ _ _ _ idx).2]
    · have h0 := hout 0 (by omega)
      have h1 : ¬ (dd + dst_x ≤ idx ∧ idx < dd + dst_x + src_w ∧ 0 ≤ idx ∧
          idx < dst.length) := by
        simp only [Nat.cast_zero, Int.zero_mul, Int.add_zero] at h0
        omega
      rw [if_neg h1]
    · intro r hr
      have h := hout (r + 1) (by omega)
      have e : ((r + 1 : Nat) : Int) * dw = dw + r * dw := by
        push_cast
        ring
      rw [e] at h
      omega

/-- A position inside the span of scanline `r`, column `k`, holds the combine
of the source byte of that scanline and column with its own old byte. -/
theorem alpha2alpha_rows_peek_inside (f : Nat → Nat → Nat) (func : Alpha_Gfx_Func)
    (happ : AppliesCombine f func) (src : List Nat)
    (sw dw src_x dst_x src_w : Int) (hx : 0 ≤ dst_x) (hxw : dst_x + src_w ≤ dw)
    (k : Nat) (hk : (k : Int) < src_w) (y : Nat) (r : Nat) (hr : r < y) (sd dd : Int)
    (dst : List Nat) (h0 : 0 ≤ dd + r * dw + dst_x + k)
    (hlen : dd + r * dw + dst_x + k < dst.length) :
    peek (_image_draw_cpu_alpha2alpha.rows func src sw dw src_x dst_x src_w y sd dd dst)
        (dd + r * dw + dst_x + k) =
      f (peek src (sd + r * sw + src_x + k)) (peek dst (dd + r * dw + dst_x + k)) := by
  have hdw : 0 ≤ dw := by omega
  induction y generalizing sd dd dst r with
  | zero => omega
  | succ y ih =>
    rw [_image_draw_cpu_alpha2alpha.rows]
    cases r with
    | zero =>
      simp only [Nat.cast_zero, Int.zero_mul, Int.add_zero] at h0 hlen ⊢
      rw [alpha2alpha_rows_peek_outside f func happ, (happ _ _ _ _ _ _).2]
      · have h1 : (dd + dst_x ≤ dd + dst_x + k ∧
            dd + dst_x + (k : Int) < dd + dst_x + src_w ∧
            0 ≤ dd + dst_x + (k : Int) ∧ dd + dst_x + (k : Int) < dst.length) := by omega
        rw [if_pos h1]
        congr 2
        ring
      · intro r2 hr2
        have hmul : 0 ≤ (r2 : Int) * dw := Int.mul_nonneg (by omega) hdw
        omega
    | succ r =>
      have e1 : dd + ((r + 1 : Nat) : Int) * dw + dst_x + k = (dd + dw) + r * dw + dst_x + k := by
        push_cast
        ring
      have e2 : sd + ((r + 1 : Nat) : Int) * sw + src_x + k = (sd + sw) + r * sw + src_x + k := by
        push_cast
        ring
      have hmul : 0 ≤ (r : Int) * dw := Int.mul_nonneg (by omega) hdw
      rw [e1, e2, ih]
      · rw [(happ _ _ _ _ _ _).2]
        have h1 : ¬ (dd + dst_x ≤ dd + dw + r * dw + dst_x + k ∧
            dd + dw + r * dw + dst_x + (k : Int) < dd + dst_x + src_w ∧
            0 ≤ dd + dw + r * dw + dst_x + (k : Int) ∧
            dd + dw + r * dw + dst_x + (k : Int) < dst.length) := by omega
        rw [if_neg h1]
      · omega
      · rw [← e1]
        exact h0
      · rw [← e1, (happ _ _ _ _ _ 0).1]
        exact hlen

/-- C19: the alpha2alpha kernel, called with equal extents on rectangles
inside both buffers for an operator whose span function applies the per-pixel
combine `f`, returns success; the destination keeps its extents and storage
length; the byte at column `i`, row `j` of the destination rectangle becomes
`f` of the source byte at column `i`, row `j` of the source rectangle and the
old destination byte; every storage position outside the destination rectangle
keeps its byte; and the whole result is the same for any tint colour in the
draw context. -/
theorem alpha2alpha_frame (alpha_func_get : Int → Option Alpha_Gfx_Func)
    (dc : Alpha_Blend_Draw_Context) (func : Alpha_Gfx_Func) (f : Nat → Nat → Nat)
    (dst src : RGBA_Image) (d : List Nat) (src_x src_y w h dst_x dst_y : Int)
    (hfunc : alpha_func_get dc.render_op = some func) (happ : AppliesCombine f func)
    (hd : dst.data = some d) (hlen : (d.length : Int) = dst.w * dst.h)
    (hw0 : 0 ≤ w) (hh0 : 0 ≤ h) (hh : h < 2147483648)
    (hx : 0 ≤ dst_x) (hxw : dst_x + w ≤ dst.w) (hy : 0 ≤ dst_y) (hyh : dst_y + h ≤ dst.h)
    (_hsx : 0 ≤ src_x) (_hsxw : src_x + w ≤ src.w) (_hsy : 0 ≤ src_y)
    (_hsyh : src_y + h ≤ src.h) :
    ∃ d2 : List Nat,
      _image_draw_cpu_alpha2alpha alpha_func_get dc dst src
        src_x src_y w h dst_x dst_y w h = (true, ⟨dst.w, dst.h, some d2⟩) ∧
      d2.length = d.length ∧
      (∀ i j : Nat, (i : Int) < w → (j : Int) < h →
        peek d2 ((dst_y + j) * dst.w + dst_x + i) =
          f (peek src.pixels ((src_y + j) * src.w + src_x + i))
            (peek d ((dst_y + j) * dst.w + dst_x + i))) ∧
      (∀ idx : Int,
        (∀ i j : Nat, (i : Int) < w → (j : Int) < h → idx ≠ (dst_y + j) * dst.w + dst_x + i) →
        peek d2 idx = peek d idx) ∧
      (∀ color : Nat,
        _image_draw_cpu_alpha2alpha alpha_func_get ⟨dc.render_op, color⟩ dst src
          src_x src_y w h dst_x dst_y w h =
        _image_draw_cpu_alpha2alpha alpha_func_get dc dst src
          src_x src_y w h dst_x dst_y w h) := by
  have hhc : loopCount h = h.toNat := loopCount_of_nonneg h hh0 (by omega)
  have hsz : ¬ ¬ (w = w ∧ h = h) := by simp
  refine ⟨_image_draw_cpu_alpha2alpha.rows func src.pixels src.w dst.w
    src_x dst_x w (loopCount h) (src_y * src.w) (dst_y * dst.w) d, ?_, ?_, ?_, ?_, ?_⟩
  · rw [_image_draw_cpu_alpha2alpha, if_neg hsz]
    simp only [hfunc, RGBA_Image.store, hd, Option.map_some']
  · exact alpha2alpha_rows_length f func happ _ _ _ _ _ _ _ _ _ _
  · intro i j hi hj
    have hdw : 0 ≤ dst.w := by omega
    have hrow0 : 0 ≤ (dst_y + j) * dst.w := Int.mul_nonneg (by omega) hdw
    have hrow1 : (dst_y + j + 1) * dst.w ≤ dst.h * dst.w :=
      Int.mul_le_mul_of_nonneg_right (by omega) hdw
    have hexp : (dst_y + j + 1) * dst.w = (dst_y + j) * dst.w + dst.w := by ring
    have hcomm : dst.w * dst.h = dst.h * dst.w := Int.mul_comm _ _
    have hidx := rect_index dst_y j dst.w dst_x i
    rw [rect_index dst_y j dst.w dst_x i, rect_index src_y j src.w src_x i,
      alpha2alpha_rows_peek_inside f func happ]
    · exact hx
    · exact hxw
    · exact hi
    · omega
    · omega
    · omega
  · intro idx hout
    apply alpha2alpha_rows_peek_outside f func happ
    intro r hr hin
    have hrh : (r : Int) < h := by omega
    have hk0 : 0 ≤ idx - (dst_y * dst.w + r * dst.w + dst_x) := by omega
    have hk : ((idx - (dst_y * dst.w + r * dst.w + dst_x)).toNat : Int) < w := by omega
    refine hout (idx - (dst_y * dst.w + r * dst.w + dst_x)).toNat r hk hrh ?_
    rw [rect_index, Int.toNat_of_nonneg hk0]
    omega
  · intro color
    rfl

/-- Witness of C19: an additive combine on a 1x1 rectangle at column 1, row 0
of a 2x1 source, written to column 0, row 1 of a 1x2 destination. -/
theorem alpha2alpha_frame_witness :
    ∃ d2 : List Nat,
      _image_draw_cpu_alpha2alpha (fun _ => some (Alpha_Gfx_Func.ofCombine fun s d => s + d))
        ⟨0, 7⟩ ⟨1, 2, some [5, 6]⟩ ⟨2, 1, some [1, 2]⟩ 1 0 1 1 0 1 1 1 =
        (true, ⟨1, 2, some d2⟩) ∧
      d2.length = 2 ∧
      (∀ i j : Nat, (i : Int) < 1 → (j : Int) < 1 →
        peek d2 (((1 : Int) + j) * 1 + 0 + i) =
          peek [1, 2] (((0 : Int) + j) * 2 + 1 + i) + peek [5, 6] (((1 : Int) + j) * 1 + 0 + i)) ∧
      (∀ idx : Int,
        (∀ i j : Nat, (i : Int) < 1 → (j : Int) < 1 → idx ≠ ((1 : Int) + j) * 1 + 0 + i) →
        peek d2 idx = peek [5, 6] idx) ∧
      (∀ color : Nat,
        _image_draw_cpu_alpha2alpha (fun _ => some (Alpha_Gfx_Func.ofCombine fun s d => s + d))
          ⟨0, color⟩ ⟨1, 2, some [5, 6]⟩ ⟨2, 1, some [1, 2]⟩ 1 0 1 1 0 1 1 1 =
        _image_draw_cpu_alpha2alpha (fun _ => some (Alpha_Gfx_Func.ofCombine fun s d => s + d))
          ⟨0, 7⟩ ⟨1, 2, some [5, 6]⟩ ⟨2, 1, some [1, 2]⟩ 1 0 1 1 0 1 1 1) :=
  alpha2alpha_frame (fun _ => some (Alpha_Gfx_Func.ofCombine fun s d => s + d)) ⟨0, 7⟩
    (Alpha_Gfx_Func.ofCombine fun s d => s + d) (fun s d => s + d)
    ⟨1, 2, some [5, 6]⟩ ⟨2, 1, some [1, 2]⟩ [5, 6] 1 0 1 1 0 1 rfl (ofCombine_applies _) rfl
    (by decide) (by decide) (by decide) (by decide) (by decide) (by decide) (by decide)
    (by decide) (by decide) (by decide) (by decide) (by decide)

/-! ## Blend functions: what they run and in which order -/

theorem blitAll_nil (draw : RGBA_Image → Int → Int → Int → Int → Int → Int → Int → Int →
    Bool × RGBA_Image) (out : RGBA_Image) : blitAll draw out [] = out := rfl

theorem blitAll_cons (draw : RGBA_Image → Int → Int → Int → Int → Int → Int → Int → Int →
    Bool × RGBA_Image) (out : RGBA_Image) (b : Blit) (l : List Blit) :
    blitAll draw out (b :: l) =
      blitAll draw
        (draw out b.src_x b.src_y b.src_w b.src_h b.dst_x b.dst_y b.dst_w b.dst_h).2 l := rfl

/-- Running the recording callback of a blend function over a list of calls:
the surface goes through the draws, the trace gains one event per call. -/
theorem runBlits_Run_blit (draw : RGBA_Image → Int → Int → Int → Int → Int → Int → Int → Int →
    Bool × RGBA_Image) (out : RGBA_Image) (tr : List Event) (l : List Blit) :
    runBlits (Run.blit draw) ⟨out, tr⟩ l =
      ⟨blitAll draw out l, tr ++ l.map Event.image_draw⟩ := by
  induction l generalizing out tr with
  | nil => simp [runBlits, blitAll]
  | cons b l ih =>
    rw [runBlits_cons, blitAll_cons]
    simp only [Run.blit]
    rw [ih]
    simp

/-- The tiling engine, for every fill mode, runs its callback over its list of
calls. -/
theorem mapped_blend_cpu_eq_run_calls {σ : Type} (image_draw : image_draw_func σ) (st : σ)
    (out_w out_h : Int) (fillmode : Evas_Filter_Fill_Mode) (sx sy sw sh dx dy dw dh : Int) :
    _mapped_blend_cpu image_draw st out_w out_h fillmode sx sy sw sh dx dy dw dh =
      (_mapped_blend_cpu.calls out_w out_h fillmode sx sy sw sh dx dy dw dh).map
        (runBlits image_draw st) := by
  by_cases hfill : fillmode = EVAS_FILTER_FILL_MODE_NONE
  · subst hfill
    rw [calls_fill_none]
    rfl
  · rw [mapped_blend_cpu_eq_runBlits _ _ _ _ _ _ _ _ _ _ _ _ _ hfill,
      calls_eq_rowMajor _ _ _ _ _ _ _ _ _ _ _ hfill]
    cases axisList fillmode.repeat_x fillmode.stretch_x out_w sw dx dw with
    | none => rfl
    | some xs =>
      cases axisList fillmode.repeat_y fillmode.stretch_y out_h sh dy dh with
      | none => rfl
      | some ys => rfl

/-- With non-zero tile extents the tiling engine does not trap: it has a list
of calls. -/
theorem calls_isSome (out_w out_h : Int) (fillmode : Evas_Filter_Fill_Mode)
    (sx sy sw sh dx dy dw dh : Int) (hsw : sw ≠ 0) (hsh : sh ≠ 0) :
    ∃ l, _mapped_blend_cpu.calls out_w out_h fillmode sx sy sw sh dx dy dw dh = some l := by
  by_cases hfill : fillmode = EVAS_FILTER_FILL_MODE_NONE
  · subst hfill
    exact ⟨_, calls_fill_none _ _ _ _ _ _ _ _ _ _⟩
  · rw [calls_eq_rowMajor _ _ _ _ _ _ _ _ _ _ _ hfill]
    obtain ⟨ax, hax⟩ := axisSetup_isSome fillmode.repeat_x fillmode.stretch_x out_w sw dx dw hsw
    obtain ⟨ay, hay⟩ := axisSetup_isSome fillmode.repeat_y fillmode.stretch_y out_h sh dy dh hsh
    exact ⟨rowMajor (axisIntervals fillmode.stretch_y sh ay)
      (axisIntervals fillmode.stretch_x sw ax), by simp [axisList, hax, hay]⟩

/-- The function `_filter_blend_cpu_generic_do` when no resized copy is needed
(valid images, positive extents, no Stretch flag or equal sizes): the kernel is
run over the calls of the tiling engine with the original input as source and
the draw context made of the command's operator and joined tint; the events
are those calls. -/
theorem generic_do_plain
    (scaled_get : Evas_Filter_Buffer → Int → Int → Option Evas_Filter_Buffer)
    (image_draw : kernel_func) (cmd : Evas_Filter_Command) (input output : Evas_Filter_Buffer)
    (in_ out : RGBA_Image)
    (hin : cmd.input = some input) (hout : cmd.output = some output)
    (hib : input.backing = some in_) (hob : output.backing = some out)
    (hid : in_.data ≠ none) (hod : out.data ≠ none)
    (hsw : 0 < in_.w) (hsh : 0 < in_.h) (hdw : 0 < out.w) (hdh : 0 < out.h)
    (hplain : ¬ ((in_.w ≠ out.w ∨ in_.h ≠ out.h) ∧
      (cmd.draw.fillmode.stretch_x = true ∨ cmd.draw.fillmode.stretch_y = true))) :
    _filter_blend_cpu_generic_do scaled_get image_draw cmd =
      (_mapped_blend_cpu.calls out.w out.h cmd.draw.fillmode 0 0 in_.w in_.h
        cmd.draw.ox cmd.draw.oy out.w out.h).map fun l =>
        ⟨true,
          some (blitAll (fun surface => image_draw
            ⟨cmd.draw.render_op, ARGB_JOIN cmd.draw.A cmd.draw.R cmd.draw.G cmd.draw.B⟩
            surface in_) out l),
          l.map Event.image_draw⟩ := by
  have hguard : ¬ (out.w ≤ 0 ∨ out.h ≤ 0 ∨ in_.w ≤ 0 ∨ in_.h ≤ 0) := by omega
  unfold _filter_blend_cpu_generic_do
  simp only [hin, hout, hib, hob]
  rw [if_neg hid, if_neg hod, if_neg hguard, if_neg hplain, mapped_blend_cpu_eq_run_calls,
    Option.map_map]
  congr 1
  funext l
  simp only [Function.comp, runBlits_Run_blit, List.nil_append]

/-- The function `_filter_blend_cpu_generic_do` when a resized copy is needed
and the scaler hands back a buffer with a backing image: lock, one request for
the size `(W, H)`, unlock, the `locked` flag cleared, and then the kernel run
over the calls of the tiling engine for source extents `(W, H)` with the
borrowed image as source. -/
theorem generic_do_scaled
    (scaled_get : Evas_Filter_Buffer → Int → Int → Option Evas_Filter_Buffer)
    (image_draw : kernel_func) (cmd : Evas_Filter_Command) (input output : Evas_Filter_Buffer)
    (in_ out : RGBA_Image) (fb : Evas_Filter_Buffer) (img : RGBA_Image)
    (hin : cmd.input = some input) (hout : cmd.output = some output)
    (hib : input.backing = some in_) (hob : output.backing = some out)
    (hid : in_.data ≠ none) (hod : out.data ≠ none)
    (hsw : 0 < in_.w) (hsh : 0 < in_.h) (hdw : 0 < out.w) (hdh : 0 < out.h)
    (hdiff : in_.w ≠ out.w ∨ in_.h ≠ out.h)
    (hstretch : cmd.draw.fillmode.stretch_x = true ∨ cmd.draw.fillmode.stretch_y = true)
    (hfb : scaled_get input (if cmd.draw.fillmode.stretch_x then out.w else in_.w)
      (if cmd.draw.fillmode.stretch_y then out.h else in_.h) = some fb)
    (himg : fb.backing = some img) :
    _filter_blend_cpu_generic_do scaled_get image_draw cmd =
      (_mapped_blend_cpu.calls out.w out.h cmd.draw.fillmode 0 0
        (if cmd.draw.fillmode.stretch_x then out.w else in_.w)
        (if cmd.draw.fillmode.stretch_y then out.h else in_.h)
        cmd.draw.ox cmd.draw.oy out.w out.h).map fun l =>
        ⟨true,
          some (blitAll (fun surface => image_draw
            ⟨cmd.draw.render_op, ARGB_JOIN cmd.draw.A cmd.draw.R cmd.draw.G cmd.draw.B⟩
            surface img) out l),
          [Event.buffers_lock,
            Event.scaled_get (if cmd.draw.fillmode.stretch_x then out.w else in_.w)
              (if cmd.draw.fillmode.stretch_y then out.h else in_.h),
            Event.buffers_unlock, Event.locked_clear] ++ l.map Event.image_draw⟩ := by
  have hguard : ¬ (out.w ≤ 0 ∨ out.h ≤ 0 ∨ in_.w ≤ 0 ∨ in_.h ≤ 0) := by omega
  unfold _filter_blend_cpu_generic_do
  simp only [hin, hout, hib, hob]
  rw [if_neg hid, if_neg hod, if_neg hguard, if_pos ⟨hdiff, hstretch⟩]
  simp only [hfb, himg]
  rw [mapped_blend_cpu_eq_run_calls, Option.map_map]
  congr 1
  funext l
  simp only [Function.comp, runBlits_Run_blit, List.cons_append, List.nil_append]

/-- Every call of the tiling engine has equal extents on both sides on an axis
without the Stretch flag, and on a Stretch axis whose source extent is the
destination extent. -/
theorem calls_extents (out_w out_h : Int)
    (fillmode : Evas_Filter_Fill_Mode) (sx sy sw sh dx dy dw dh : Int) (l : List Blit)
    (hl : _mapped_blend_cpu.calls out_w out_h fillmode sx sy sw sh dx dy dw dh = some l)
    (hx : fillmode.stretch_x = false ∨ (sw = out_w ∧ sw = dw))
    (hy : fillmode.stretch_y = false ∨ (sh = out_h ∧ sh = dh))
    (b : Blit) (hb : b ∈ l) : b.src_w = b.dst_w ∧ b.src_h = b.dst_h := by
  by_cases hfill : fillmode = EVAS_FILTER_FILL_MODE_NONE
  · subst hfill
    rw [calls_fill_none] at hl
    simp only [Option.some.injEq] at hl
    subst hl
    simp only [List.mem_singleton] at hb
    subst hb
    exact ⟨rfl, rfl⟩
  · rw [calls_eq_rowMajor _ _ _ _ _ _ _ _ _ _ _ hfill] at hl
    cases hxs : axisList fillmode.repeat_x fillmode.stretch_x out_w sw dx dw with
    | none => simp [hxs] at hl
    | some xs =>
      cases hys : axisList fillmode.repeat_y fillmode.stretch_y out_h sh dy dh with
      | none => simp [hxs, hys] at hl
      | some ys =>
        simp only [hxs, hys, Option.some_bind, Option.some.injEq] at hl
        subst hl
        obtain ⟨y, hy2, x, hx2, rfl⟩ := mem_rowMajor ys xs b hb
        exact ⟨axisList_len_eq _ _ _ _ _ _ xs hxs hx x hx2,
          axisList_len_eq _ _ _ _ _ _ ys hys hy y hy2⟩

/-- Every result of `_filter_blend_cpu_generic_do`, on whatever path, has a
trace made of a prefix followed by blit calls; the prefix is empty, or the
lock, one scaler request and the unlock (and then no blit follows), or these
three and the clearing of the `locked` flag; every blit call has equal extents
on both sides. -/
theorem generic_do_trace_shape
    (scaled_get : Evas_Filter_Buffer → Int → Int → Option Evas_Filter_Buffer)
    (image_draw : kernel_func) (cmd : Evas_Filter_Command) (o : Outcome)
    (h : _filter_blend_cpu_generic_do scaled_get image_draw cmd = some o) :
    ∃ (pre : List Event) (l : List Blit),
      o.trace = pre ++ l.map Event.image_draw ∧
      (pre = [] ∨
        (∃ w h, pre = [Event.buffers_lock, Event.scaled_get w h, Event.buffers_unlock] ∧
          l = []) ∨
        (∃ w h, pre = [Event.buffers_lock, Event.scaled_get w h, Event.buffers_unlock,
          Event.locked_clear])) ∧
      ∀ b ∈ l, b.src_w = b.dst_w ∧ b.src_h = b.dst_h := by
  have hempty : o.trace = [] →
      ∃ (pre : List Event) (l : List Blit),
        o.trace = pre ++ l.map Event.image_draw ∧
        (pre = [] ∨
          (∃ w h, pre = [Event.buffers_lock, Event.scaled_get w h, Event.buffers_unlock] ∧
            l = []) ∨
          (∃ w h, pre = [Event.buffers_lock, Event.scaled_get w h, Event.buffers_unlock,
            Event.locked_clear])) ∧
        ∀ b ∈ l, b.src_w = b.dst_w ∧ b.src_h = b.dst_h := by
    intro ht
    exact ⟨[], [], by simp [ht], Or.inl rfl, by simp⟩
  cases hci : cmd.input with
  | none => simp [_filter_blend_cpu_generic_do, hci] at h
  | some input =>
    cases hco : cmd.output with
    | none => simp [_filter_blend_cpu_generic_do, hci, hco] at h
    | some output =>
      by_cases hnull : input.backing = none ∨ output.backing = none ∨
          (∃ i, input.backing = some i ∧ i.data = none) ∨
          (∃ o2, output.backing = some o2 ∧ o2.data = none)
      · rw [generic_do_null scaled_get image_draw cmd input output hci hco hnull] at h
        simp only [Option.some.injEq] at h
        subst h
        exact hempty rfl
      · cases hib : input.backing with
        | none => exact absurd (Or.inl hib) hnull
        | some in_ =>
          cases hob : output.backing with
          | none => exact absurd (Or.inr (Or.inl hob)) hnull
          | some out =>
            have hid : in_.data ≠ none := fun hd =>
              hnull (Or.inr (Or.inr (Or.inl ⟨in_, hib, hd⟩)))
            have hod : out.data ≠ none := fun hd =>
              hnull (Or.inr (Or.inr (Or.inr ⟨out, hob, hd⟩)))
            by_cases hdeg : in_.w ≤ 0 ∨ in_.h ≤ 0 ∨ out.w ≤ 0 ∨ out.h ≤ 0
            · rw [generic_do_degenerate scaled_get image_draw cmd input output in_ out hci hco
                hib hob hid hod hdeg] at h
              simp only [Option.some.injEq] at h
              subst h
              exact hempty rfl
            · have hsw : 0 < in_.w := by omega
              have hsh : 0 < in_.h := by omega
              have hdw : 0 < out.w := by omega
              have hdh : 0 < out.h := by omega
              by_cases hsc : (in_.w ≠ out.w ∨ in_.h ≠ out.h) ∧
                  (cmd.draw.fillmode.stretch_x = true ∨ cmd.draw.fillmode.stretch_y = true)
              · cases hfb : scaled_get input
                    (if cmd.draw.fillmode.stretch_x then out.w else in_.w)
                    (if cmd.draw.fillmode.stretch_y then out.h else in_.h) with
                | none =>
                  have hguard : ¬ (out.w ≤ 0 ∨ out.h ≤ 0 ∨ in_.w ≤ 0 ∨ in_.h ≤ 0) := by omega
                  unfold _filter_blend_cpu_generic_do at h
                  simp only [hci, hco, hib, hob] at h
                  rw [if_neg hid, if_neg hod, if_neg hguard, if_pos hsc] at h
                  simp only [hfb, Option.some.injEq] at h
                  subst h
                  exact ⟨[Event.buffers_lock,
                    Event.scaled_get (if cmd.draw.fillmode.stretch_x then out.w else in_.w)
                      (if cmd.draw.fillmode.stretch_y then out.h else in_.h),
                    Event.buffers_unlock], [], by simp, Or.inr (Or.inl ⟨_, _, rfl, rfl⟩), by simp⟩
                | some fb =>
                  cases himg : fb.backing with
                  | none =>
                    have hguard : ¬ (out.w ≤ 0 ∨ out.h ≤ 0 ∨ in_.w ≤ 0 ∨ in_.h ≤ 0) := by omega
                    unfold _filter_blend_cpu_generic_do at h
                    simp only [hci, hco, hib, hob] at h
                    rw [if_neg hid, if_neg hod, if_neg hguard, if_pos hsc] at h
                    simp only [hfb, himg] at h
                    split at h
                    · simp only [Option.some.injEq] at h
                      subst h
                      exact ⟨[Event.buffers_lock,
                        Event.scaled_get (if cmd.draw.fillmode.stretch_x then out.w else in_.w)
                          (if cmd.draw.fillmode.stretch_y then out.h else in_.h),
                        Event.buffers_unlock, Event.locked_clear], [], by simp,
                        Or.inr (Or.inr ⟨_, _, rfl⟩), by simp⟩
                    · exact Option.noConfusion h
                  | some img =>
                    rw [generic_do_scaled scaled_get image_draw cmd input output in_ out fb img
                      hci hco hib hob hid hod hsw hsh hdw hdh hsc.1 hsc.2 hfb himg] at h
                    rcases Option.map_eq_some'.1 h with ⟨l, hl, ho⟩
                    subst ho
                    refine ⟨_, l, rfl, Or.inr (Or.inr ⟨_, _, rfl⟩), ?_⟩
                    intro b hb
                    refine calls_extents _ _ _ _ _ _ _ _ _ _ _ l hl ?_ ?_ b hb
                    · cases cmd.draw.fillmode.stretch_x
                      · exact Or.inl rfl
                      · exact Or.inr ⟨rfl, rfl⟩
                    · cases cmd.draw.fillmode.stretch_y
                      · exact Or.inl rfl
                      · exact Or.inr ⟨rfl, rfl⟩
              · rw [generic_do_plain scaled_get image_draw cmd input output in_ out
                  hci hco hib hob hid hod hsw hsh hdw hdh hsc] at h
                rcases Option.map_eq_some'.1 h with ⟨l, hl, ho⟩
                subst ho
                refine ⟨[], l, by simp, Or.inl rfl, ?_⟩
                intro b hb
                refine calls_extents _ _ _ _ _ _ _ _ _ _ _ l hl ?_ ?_ b hb
                · cases hsx : cmd.draw.fillmode.stretch_x
                  · exact Or.inl rfl
                  · refine Or.inr ⟨?_, ?_⟩ <;>
                    · by_contra hne
                      exact hsc ⟨Or.inl hne, Or.inl hsx⟩
                · cases hsy : cmd.draw.fillmode.stretch_y
                  · exact Or.inl rfl
                  · refine Or.inr ⟨?_, ?_⟩ <;>
                    · by_contra hne
                      exact hsc ⟨Or.inr hne, Or.inr hsy⟩

/-- The function `_filter_blend_cpu_rgba` on valid images with positive
extents: the engine's draw is run over the calls of the tiling engine with the
context built for the command; the events are the context set-up, the calls,
and the freeing of the context. -/
theorem rgba_plain {κ : Type} (ENFN : Evas_Func κ) (cmd : Evas_Filter_Command)
    (input output : Evas_Filter_Buffer) (in_ out : RGBA_Image)
    (hin : cmd.input = some input) (hout : cmd.output = some output)
    (hib : input.backing = some in_) (hob : output.backing = some out)
    (hid : in_.data ≠ none) (hod : out.data ≠ none)
    (hsw : 0 < in_.w) (hsh : 0 < in_.h) (hdw : 0 < out.w) (hdh : 0 < out.h) :
    _filter_blend_cpu_rgba ENFN cmd =
      (_mapped_blend_cpu.calls out.w out.h cmd.draw.fillmode 0 0 in_.w in_.h
        cmd.draw.ox cmd.draw.oy out.w out.h).map fun l =>
        ⟨true,
          some (blitAll (fun surface => ENFN.image_draw
            (_filter_blend_cpu_rgba.drawctx ENFN cmd out.w out.h) surface in_) out l),
          _filter_blend_cpu_rgba.setup cmd out.w out.h ++ l.map Event.image_draw ++
            [Event.context_free]⟩ := by
  have hguard : ¬ (out.w ≤ 0 ∨ out.h ≤ 0 ∨ in_.w ≤ 0 ∨ in_.h ≤ 0) := by omega
  unfold _filter_blend_cpu_rgba
  simp only [hin, hout, hib, hob]
  rw [if_neg hid, if_neg hod, if_neg hguard, mapped_blend_cpu_eq_run_calls, Option.map_map]
  congr 1
  funext l
  simp only [Function.comp, runBlits_Run_blit]

/-- Every result of `_filter_blend_cpu_rgba` has an empty trace, or the
context set-up followed by blit calls and the freeing of the context. -/
theorem rgba_trace_shape {κ : Type} (ENFN : Evas_Func κ) (cmd : Evas_Filter_Command)
    (o : Outcome) (h : _filter_blend_cpu_rgba ENFN cmd = some o) :
    o.trace = [] ∨
      ∃ (w h : Int) (l : List Blit),
        o.trace = _filter_blend_cpu_rgba.setup cmd w h ++ l.map Event.image_draw ++
          [Event.context_free] := by
  cases hci : cmd.input with
  | none => simp [_filter_blend_cpu_rgba, hci] at h
  | some input =>
    cases hco : cmd.output with
    | none => simp [_filter_blend_cpu_rgba, hci, hco] at h
    | some output =>
      by_cases hnull : input.backing = none ∨ output.backing = none ∨
          (∃ i, input.backing = some i ∧ i.data = none) ∨
          (∃ o2, output.backing = some o2 ∧ o2.data = none)
      · rw [rgba_null ENFN cmd input output hci hco hnull] at h
        simp only [Option.some.injEq] at h
        subst h
        exact Or.inl rfl
      · cases hib : input.backing with
        | none => exact absurd (Or.inl hib) hnull
        | some in_ =>
          cases hob : output.backing with
          | none => exact absurd (Or.inr (Or.inl hob)) hnull
          | some out =>
            have hid : in_.data ≠ none := fun hd =>
              hnull (Or.inr (Or.inr (Or.inl ⟨in_, hib, hd⟩)))
            have hod : out.data ≠ none := fun hd =>
              hnull (Or.inr (Or.inr (Or.inr ⟨out, hob, hd⟩)))
            by_cases hdeg : out.w ≤ 0 ∨ out.h ≤ 0 ∨ in_.w ≤ 0 ∨ in_.h ≤ 0
            · unfold _filter_blend_cpu_rgba at h
              simp only [hci, hco, hib, hob] at h
              rw [if_neg hid, if_neg hod, if_pos hdeg] at h
              simp only [Option.some.injEq] at h
              subst h
              exact Or.inl rfl
            · rw [rgba_plain ENFN cmd input output in_ out hci hco hib hob hid hod
                (by omega) (by omega) (by omega) (by omega)] at h
              rcases Option.map_eq_some'.1 h with ⟨l, _, ho⟩
              subst ho
              exact Or.inr ⟨_, _, l, rfl⟩

/-! ## Blend functions: the buffer lock -/

theorem lockRun_append (st : LockState) (a b : List Event) :
    lockRun st (a ++ b) = (lockRun st a).bind fun st2 => lockRun st2 b := by
  induction a generalizing st with
  | nil => rfl
  | cons e a ih =>
    simp only [List.cons_append, lockRun]
    cases lockStep st e with
    | none => rfl
    | some st2 => exact ih st2

theorem lockRun_draws (l : List Blit) :
    lockRun LockState.free (l.map Event.image_draw) = some LockState.free := by
  induction l with
  | nil => rfl
  | cons b l ih =>
    simp only [List.map_cons, lockRun, lockStep]
    exact ih

/-- C22: whatever path `_filter_blend_cpu_generic_do` takes to a result, its
trace keeps the lock discipline: the lock is taken only with the lock free,
the one thing done while holding it is one scaler lookup, the unlock follows
at once, every blit call and every other event happens with the lock free,
and the run ends with the lock free.  A result of `_filter_blend_cpu_rgba`
has neither a lock nor a scaler event in its trace. -/
theorem generic_do_lock_discipline {κ : Type}
    (scaled_get : Evas_Filter_Buffer → Int → Int → Option Evas_Filter_Buffer)
    (image_draw : kernel_func) (ENFN : Evas_Func κ) (cmd cmd2 : Evas_Filter_Command)
    (o o2 : Outcome)
    (h : _filter_blend_cpu_generic_do scaled_get image_draw cmd = some o)
    (h2 : _filter_blend_cpu_rgba ENFN cmd2 = some o2) :
    lockDiscipline o.trace = true ∧
      Event.buffers_lock ∉ o2.trace ∧ Event.buffers_unlock ∉ o2.trace ∧
      ∀ w h, Event.scaled_get w h ∉ o2.trace := by
  refine ⟨?_, ?_⟩
  · obtain ⟨pre, l, ht, hpre, _⟩ := generic_do_trace_shape scaled_get image_draw cmd o h
    rw [ht]
    unfold lockDiscipline
    rw [lockRun_append]
    rcases hpre with hp | ⟨w, h3, hp, _⟩ | ⟨w, h3, hp⟩
    · subst hp
      simp only [lockRun, Option.some_bind, lockRun_draws]
      rfl
    · subst hp
      simp only [lockRun, lockStep, Option.some_bind, lockRun_draws]
      rfl
    · subst hp
      simp only [lockRun, lockStep, Option.some_bind, lockRun_draws]
      rfl
  · rcases rgba_trace_shape ENFN cmd2 o2 h2 with ht | ⟨w, h3, l, ht⟩
    · rw [ht]
      simp
    · rw [ht]
      unfold _filter_blend_cpu_rgba.setup
      refine ⟨?_, ?_, ?_⟩
      · cases cmd2.draw.clip_use <;> simp
      · cases cmd2.draw.clip_use <;> simp
      · intro w2 h4
        cases cmd2.draw.clip_use <;> simp

/-- Witness of C22: a 1x2 alpha input stretched onto a 2x2 output through a
borrowed 2x2 copy, and the same command given to the RGBA blend function. -/
theorem generic_do_lock_discipline_witness :
    lockDiscipline [Event.buffers_lock, Event.scaled_get 2 2, Event.buffers_unlock,
        Event.locked_clear, Event.image_draw ⟨0, 0, 2, 2, 0, 0, 2, 2⟩] = true ∧
      Event.buffers_lock ∉ [Event.context_new, Event.context_color_set 0 0 0 0,
        Event.context_render_op_set 0, Event.context_clip_set 0 0 2 2,
        Event.image_draw ⟨0, 0, 1, 2, 0, 0, 2, 2⟩, Event.context_free] :=
  ⟨(generic_do_lock_discipline (κ := Unit)
      (fun _ w h => some ⟨true, true, some ⟨w, h, some [1, 1, 2, 2]⟩⟩)
      (fun _ surface _ _ _ _ _ _ _ _ _ => (true, surface))
      ⟨(), fun _ _ _ _ _ => (), fun _ _ => (), fun _ _ _ _ _ => (), fun _ _ _ _ _ => (),
        fun _ s _ _ _ _ _ _ _ _ _ => (true, s)⟩
      ⟨some ⟨true, false, some ⟨1, 2, some [1, 2]⟩⟩,
        some ⟨true, false, some ⟨2, 2, some [10, 20, 30, 40]⟩⟩,
        ⟨0, 0, EVAS_FILTER_FILL_MODE_STRETCH_XY, 0, 0, 0, 0, 0, false, ⟨0, 0, 0, 0⟩⟩⟩
      ⟨some ⟨true, false, some ⟨1, 2, some [1, 2]⟩⟩,
        some ⟨true, false, some ⟨2, 2, some [10, 20, 30, 40]⟩⟩,
        ⟨0, 0, EVAS_FILTER_FILL_MODE_STRETCH_XY, 0, 0, 0, 0, 0, false, ⟨0, 0, 0, 0⟩⟩⟩
      ⟨true, some ⟨2, 2, some [10, 20, 30, 40]⟩,
        [Event.buffers_lock, Event.scaled_get 2 2, Event.buffers_unlock,
          Event.locked_clear, Event.image_draw ⟨0, 0, 2, 2, 0, 0, 2, 2⟩]⟩
      ⟨true, some ⟨2, 2, some [10, 20, 30, 40]⟩,
        [Event.context_new, Event.context_color_set 0 0 0 0,
          Event.context_render_op_set 0, Event.context_clip_set 0 0 2 2,
          Event.image_draw ⟨0, 0, 1, 2, 0, 0, 2, 2⟩, Event.context_free]⟩
      (by decide) (by decide)).1,
    (generic_do_lock_discipline (κ := Unit)
      (fun _ w h => some ⟨true, true, some ⟨w, h, some [1, 1, 2, 2]⟩⟩)
      (fun _ surface _ _ _ _ _ _ _ _ _ => (true, surface))
      ⟨(), fun _ _ _ _ _ => (), fun _ _ => (), fun _ _ _ _ _ => (), fun _ _ _ _ _ => (),
        fun _ s _ _ _ _ _ _ _ _ _ => (true, s)⟩
      ⟨some ⟨true, false, some ⟨1, 2, some [1, 2]⟩⟩,
        some ⟨true, false, some ⟨2, 2, some [10, 20, 30, 40]⟩⟩,
        ⟨0, 0, EVAS_FILTER_FILL_MODE_STRETCH_XY, 0, 0, 0, 0, 0, false, ⟨0, 0, 0, 0⟩⟩⟩
      ⟨some ⟨true, false, some ⟨1, 2, some [1, 2]⟩⟩,
        some ⟨true, false, some ⟨2, 2, some [10, 20, 30, 40]⟩⟩,
        ⟨0, 0, EVAS_FILTER_FILL_MODE_STRETCH_XY, 0, 0, 0, 0, 0, false, ⟨0, 0, 0, 0⟩⟩⟩
      ⟨true, some ⟨2, 2, some [10, 20, 30, 40]⟩,
        [Event.buffers_lock, Event.scaled_get 2 2, Event.buffers_unlock,
          Event.locked_clear, Event.image_draw ⟨0, 0, 2, 2, 0, 0, 2, 2⟩]⟩
      ⟨true, some ⟨2, 2, some [10, 20, 30, 40]⟩,
        [Event.context_new, Event.context_color_set 0 0 0 0,
          Event.context_render_op_set 0, Event.context_clip_set 0 0 2 2,
          Event.image_draw ⟨0, 0, 1, 2, 0, 0, 2, 2⟩, Event.context_free]⟩
      (by decide) (by decide)).2.1⟩

/-! ## Blend functions: the borrowed copy -/

/-- C23 at an alpha-to-alpha command that stretches a 1x2 input onto a 2x2
output with an additive operator and a scaler handing back a locked 2x2 copy:
the `locked` flag of the borrowed buffer is cleared as the fourth event, and
the one blit call that reads the borrowed image is the fifth, after it. -/
theorem locked_flag_cleared_before_blit :
    _filter_blend_cpu_alpha (fun _ => some (Alpha_Gfx_Func.ofCombine fun s d => s + d))
        (fun _ w h => some ⟨true, true, some ⟨w, h, some [1, 1, 2, 2]⟩⟩)
        ⟨some ⟨true, false, some ⟨1, 2, some [1, 2]⟩⟩,
          some ⟨true, false, some ⟨2, 2, some [10, 20, 30, 40]⟩⟩,
          ⟨0, 0, EVAS_FILTER_FILL_MODE_STRETCH_XY, 0, 0, 0, 0, 0, false, ⟨0, 0, 0, 0⟩⟩⟩ =
      some ⟨true, some ⟨2, 2, some [11, 21, 32, 42]⟩,
        [Event.buffers_lock, Event.scaled_get 2 2, Event.buffers_unlock,
          Event.locked_clear, Event.image_draw ⟨0, 0, 2, 2, 0, 0, 2, 2⟩]⟩ ∧
      List.indexOf Event.locked_clear
          [Event.buffers_lock, Event.scaled_get 2 2, Event.buffers_unlock,
            Event.locked_clear, Event.image_draw ⟨0, 0, 2, 2, 0, 0, 2, 2⟩] <
        List.indexOf (Event.image_draw ⟨0, 0, 2, 2, 0, 0, 2, 2⟩)
          [Event.buffers_lock, Event.scaled_get 2 2, Event.buffers_unlock,
            Event.locked_clear, Event.image_draw ⟨0, 0, 2, 2, 0, 0, 2, 2⟩] := by
  decide

/-- C24: for a command on valid images with positive extents and any kernel.
When a Stretch flag is set and the sizes differ, and the scaler hands back a
buffer with a backing image for the size `(W, H)` (`W = out.w` with
`STRETCH_X`, else `in.w`; `H = out.h` with `STRETCH_Y`, else `in.h`), the
events are the lock, that one request, the unlock, the clearing of the flag
and then the blit calls of the tiling engine for source extents `(W, H)`, and
the output is the kernel run over those calls with the borrowed image as
source.  When no Stretch flag is set or the sizes are equal, the events are
only the blit calls for source extents `(in.w, in.h)` and the kernel reads the
original input.  The three blend functions are this function with their
kernel. -/
theorem generic_do_scaler_use
    (alpha_func_get : Int → Option Alpha_Gfx_Func)
    (mask_color_span_get : Nat → RGBA_Image → Int → Int → Option RGBA_Gfx_Func)
    (div_using_bitshift : Bool)
    (scaled_get : Evas_Filter_Buffer → Int → Int → Option Evas_Filter_Buffer)
    (image_draw : kernel_func) (cmd : Evas_Filter_Command) (input output : Evas_Filter_Buffer)
    (in_ out : RGBA_Image)
    (hin : cmd.input = some input) (hout : cmd.output = some output)
    (hib : input.backing = some in_) (hob : output.backing = some out)
    (hid : in_.data ≠ none) (hod : out.data ≠ none)
    (hsw : 0 < in_.w) (hsh : 0 < in_.h) (hdw : 0 < out.w) (hdh : 0 < out.h) :
    (∀ (fb : Evas_Filter_Buffer) (img : RGBA_Image),
        (in_.w ≠ out.w ∨ in_.h ≠ out.h) →
        (cmd.draw.fillmode.stretch_x = true ∨ cmd.draw.fillmode.stretch_y = true) →
        scaled_get input (if cmd.draw.fillmode.stretch_x then out.w else in_.w)
          (if cmd.draw.fillmode.stretch_y then out.h else in_.h) = some fb →
        fb.backing = some img →
        ∃ l : List Blit,
          _mapped_blend_cpu.calls out.w out.h cmd.draw.fillmode 0 0
            (if cmd.draw.fillmode.stretch_x then out.w else in_.w)
            (if cmd.draw.fillmode.stretch_y then out.h else in_.h)
            cmd.draw.ox cmd.draw.oy out.w out.h = some l ∧
          _filter_blend_cpu_generic_do scaled_get image_draw cmd =
            some ⟨true,
              some (blitAll (fun surface => image_draw
                ⟨cmd.draw.render_op, ARGB_JOIN cmd.draw.A cmd.draw.R cmd.draw.G cmd.draw.B⟩
                surface img) out l),
              [Event.buffers_lock,
                Event.scaled_get (if cmd.draw.fillmode.stretch_x then out.w else in_.w)
                  (if cmd.draw.fillmode.stretch_y then out.h else in_.h),
                Event.buffers_unlock, Event.locked_clear] ++ l.map Event.image_draw⟩) ∧
      (¬ ((in_.w ≠ out.w ∨ in_.h ≠ out.h) ∧
          (cmd.draw.fillmode.stretch_x = true ∨ cmd.draw.fillmode.stretch_y = true)) →
        ∃ l : List Blit,
          _mapped_blend_cpu.calls out.w out.h cmd.draw.fillmode 0 0 in_.w in_.h
            cmd.draw.ox cmd.draw.oy out.w out.h = some l ∧
          _filter_blend_cpu_generic_do scaled_get image_draw cmd =
            some ⟨true,
              some (blitAll (fun surface => image_draw
                ⟨cmd.draw.render_op, ARGB_JOIN cmd.draw.A cmd.draw.R cmd.draw.G cmd.draw.B⟩
                surface in_) out l),
              l.map Event.image_draw⟩) ∧
      _filter_blend_cpu_alpha alpha_func_get scaled_get cmd =
        _filter_blend_cpu_generic_do scaled_get
          (_image_draw_cpu_alpha2alpha alpha_func_get) cmd ∧
      _filter_blend_cpu_mask_rgba mask_color_span_get scaled_get cmd =
        _filter_blend_cpu_generic_do scaled_get
          (_image_draw_cpu_alpha2rgba mask_color_span_get) cmd ∧
      _filter_blend_cpu_rgba2alpha div_using_bitshift scaled_get cmd =
        _filter_blend_cpu_generic_do scaled_get
          (fun _ => _image_draw_cpu_rgba2alpha div_using_bitshift) cmd := by
  refine ⟨?_, ?_, rfl, rfl, rfl⟩
  · intro fb img hdiff hstretch hfb himg
    have hW : (if cmd.draw.fillmode.stretch_x then out.w else in_.w) ≠ 0 := by
      split_ifs <;> omega
    have hH : (if cmd.draw.fillmode.stretch_y then out.h else in_.h) ≠ 0 := by
      split_ifs <;> omega
    obtain ⟨l, hl⟩ := calls_isSome out.w out.h cmd.draw.fillmode 0 0 _ _
      cmd.draw.ox cmd.draw.oy out.w out.h hW hH
    refine ⟨l, hl, ?_⟩
    rw [generic_do_scaled scaled_get image_draw cmd input output in_ out fb img
      hin hout hib hob hid hod hsw hsh hdw hdh hdiff hstretch hfb himg, hl]
    rfl
  · intro hplain
    obtain ⟨l, hl⟩ := calls_isSome out.w out.h cmd.draw.fillmode 0 0 in_.w in_.h
      cmd.draw.ox cmd.draw.oy out.w out.h (by omega) (by omega)
    refine ⟨l, hl, ?_⟩
    rw [generic_do_plain scaled_get image_draw cmd input output in_ out
      hin hout hib hob hid hod hsw hsh hdw hdh hplain, hl]
    rfl

/-- Witness of C24: a 1x2 alpha input stretched onto a 2x2 output; the scaler
is asked once for a 2x2 copy and the one blit call reads that copy. -/
theorem generic_do_scaler_use_witness :
    ∃ l : List Blit,
      _mapped_blend_cpu.calls 2 2 EVAS_FILTER_FILL_MODE_STRETCH_XY 0 0 2 2 0 0 2 2 = some l ∧
      _filter_blend_cpu_generic_do
          (fun _ w h => some ⟨true, true, some ⟨w, h, some [1, 1, 2, 2]⟩⟩)
          (_image_draw_cpu_alpha2alpha
            fun _ => some (Alpha_Gfx_Func.ofCombine fun s d => s + d))
          ⟨some ⟨true, false, some ⟨1, 2, some [1, 2]⟩⟩,
            some ⟨true, false, some ⟨2, 2, some [10, 20, 30, 40]⟩⟩,
            ⟨0, 0, EVAS_FILTER_FILL_MODE_STRETCH_XY, 0, 0, 0, 0, 0, false, ⟨0, 0, 0, 0⟩⟩⟩ =
        some ⟨true,
          some (blitAll (fun surface => _image_draw_cpu_alpha2alpha
            (fun _ => some (Alpha_Gfx_Func.ofCombine fun s d => s + d))
            ⟨0, ARGB_JOIN 0 0 0 0⟩ surface ⟨2, 2, some [1, 1, 2, 2]⟩)
            ⟨2, 2, some [10, 20, 30, 40]⟩ l),
          [Event.buffers_lock, Event.scaled_get 2 2, Event.buffers_unlock,
            Event.locked_clear] ++ l.map Event.image_draw⟩ :=
  (generic_do_scaler_use (fun _ => none) (fun _ _ _ _ => none) true
    (fun _ w h => some ⟨true, true, some ⟨w, h, some [1, 1, 2, 2]⟩⟩)
    (_image_draw_cpu_alpha2alpha fun _ => some (Alpha_Gfx_Func.ofCombine fun s d => s + d))
    ⟨some ⟨true, false, some ⟨1, 2, some [1, 2]⟩⟩,
      some ⟨true, false, some ⟨2, 2, some [10, 20, 30, 40]⟩⟩,
      ⟨0, 0, EVAS_FILTER_FILL_MODE_STRETCH_XY, 0, 0, 0, 0, 0, false, ⟨0, 0, 0, 0⟩⟩⟩
    ⟨true, false, some ⟨1, 2, some [1, 2]⟩⟩ ⟨true, false, some ⟨2, 2, some [10, 20, 30, 40]⟩⟩
    ⟨1, 2, some [1, 2]⟩ ⟨2, 2, some [10, 20, 30, 40]⟩ rfl rfl rfl rfl (by decide) (by decide)
    (by decide) (by decide) (by decide) (by decide)).1
    ⟨true, true, some ⟨2, 2, some [1, 1, 2, 2]⟩⟩ ⟨2, 2, some [1, 1, 2, 2]⟩
    (Or.inl (by decide)) (Or.inl rfl) rfl rfl

/-- C25: in every result of `_filter_blend_cpu_generic_do`, for any scaler,
kernel and command (any fill mode), each blit call recorded in the trace, that
is each kernel invocation, has `src_w = dst_w` and `src_h = dst_h`. -/
theorem generic_do_calls_equal_extents
    (scaled_get : Evas_Filter_Buffer → Int → Int → Option Evas_Filter_Buffer)
    (image_draw : kernel_func) (cmd : Evas_Filter_Command) (o : Outcome)
    (h : _filter_blend_cpu_generic_do scaled_get image_draw cmd = some o)
    (b : Blit) (hb : Event.image_draw b ∈ o.trace) :
    b.src_w = b.dst_w ∧ b.src_h = b.dst_h := by
  obtain ⟨pre, l, ht, hpre, hext⟩ := generic_do_trace_shape scaled_get image_draw cmd o h
  rw [ht] at hb
  rcases List.mem_append.1 hb with hb | hb
  · exfalso
    rcases hpre with hp | ⟨w, h3, hp, _⟩ | ⟨w, h3, hp⟩ <;> subst hp <;> simp at hb
  · rcases List.mem_map.1 hb with ⟨b2, hb2, hbe⟩
    have : b2 = b := by
      injection hbe
    subst this
    exact hext b2 hb2

/-- Witness of C25: a 1x2 alpha input stretched onto a 2x2 output through a
borrowed 2x2 copy; the one kernel call is 2x2 on both sides. -/
theorem generic_do_calls_equal_extents_witness :
    _filter_blend_cpu_generic_do
        (fun _ w h => some ⟨true, true, some ⟨w, h, some [1, 1, 2, 2]⟩⟩)
        (fun _ surface _ _ _ _ _ _ _ _ _ => (true, surface))
        ⟨some ⟨true, false, some ⟨1, 2, some [1, 2]⟩⟩,
          some ⟨true, false, some ⟨2, 2, some [10, 20, 30, 40]⟩⟩,
          ⟨0, 0, EVAS_FILTER_FILL_MODE_STRETCH_XY, 0, 0, 0, 0, 0, false, ⟨0, 0, 0, 0⟩⟩⟩ =
      some ⟨true, some ⟨2, 2, some [10, 20, 30, 40]⟩,
        [Event.buffers_lock, Event.scaled_get 2 2, Event.buffers_unlock,
          Event.locked_clear, Event.image_draw ⟨0, 0, 2, 2, 0, 0, 2, 2⟩]⟩ ∧
      Blit.src_w ⟨0, 0, 2, 2, 0, 0, 2, 2⟩ = Blit.dst_w ⟨0, 0, 2, 2, 0, 0, 2, 2⟩ ∧
      Blit.src_h ⟨0, 0, 2, 2, 0, 0, 2, 2⟩ = Blit.dst_h ⟨0, 0, 2, 2, 0, 0, 2, 2⟩ :=
  ⟨by decide, generic_do_calls_equal_extents
    (fun _ w h => some ⟨true, true, some ⟨w, h, some [1, 1, 2, 2]⟩⟩)
    (fun _ surface _ _ _ _ _ _ _ _ _ => (true, surface))
    ⟨some ⟨true, false, some ⟨1, 2, some [1, 2]⟩⟩,
      some ⟨true, false, some ⟨2, 2, some [10, 20, 30, 40]⟩⟩,
      ⟨0, 0, EVAS_FILTER_FILL_MODE_STRETCH_XY, 0, 0, 0, 0, 0, false, ⟨0, 0, 0, 0⟩⟩⟩
    ⟨true, some ⟨2, 2, some [10, 20, 30, 40]⟩,
      [Event.buffers_lock, Event.scaled_get 2 2, Event.buffers_unlock,
        Event.locked_clear, Event.image_draw ⟨0, 0, 2, 2, 0, 0, 2, 2⟩]⟩
    (by decide) ⟨0, 0, 2, 2, 0, 0, 2, 2⟩ (by decide)⟩

/-! ## The bit-shift divider -/

/-- C29: the bit-shift divider for the divisor 3 has `pow2 = 12` and
`numerator = 1365`, so `DIVIDE(v) = (v * 1365) >> 12`; for every channel sum
`v` in 0..765 it is `v / 3` when `v` is 0 or not a multiple of 3 and
`v / 3 - 1` when `v` is a positive multiple of 3; it never exceeds `v / 3`,
differs from it by at most 1, and lies in 0..255. -/
theorem bitshift_divider_three (v : Int) (h0 : 0 ≤ v) (h1 : v ≤ 765) :
    _smallest_pow2_larger_than (3 * 1024) = 12 ∧
      DEFINE_DIVIDER true 3 = ⟨12, 1365, 3⟩ ∧
      DIVIDE true (DEFINE_DIVIDER true 3) v = v * 1365 / 4096 ∧
      (v = 0 ∨ v % 3 ≠ 0 → DIVIDE true (DEFINE_DIVIDER true 3) v = v / 3) ∧
      (0 < v ∧ v % 3 = 0 → DIVIDE true (DEFINE_DIVIDER true 3) v = v / 3 - 1) ∧
      DIVIDE true (DEFINE_DIVIDER true 3) v ≤ v / 3 ∧
      v / 3 - DIVIDE true (DEFINE_DIVIDER true 3) v ≤ 1 ∧
      0 ≤ DIVIDE true (DEFINE_DIVIDER true 3) v ∧
      DIVIDE true (DEFINE_DIVIDER true 3) v ≤ 255 := by
  have hdiv : DIVIDE true (DEFINE_DIVIDER true 3) v = v * 1365 / 4096 := by
    simp only [DIVIDE, DEFINE_DIVIDER_bitshift_three, if_true]
    rw [Int.shiftRight_eq_div_pow]
    have e : (((2 : Nat) ^ (12 : Int).toNat : Nat) : Int) = 4096 := by decide
    rw [e]
  refine ⟨by decide, DEFINE_DIVIDER_bitshift_three, hdiv, ?_, ?_, ?_, ?_, ?_, ?_⟩
  · intro h
    rw [hdiv]
    omega
  · intro h
    rw [hdiv]
    omega
  · rw [hdiv]
    omega
  · rw [hdiv]
    omega
  · rw [hdiv]
    omega
  · rw [hdiv]
    omega

/-- Witness of C29: the channel sum 270 of the pixel (60, 90, 120) is a
positive multiple of 3, and the bit-shift divider gives 89, one below 90. -/
theorem bitshift_divider_three_witness :
    DIVIDE true (DEFINE_DIVIDER true 3) 270 = 270 / 3 - 1 :=
  (bitshift_divider_three 270 (by decide) (by decide)).2.2.2.2.1 ⟨by decide, by decide⟩

/-! ## Tiling engine: Repeat rectangles and the buffer bounds -/

/-- C30 at fill mode `REPEAT_X`, a 10x8 tile on a 25x8 output: with offset
`dx = -3` the fourth call has `dst_x = 27` and width 8, so it ends at column
35 past the output width 25; with offset `dx = 3` the fourth call has
`src_w = 12`, past the tile width 10, and ends at column 35 as well. -/
theorem repeat_x_lead_out_of_bounds :
    (∃ b : Blit,
        (_mapped_blend_cpu.calls 25 8 EVAS_FILTER_FILL_MODE_REPEAT_X 0 0 10 8 (-3) 0 25 8).map
          (fun l => l.getLast?) = some (some b) ∧
        b = ⟨0, 0, 8, 8, 27, 0, 8, 8⟩ ∧ ¬ (b.dst_x + b.dst_w ≤ 25)) ∧
      (∃ b : Blit,
        (_mapped_blend_cpu.calls 25 8 EVAS_FILTER_FILL_MODE_REPEAT_X 0 0 10 8 3 0 25 8).map
          (fun l => l.getLast?) = some (some b) ∧
        b = ⟨0, 0, 12, 8, 23, 0, 12, 8⟩ ∧ ¬ (b.src_x + b.src_w ≤ 10) ∧
        ¬ (b.dst_x + b.dst_w ≤ 25)) :=
  ⟨⟨⟨0, 0, 8, 8, 27, 0, 8, 8⟩, by decide, rfl, by decide⟩,
    ⟨⟨0, 0, 12, 8, 23, 0, 12, 8⟩, by decide, rfl, by decide, by decide⟩⟩

/-! ## Tiling engine: no degenerate rectangle is handed out -/

/-- A walk step either stops the walk or emits an interval of positive length
on both sides and goes on with the next index. -/
theorem axisWalk_step (stretch : Bool) (s : Int) (a : AxisSetup) (n : Nat) (i : Int) :
    axisWalk stretch s a (n + 1) i = [] ∨
      ∃ iv : Interval, 0 < iv.src_len ∧ 0 < iv.dst_len ∧
        axisWalk stretch s a (n + 1) i = iv :: axisWalk stretch s a n (i + 1) := by
  rw [axisWalk]
  split_ifs with h1 h2 h3 h4 h5 h6 h7
  all_goals first
    | exact Or.inl rfl
    | exact Or.inr ⟨_, by omega, by omega, rfl⟩

theorem axisWalk_pos (stretch : Bool) (s : Int) (a : AxisSetup) (n : Nat) (i : Int) :
    ∀ x ∈ axisWalk stretch s a n i, 0 < x.src_len ∧ 0 < x.dst_len := by
  induction n generalizing i with
  | zero =>
    intro x hx
    simp [axisWalk] at hx
  | succ n ih =>
    intro x hx
    rcases axisWalk_step stretch s a n i with h | ⟨iv, h1, h2, h⟩
    · rw [h] at hx
      exact absurd hx (List.not_mem_nil _)
    · rw [h] at hx
      rcases List.mem_cons.1 hx with hx | hx
      · subst hx
        exact ⟨h1, h2⟩
      · exact ih _ _ hx

theorem axisList_pos (rep stretch : Bool) (out s o d : Int) (l : List Interval)
    (hl : axisList rep stretch out s o d = some l) :
    ∀ x ∈ l, 0 < x.src_len ∧ 0 < x.dst_len := by
  unfold axisList at hl
  cases ha : axisSetup rep stretch out s o d with
  | none => simp [ha] at hl
  | some a =>
    simp only [ha, Option.map_some', Option.some.injEq] at hl
    subst hl
    exact axisWalk_pos stretch s a _ _

/-- C26: for every fill mode other than None, every call `_mapped_blend_cpu`
makes has positive width and height on the source and on the destination
side.  The calls are the row-major product of the two axis walks, and a walk
step either ends the walk for good (a degenerate row ends the iteration, a
degenerate column ends the row) or emits a positive interval and moves on. -/
theorem calls_never_degenerate (out_w out_h : Int) (fillmode : Evas_Filter_Fill_Mode)
    (sx sy sw sh dx dy dw dh : Int) (l : List Blit)
    (hfill : fillmode ≠ EVAS_FILTER_FILL_MODE_NONE)
    (hl : _mapped_blend_cpu.calls out_w out_h fillmode sx sy sw sh dx dy dw dh = some l) :
    (∀ b ∈ l, 0 < b.src_w ∧ 0 < b.src_h ∧ 0 < b.dst_w ∧ 0 < b.dst_h) ∧
      (∃ xs ys : List Interval,
        axisList fillmode.repeat_x fillmode.stretch_x out_w sw dx dw = some xs ∧
        axisList fillmode.repeat_y fillmode.stretch_y out_h sh dy dh = some ys ∧
        l = rowMajor ys xs) ∧
      (∀ (stretch : Bool) (s : Int) (a : AxisSetup) (n : Nat) (i : Int),
        axisWalk stretch s a (n + 1) i = [] ∨
          ∃ iv : Interval, 0 < iv.src_len ∧ 0 < iv.dst_len ∧
            axisWalk stretch s a (n + 1) i = iv :: axisWalk stretch s a n (i + 1)) := by
  rw [calls_eq_rowMajor _ _ _ _ _ _ _ _ _ _ _ hfill] at hl
  cases hxs : axisList fillmode.repeat_x fillmode.stretch_x out_w sw dx dw with
  | none => simp [hxs] at hl
  | some xs =>
    cases hys : axisList fillmode.repeat_y fillmode.stretch_y out_h sh dy dh with
    | none => simp [hxs, hys] at hl
    | some ys =>
      simp only [hxs, hys, Option.some_bind, Option.some.injEq] at hl
      subst hl
      refine ⟨?_, ⟨xs, ys, rfl, rfl, rfl⟩, axisWalk_step⟩
      intro b hb
      obtain ⟨y, hy, x, hx, rfl⟩ := mem_rowMajor ys xs b hb
      have hxp := axisList_pos _ _ _ _ _ _ xs hxs x hx
      have hyp := axisList_pos _ _ _ _ _ _ ys hys y hy
      exact ⟨hxp.1, hyp.1, hxp.2, hyp.2⟩

/-- Witness of C26: `REPEAT_X` alone, a 10x8 tile on a 25x8 output at offset
0: the three calls all have positive extents. -/
theorem calls_never_degenerate_witness :
    ∃ l : List Blit,
      _mapped_blend_cpu.calls 25 8 EVAS_FILTER_FILL_MODE_REPEAT_X 0 0 10 8 0 0 25 8 = some l ∧
      l.length = 3 ∧
      ∀ b ∈ l, 0 < b.src_w ∧ 0 < b.src_h ∧ 0 < b.dst_w ∧ 0 < b.dst_h :=
  ⟨[⟨0, 0, 10, 8, 0, 0, 10, 8⟩, ⟨0, 0, 10, 8, 10, 0, 10, 8⟩, ⟨0, 0, 5, 8, 20, 0, 5, 8⟩],
    by decide, rfl,
    (calls_never_degenerate 25 8 EVAS_FILTER_FILL_MODE_REPEAT_X 0 0 10 8 0 0 25 8
      [⟨0, 0, 10, 8, 0, 0, 10, 8⟩, ⟨0, 0, 10, 8, 10, 0, 10, 8⟩, ⟨0, 0, 5, 8, 20, 0, 5, 8⟩]
      (by decide) (by decide)).1⟩

/-! ## The alpha2rgba kernel: one span call per scanline -/

/-- The scanline loop of the alpha2rgba kernel is the span function applied
once per scanline, in order. -/
theorem alpha2rgba_rows_eq_foldl (func : RGBA_Gfx_Func) (src : List Nat) (color : Nat)
    (sw dw src_x dst_x src_w : Int) (n : Nat) (sd dd : Int) (dst : List Nat) :
    _image_draw_cpu_alpha2rgba.rows func src color sw dw src_x dst_x src_w n sd dd dst =
      (List.range n).foldl (fun acc (j : Nat) =>
        func src (sd + j * sw + src_x) color acc (dd + j * dw + dst_x) src_w) dst := by
  induction n generalizing sd dd dst with
  | zero => rfl
  | succ n ih =>
    rw [_image_draw_cpu_alpha2rgba.rows, ih, List.range_succ_eq_map, List.foldl_cons,
      List.foldl_map]
    simp only [Nat.cast_zero, Int.zero_mul, Int.add_zero]
    congr 1
    funext acc j
    have e1 : sd + sw + (j : Int) * sw + src_x = sd + ((j.succ : Nat) : Int) * sw + src_x := by
      push_cast
      ring
    have e2 : dd + dw + (j : Int) * dw + dst_x = dd + ((j.succ : Nat) : Int) * dw + dst_x := by
      push_cast
      ring
    rw [e1, e2]

/-- C27: the alpha2rgba kernel, called with equal extents (`0 ≤ h`) for an
operator that has a span function, returns success, and the destination
storage is the result of applying that span function `h` times, for
`j = 0, 1, ..., h - 1` in this order, the call `j` getting the mask storage at
offset `(src_y + j) * src.w + src_x`, the colour of the draw context, the
destination storage at offset `(dst_y + j) * dst.w + dst_x` and the length
`w`.  In `_filter_blend_cpu_mask_rgba` (valid images, positive extents, no
resized copy needed) every kernel call gets the draw context made of the
command's render operator and the tint `ARGB_JOIN (A, R, G, B)`. -/
theorem alpha2rgba_span_per_scanline
    (mask_color_span_get : Nat → RGBA_Image → Int → Int → Option RGBA_Gfx_Func)
    (dc : Alpha_Blend_Draw_Context) (func : RGBA_Gfx_Func) (dst src : RGBA_Image)
    (src_x src_y w h dst_x dst_y : Int)
    (hfunc : mask_color_span_get dc.color dst 1 dc.render_op = some func)
    (hh0 : 0 ≤ h) (hh : h < 2147483648) :
    _image_draw_cpu_alpha2rgba mask_color_span_get dc dst src
        src_x src_y w h dst_x dst_y w h =
      (true, dst.store fun d =>
        (List.range h.toNat).foldl (fun acc (j : Nat) =>
          func src.pixels ((src_y + j) * src.w + src_x) dc.color acc
            ((dst_y + j) * dst.w + dst_x) w) d) ∧
      ∀ (scaled_get : Evas_Filter_Buffer → Int → Int → Option Evas_Filter_Buffer)
        (cmd : Evas_Filter_Command) (input output : Evas_Filter_Buffer) (in_ out : RGBA_Image),
        cmd.input = some input → cmd.output = some output →
        input.backing = some in_ → output.backing = some out →
        in_.data ≠ none → out.data ≠ none →
        0 < in_.w → 0 < in_.h → 0 < out.w → 0 < out.h →
        ¬ ((in_.w ≠ out.w ∨ in_.h ≠ out.h) ∧
          (cmd.draw.fillmode.stretch_x = true ∨ cmd.draw.fillmode.stretch_y = true)) →
        _filter_blend_cpu_mask_rgba mask_color_span_get scaled_get cmd =
          (_mapped_blend_cpu.calls out.w out.h cmd.draw.fillmode 0 0 in_.w in_.h
            cmd.draw.ox cmd.draw.oy out.w out.h).map fun l =>
            ⟨true,
              some (blitAll (fun surface => _image_draw_cpu_alpha2rgba mask_color_span_get
                ⟨cmd.draw.render_op, ARGB_JOIN cmd.draw.A cmd.draw.R cmd.draw.G cmd.draw.B⟩
                surface in_) out l),
              l.map Event.image_draw⟩ := by
  have hhc : loopCount h = h.toNat := loopCount_of_nonneg h hh0 (by omega)
  have hsz : ¬ ¬ (w = w ∧ h = h) := by simp
  refine ⟨?_, ?_⟩
  · rw [_image_draw_cpu_alpha2rgba, if_neg hsz]
    simp only [hfunc, hhc]
    congr 2
    funext d
    rw [alpha2rgba_rows_eq_foldl]
    congr 1
    funext acc j
    have e1 : src_y * src.w + (j : Int) * src.w + src_x = (src_y + j) * src.w + src_x := by ring
    have e2 : dst_y * dst.w + (j : Int) * dst.w + dst_x = (dst_y + j) * dst.w + dst_x := by ring
    rw [e1, e2]
  · intro scaled_get cmd input output in_ out hin hout hib hob hid hod hsw hsh hdw hdh hplain
    exact generic_do_plain scaled_get _ cmd input output in_ out hin hout hib hob hid hod
      hsw hsh hdw hdh hplain

/-- Witness of C27: a 2x2 mask onto a 2x2 destination with a span function that
adds mask and colour to each destination word: two span calls, top row first. -/
theorem alpha2rgba_span_per_scanline_witness :
    _image_draw_cpu_alpha2rgba
        (fun _ _ _ _ => some fun (src : List Nat) (s : Int) (col : Nat) (dst : List Nat)
            (d len : Int) => combineSpan (fun m v => v + m + col) src len.toNat s d dst)
        ⟨0, 100⟩ ⟨2, 2, some [1, 2, 3, 4]⟩ ⟨2, 2, some [10, 20, 30, 40]⟩ 0 0 2 2 0 0 2 2 =
      (true, ⟨2, 2, some [111, 122, 133, 144]⟩) :=
  (alpha2rgba_span_per_scanline
    (fun _ _ _ _ => some fun (src : List Nat) (s : Int) (col : Nat) (dst : List Nat)
      (d len : Int) => combineSpan (fun m v => v + m + col) src len.toNat s d dst)
    ⟨0, 100⟩ (fun (src : List Nat) (s : Int) (col : Nat) (dst : List Nat)
      (d len : Int) => combineSpan (fun m v => v + m + col) src len.toNat s d dst)
    ⟨2, 2, some [1, 2, 3, 4]⟩ ⟨2, 2, some [10, 20, 30, 40]⟩ 0 0 2 2 0 0 rfl
    (by decide) (by decide)).1.trans (by decide)

/-! ## The rgba path: one draw context, built from the command -/

theorem count_draws_eq_zero (e : Event) (l : List Blit) (he : ∀ b, e ≠ Event.image_draw b) :
    (l.map Event.image_draw).count e = 0 := by
  rw [List.count_eq_zero]
  intro hmem
  rcases List.mem_map.1 hmem with ⟨b, _, hb⟩
  exact he b hb.symm

/-- C28: the function `_filter_blend_cpu_rgba` on valid images with positive
extents returns success; its events are one `context_new`, the colour set to
the command's `(R, G, B, A)`, the render operator set to the command's, the
clip set (to the command's clip rectangle and then clipped by
`(0, 0, out.w, out.h)` when `clip_use` is set, to `(0, 0, out.w, out.h)`
otherwise), then the blit calls of the tiling engine, then one `context_free`
as the last event; every blit call is the engine's `image_draw` with the
context so built, and the output image is changed by these calls only. -/
theorem rgba_single_draw_context {κ : Type} (ENFN : Evas_Func κ) (cmd : Evas_Filter_Command)
    (input output : Evas_Filter_Buffer) (in_ out : RGBA_Image)
    (hin : cmd.input = some input) (hout : cmd.output = some output)
    (hib : input.backing = some in_) (hob : output.backing = some out)
    (hid : in_.data ≠ none) (hod : out.data ≠ none)
    (hsw : 0 < in_.w) (hsh : 0 < in_.h) (hdw : 0 < out.w) (hdh : 0 < out.h) :
    ∃ (l : List Blit) (o : Outcome),
      _mapped_blend_cpu.calls out.w out.h cmd.draw.fillmode 0 0 in_.w in_.h
        cmd.draw.ox cmd.draw.oy out.w out.h = some l ∧
      _filter_blend_cpu_rgba ENFN cmd = some o ∧ o.ok = true ∧
      o.backing = some (blitAll (fun surface => ENFN.image_draw
        (if cmd.draw.clip_use then
          ENFN.context_clip_clip
            (ENFN.context_clip_set
              (ENFN.context_render_op_set
                (ENFN.context_color_set ENFN.context_new
                  cmd.draw.R cmd.draw.G cmd.draw.B cmd.draw.A)
                cmd.draw.render_op)
              cmd.draw.clip.x cmd.draw.clip.y cmd.draw.clip.w cmd.draw.clip.h)
            0 0 out.w out.h
        else
          ENFN.context_clip_set
            (ENFN.context_render_op_set
              (ENFN.context_color_set ENFN.context_new
                cmd.draw.R cmd.draw.G cmd.draw.B cmd.draw.A)
              cmd.draw.render_op)
            0 0 out.w out.h)
        surface in_) out l) ∧
      o.trace =
        [Event.context_new,
          Event.context_color_set cmd.draw.R cmd.draw.G cmd.draw.B cmd.draw.A,
          Event.context_render_op_set cmd.draw.render_op] ++
        (if cmd.draw.clip_use then
          [Event.context_clip_set cmd.draw.clip.x cmd.draw.clip.y cmd.draw.clip.w
              cmd.draw.clip.h,
            Event.context_clip_clip 0 0 out.w out.h]
        else [Event.context_clip_set 0 0 out.w out.h]) ++
        l.map Event.image_draw ++ [Event.context_free] ∧
      o.trace.count Event.context_new = 1 ∧ o.trace.count Event.context_free = 1 := by
  obtain ⟨l, hl⟩ := calls_isSome out.w out.h cmd.draw.fillmode 0 0 in_.w in_.h
    cmd.draw.ox cmd.draw.oy out.w out.h (by omega) (by omega)
  have hrun := rgba_plain ENFN cmd input output in_ out hin hout hib hob hid hod hsw hsh hdw hdh
  rw [hl] at hrun
  have hn := count_draws_eq_zero Event.context_new l (fun b hb => by cases hb)
  have hf := count_draws_eq_zero Event.context_free l (fun b hb => by cases hb)
  refine ⟨l, _, hl, hrun, rfl, rfl, rfl, ?_, ?_⟩
  · simp only [_filter_blend_cpu_rgba.setup, List.count_append, hn]
    cases cmd.draw.clip_use <;> simp [List.count_cons]
  · simp only [_filter_blend_cpu_rgba.setup, List.count_append, hf]
    cases cmd.draw.clip_use <;> simp [List.count_cons]

/-- Witness of C28: a 1x1 image onto a 1x1 output with clipping enabled and an
engine whose context is the list of settings it received. -/
theorem rgba_single_draw_context_witness :
    ∃ o : Outcome,
      _filter_blend_cpu_rgba
        (⟨[], fun c r g b a => c ++ [Event.context_color_set r g b a],
          fun c op => c ++ [Event.context_render_op_set op],
          fun c x y w h => c ++ [Event.context_clip_set x y w h],
          fun c x y w h => c ++ [Event.context_clip_clip x y w h],
          fun _ surface _ _ _ _ _ _ _ _ _ => (true, surface)⟩ : Evas_Func (List Event))
        ⟨some ⟨false, false, some ⟨1, 1, some [7]⟩⟩, some ⟨false, false, some ⟨1, 1, some [9]⟩⟩,
          ⟨0, 0, EVAS_FILTER_FILL_MODE_NONE, 2, 1, 2, 3, 4, true, ⟨0, 0, 5, 5⟩⟩⟩ = some o ∧
      o.trace.count Event.context_new = 1 ∧ o.trace.count Event.context_free = 1 :=
  let ⟨_, o, _, ho, _, _, _, hn, hf⟩ := rgba_single_draw_context
    (⟨[], fun c r g b a => c ++ [Event.context_color_set r g b a],
      fun c op => c ++ [Event.context_render_op_set op],
      fun c x y w h => c ++ [Event.context_clip_set x y w h],
      fun c x y w h => c ++ [Event.context_clip_clip x y w h],
      fun _ surface _ _ _ _ _ _ _ _ _ => (true, surface)⟩ : Evas_Func (List Event))
    ⟨some ⟨false, false, some ⟨1, 1, some [7]⟩⟩, some ⟨false, false, some ⟨1, 1, some [9]⟩⟩,
      ⟨0, 0, EVAS_FILTER_FILL_MODE_NONE, 2, 1, 2, 3, 4, true, ⟨0, 0, 5, 5⟩⟩⟩
    ⟨false, false, some ⟨1, 1, some [7]⟩⟩ ⟨false, false, some ⟨1, 1, some [9]⟩⟩
    ⟨1, 1, some [7]⟩ ⟨1, 1, some [9]⟩ rfl rfl rfl rfl (by decide) (by decide)
    (by decide) (by decide) (by decide) (by decide)
  ⟨o, ho, hn, hf⟩

/-! ## Storage positions and rectangles -/

/-- A storage position inside a row determines its row and column. -/
theorem row_col_unique (w r1 c1 r2 c2 : Int) (h : r1 * w + c1 = r2 * w + c2)
    (h1 : 0 ≤ c1) (h2 : c1 < w) (h3 : 0 ≤ c2) (h4 : c2 < w) : r1 = r2 ∧ c1 = c2 := by
  have hw : 0 ≤ w := by omega
  rcases lt_trichotomy r1 r2 with hlt | heq | hgt
  · have hm : (r1 + 1) * w ≤ r2 * w := Int.mul_le_mul_of_nonneg_right (by omega) hw
    have e : (r1 + 1) * w = r1 * w + w := by ring
    omega
  · subst heq
    exact ⟨rfl, by omega⟩
  · have hm : (r2 + 1) * w ≤ r1 * w := Int.mul_le_mul_of_nonneg_right (by omega) hw
    have e : (r2 + 1) * w = r2 * w + w := by ring
    omega

/-- Two calls of which one ends before the other begins, both inside the
image in X, cover no common storage position. -/
theorem before_disjoint (a b : Blit) (w : Int) (idx : Int) (hab : a.before b)
    (ha0 : 0 ≤ a.dst_x) (ha1 : a.dst_x + a.dst_w ≤ w)
    (hb0 : 0 ≤ b.dst_x) (hb1 : b.dst_x + b.dst_w ≤ w)
    (hca : a.covers w idx) (hcb : b.covers w idx) : False := by
  obtain ⟨i, j, hi, hj, e1⟩ := hca
  obtain ⟨i2, j2, hi2, hj2, e2⟩ := hcb
  have h := row_col_unique w (a.dst_y + j) (a.dst_x + i) (b.dst_y + j2) (b.dst_x + i2)
    (by omega) (by omega) (by omega) (by omega) (by omega)
  rcases hab with hab | hab
  · omega
  · omega

/-- Two storages of the same length that read the same at every position are
the same. -/
theorem peek_ext (a b : List Nat) (hlen : a.length = b.length)
    (h : ∀ idx : Int, peek a idx = peek b idx) : a = b := by
  apply List.ext_getElem hlen
  intro n h1 h2
  have hn := h (n : Int)
  unfold peek at hn
  have h0 : (0 : Int) ≤ (n : Int) := by omega
  rw [if_pos h0, if_pos h0, Int.toNat_ofNat, List.getD_eq_getElem a 0 h1,
    List.getD_eq_getElem b 0 h2] at hn
  exact hn

/-- The alpha2alpha kernel on a call that fits the destination image: it keeps
the extents and the storage length, each covered position becomes the combine
of its source byte with its old byte, every other position keeps its byte. -/
theorem alpha2alpha_draw_fits (table : Int → Option Alpha_Gfx_Func)
    (dc : Alpha_Blend_Draw_Context) (func : Alpha_Gfx_Func) (f : Nat → Nat → Nat)
    (src : RGBA_Image) (W H : Int) (d : List Nat) (b : Blit)
    (hfunc : table dc.render_op = some func) (happ : AppliesCombine f func)
    (hlen : (d.length : Int) = W * H) (hH : H < 2147483648) (hb : b.fits W H) :
    ∃ d2 : List Nat,
      (_image_draw_cpu_alpha2alpha table dc ⟨W, H, some d⟩ src
        b.src_x b.src_y b.src_w b.src_h b.dst_x b.dst_y b.dst_w b.dst_h).2 = ⟨W, H, some d2⟩ ∧
      d2.length = d.length ∧
      (∀ i j : Nat, (i : Int) < b.dst_w → (j : Int) < b.dst_h →
        peek d2 ((b.dst_y + j) * W + b.dst_x + i) =
          f (peek src.pixels ((b.src_y + j) * src.w + b.src_x + i))
            (peek d ((b.dst_y + j) * W + b.dst_x + i))) ∧
      (∀ idx : Int, ¬ b.covers W idx → peek d2 idx = peek d idx) := by
  obtain ⟨hsw, hsh, hw0, hh0, hx, hxw, hy, hyh⟩ := hb
  have hhc : loopCount b.dst_h = b.dst_h.toNat := loopCount_of_nonneg b.dst_h hh0 (by omega)
  have hsz : ¬ ¬ (b.dst_w = b.dst_w ∧ b.dst_h = b.dst_h) := by simp
  rw [hsw, hsh]
  refine ⟨_image_draw_cpu_alpha2alpha.rows func src.pixels src.w W
    b.src_x b.dst_x b.dst_w (loopCount b.dst_h) (b.src_y * src.w) (b.dst_y * W) d, ?_, ?_, ?_, ?_⟩
  · rw [_image_draw_cpu_alpha2alpha, if_neg hsz]
    simp only [hfunc, RGBA_Image.store, Option.map_some']
  · exact alpha2alpha_rows_length f func happ _ _ _ _ _ _ _ _ _ _
  · intro i j hi hj
    have hdw : 0 ≤ W := by omega
    have hrow0 : 0 ≤ (b.dst_y + j) * W := Int.mul_nonneg (by omega) hdw
    have hrow1 : (b.dst_y + j + 1) * W ≤ H * W :=
      Int.mul_le_mul_of_nonneg_right (by omega) hdw
    have hexp : (b.dst_y + j + 1) * W = (b.dst_y + j) * W + W := by ring
    have hcomm : W * H = H * W := Int.mul_comm _ _
    have hidx := rect_index b.dst_y j W b.dst_x i
    rw [rect_index b.dst_y j W b.dst_x i, rect_index b.src_y j src.w b.src_x i,
      alpha2alpha_rows_peek_inside f func happ]
    · exact hx
    · exact hxw
    · exact hi
    · omega
    · omega
    · omega
  · intro idx hout
    apply alpha2alpha_rows_peek_outside f func happ
    intro r hr hin
    have hrh : (r : Int) < b.dst_h := by omega
    have hk0 : 0 ≤ idx - (b.dst_y * W + r * W + b.dst_x) := by omega
    have hk : ((idx - (b.dst_y * W + r * W + b.dst_x)).toNat : Int) < b.dst_w := by omega
    refine hout ⟨(idx - (b.dst_y * W + r * W + b.dst_x)).toNat, r, hk, hrh, ?_⟩
    rw [rect_index, Int.toNat_of_nonneg hk0]
    omega

/-- The alpha2alpha kernel run over a list of calls that fit the destination
image and whose destination rectangles lie one before the other: the extents
and the storage length are kept, each position covered by a call becomes the
combine of that call's source byte with the byte before the run, and every
position no call covers keeps its byte. -/
theorem blitAll_alpha_fits (table : Int → Option Alpha_Gfx_Func)
    (dc : Alpha_Blend_Draw_Context) (func : Alpha_Gfx_Func) (f : Nat → Nat → Nat)
    (src : RGBA_Image) (W H : Int)
    (hfunc : table dc.render_op = some func) (happ : AppliesCombine f func)
    (hH : H < 2147483648) (l : List Blit) (d : List Nat)
    (hlen : (d.length : Int) = W * H)
    (hfit : ∀ b ∈ l, b.fits W H) (hpw : l.Pairwise Blit.before) :
    ∃ d2 : List Nat,
      blitAll (fun surface => _image_draw_cpu_alpha2alpha table dc surface src)
        ⟨W, H, some d⟩ l = ⟨W, H, some d2⟩ ∧
      d2.length = d.length ∧
      (∀ b ∈ l, ∀ i j : Nat, (i : Int) < b.dst_w → (j : Int) < b.dst_h →
        peek d2 ((b.dst_y + j) * W + b.dst_x + i) =
          f (peek src.pixels ((b.src_y + j) * src.w + b.src_x + i))
            (peek d ((b.dst_y + j) * W + b.dst_x + i))) ∧
      (∀ idx : Int, (∀ b ∈ l, ¬ b.covers W idx) → peek d2 idx = peek d idx) := by
  induction l generalizing d with
  | nil =>
    refine ⟨d, rfl, rfl, ?_, ?_⟩
    · intro b hb
      exact absurd hb (List.not_mem_nil _)
    · intro idx _
      rfl
  | cons b l ih =>
    obtain ⟨hbl, hpl⟩ := List.pairwise_cons.1 hpw
    have hfb : b.fits W H := hfit b (List.mem_cons_self _ _)
    have hfl : ∀ c ∈ l, c.fits W H := fun c hc => hfit c (List.mem_cons_of_mem _ hc)
    obtain ⟨d1, hd1, hl1, hin1, hout1⟩ :=
      alpha2alpha_draw_fits table dc func f src W H d b hfunc happ hlen hH hfb
    obtain ⟨d2, hd2, hl2, hin2, hout2⟩ := ih d1 (by rw [hl1]; exact hlen) hfl hpl
    refine ⟨d2, ?_, by rw [hl2, hl1], ?_, ?_⟩
    · rw [blitAll_cons, hd1]
      exact hd2
    · intro c hc i j hi hj
      rcases List.mem_cons.1 hc with hcb | hcl
      · subst hcb
        rw [hout2, hin1 i j hi hj]
        intro e he hcov
        exact before_disjoint c e W _ (hbl e he) hfb.2.2.2.2.1 hfb.2.2.2.2.2.1
          (hfl e he).2.2.2.2.1 (hfl e he).2.2.2.2.2.1 ⟨i, j, hi, hj, rfl⟩ hcov
      · rw [hin2 c hcl i j hi hj, hout1]
        intro hcov
        exact before_disjoint b c W _ (hbl c hcl) hfb.2.2.2.2.1 hfb.2.2.2.2.2.1
          (hfl c hcl).2.2.2.2.1 (hfl c hcl).2.2.2.2.2.1 hcov ⟨i, j, hi, hj, rfl⟩
    · intro idx hno
      rw [hout2 idx (fun c hc => hno c (List.mem_cons_of_mem _ hc)),
        hout1 idx (hno b (List.mem_cons_self _ _))]

/-- Running the alpha2alpha kernel over such a list a second time changes
nothing when the combine is idempotent on the source bytes. -/
theorem blitAll_alpha_twice (table : Int → Option Alpha_Gfx_Func)
    (dc : Alpha_Blend_Draw_Context) (func : Alpha_Gfx_Func) (f : Nat → Nat → Nat)
    (src : RGBA_Image) (W H : Int)
    (hfunc : table dc.render_op = some func) (happ : AppliesCombine f func)
    (hidem : ∀ (idx : Int) (v : Nat),
      f (peek src.pixels idx) (f (peek src.pixels idx) v) = f (peek src.pixels idx) v)
    (hH : H < 2147483648) (l : List Blit) (d : List Nat)
    (hlen : (d.length : Int) = W * H)
    (hfit : ∀ b ∈ l, b.fits W H) (hpw : l.Pairwise Blit.before) :
    ∃ d1 : List Nat,
      blitAll (fun surface => _image_draw_cpu_alpha2alpha table dc surface src)
        ⟨W, H, some d⟩ l = ⟨W, H, some d1⟩ ∧
      blitAll (fun surface => _image_draw_cpu_alpha2alpha table dc surface src)
        ⟨W, H, some d1⟩ l = ⟨W, H, some d1⟩ := by
  obtain ⟨d1, hd1, hl1, hin1, hout1⟩ :=
    blitAll_alpha_fits table dc func f src W H hfunc happ hH l d hlen hfit hpw
  obtain ⟨d2, hd2, hl2, hin2, hout2⟩ :=
    blitAll_alpha_fits table dc func f src W H hfunc happ hH l d1
      (by rw [hl1]; exact hlen) hfit hpw
  refine ⟨d1, hd1, ?_⟩
  rw [hd2]
  have e : d2 = d1 := by
    apply peek_ext d2 d1 hl2
    intro idx
    by_cases hc : ∃ b ∈ l, b.covers W idx
    · obtain ⟨b, hb, i, j, hi, hj, rfl⟩ := hc
      rw [hin2 b hb i j hi hj, hin1 b hb i j hi hj, hidem]
    · exact hout2 idx (fun b hb hcov => hc ⟨b, hb, hcov⟩)
  rw [e]

/-! ## Tiling engine: the rectangles of one run in ascending order -/

theorem MIN_le_right (a b : Int) : MIN a b ≤ b := by
  unfold MIN
  split_ifs <;> omega

/-- A walk without Stretch from an index `i ≥ 0` is in ascending order and
begins no earlier than the position of tile `i`. -/
theorem axisWalk_ascending (s : Int) (a : AxisSetup) (hs : 0 < s) (n : Nat) (i : Int)
    (hi : n ≠ 0 → i + n ≤ a.count + 1) (h0 : 0 ≤ i) :
    Ascending (axisWalk false s a n i) ∧
      ∀ x ∈ axisWalk false s a n i, a.lead + a.off + i * s ≤ x.dst_pos := by
  unfold Ascending
  induction n generalizing i with
  | zero =>
    exact ⟨List.Pairwise.nil, fun x hx => absurd hx (List.not_mem_nil _)⟩
  | succ n ih =>
    have hi2 : i + ((n + 1 : Nat) : Int) ≤ a.count + 1 := hi (by omega)
    push_cast at hi2
    obtain ⟨ihA, ihL⟩ := ih (i + 1) (fun _ => by omega) (by omega)
    have e : (i + 1) * s = i * s + s := by ring
    rw [e] at ihL
    have hne : ¬ (i = -1 ∧ a.lead > 0) := by omega
    rw [axisWalk, if_neg hne]
    by_cases ht : i = a.count ∧ a.trail > 0
    · rw [if_pos ht]
      have hn0 : n = 0 := by omega
      subst hn0
      simp only [axisWalk]
      split_ifs
      · exact ⟨List.Pairwise.nil, fun x hx => absurd hx (List.not_mem_nil _)⟩
      · refine ⟨List.pairwise_singleton _ _, fun x hx => ?_⟩
        rw [List.mem_singleton] at hx
        subst hx
        exact le_refl _
    · rw [if_neg ht]
      simp only [Bool.false_eq_true, if_false]
      have hmin := MIN_le_right (a.extent - (a.lead + a.off + i * s)) s
      split_ifs
      · exact ⟨List.Pairwise.nil, fun x hx => absurd hx (List.not_mem_nil _)⟩
      · refine ⟨List.pairwise_cons.2 ⟨fun x hx => ?_, ihA⟩, fun x hx => ?_⟩
        · have := ihL x hx
          dsimp only
          omega
        · rcases List.mem_cons.1 hx with hx | hx
          · subst hx
            exact le_refl _
          · have := ihL x hx
            omega

theorem axisIntervals_ascending (s : Int) (a : AxisSetup) (hs : 0 < s) :
    Ascending (axisIntervals false s a) := by
  unfold axisIntervals
  by_cases hl : a.lead > 0
  · simp only [hl, if_true]
    generalize hn : (a.count - -1 + 1).toNat = n
    cases n with
    | zero => exact List.Pairwise.nil
    | succ m =>
      have hpos : ¬ (a.lead ≤ 0 ∨ a.lead ≤ 0) := by omega
      rw [axisWalk]
      simp only [hl, and_self, and_true, true_and, if_true]
      rw [if_neg hpos]
      obtain ⟨hA, hL⟩ := axisWalk_ascending s a hs m (-1 + 1) (fun _ => by omega) (by omega)
      refine List.pairwise_cons.2 ⟨fun x hx => ?_, hA⟩
      have h := hL x hx
      have e : ((-1 : Int) + 1) * s = 0 := by ring
      rw [e] at h
      dsimp only
      omega
  · simp only [hl, if_false]
    exact (axisWalk_ascending s a hs _ 0 (fun _ => by omega) (le_refl 0)).1

/-- The interval list of an axis that does not have Repeat and Stretch both
set is in ascending order. -/
theorem axisList_ascending (rep stretch : Bool) (out s o d : Int) (l : List Interval)
    (hl : axisList rep stretch out s o d = some l)
    (hm : ¬ (rep = true ∧ stretch = true)) (hs : 0 < s) : Ascending l := by
  unfold axisList at hl
  cases ha : axisSetup rep stretch out s o d with
  | none => simp [ha] at hl
  | some a =>
    simp only [ha, Option.map_some', Option.some.injEq] at hl
    subst hl
    cases stretch with
    | false => exact axisIntervals_ascending s a hs
    | true =>
      have hr : rep = false := by
        cases rep
        · rfl
        · exact absurd ⟨rfl, rfl⟩ hm
      subst hr
      simp only [axisSetup, Bool.false_eq_true, if_false, if_true, Option.some.injEq] at ha
      subst ha
      unfold Ascending
      simp only [axisIntervals, axisWalk]
      split_ifs <;> simp

/-- The row-major product of two ascending interval lists is a list of calls
each of which ends before every later one begins. -/
theorem rowMajor_before (ys xs : List Interval) (hy : Ascending ys) (hx : Ascending xs) :
    (rowMajor ys xs).Pairwise Blit.before := by
  unfold rowMajor
  rw [List.pairwise_flatMap]
  refine ⟨fun y _ => ?_, ?_⟩
  · rw [List.pairwise_map]
    exact List.Pairwise.imp (fun h => Or.inl h) hx
  · refine List.Pairwise.imp (fun h => ?_) hy
    intro b1 hb1 b2 hb2
    rcases List.mem_map.1 hb1 with ⟨x1, _, rfl⟩
    rcases List.mem_map.1 hb2 with ⟨x2, _, rfl⟩
    exact Or.inr h

/-- In every fill mode that does not set Repeat and Stretch on the same axis,
with positive tile extents, each call of one run ends before every later call
begins, in X or in Y. -/
theorem calls_pairwise_before (out_w out_h : Int) (fillmode : Evas_Filter_Fill_Mode)
    (sx sy sw sh dx dy dw dh : Int) (l : List Blit)
    (hl : _mapped_blend_cpu.calls out_w out_h fillmode sx sy sw sh dx dy dw dh = some l)
    (hmx : ¬ (fillmode.repeat_x = true ∧ fillmode.stretch_x = true))
    (hmy : ¬ (fillmode.repeat_y = true ∧ fillmode.stretch_y = true))
    (hsw : 0 < sw) (hsh : 0 < sh) : l.Pairwise Blit.before := by
  by_cases hfill : fillmode = EVAS_FILTER_FILL_MODE_NONE
  · subst hfill
    rw [calls_fill_none] at hl
    simp only [Option.some.injEq] at hl
    subst hl
    exact List.pairwise_singleton _ _
  · rw [calls_eq_rowMajor _ _ _ _ _ _ _ _ _ _ _ hfill] at hl
    cases hxs : axisList fillmode.repeat_x fillmode.stretch_x out_w sw dx dw with
    | none => simp [hxs] at hl
    | some xs =>
      cases hys : axisList fillmode.repeat_y fillmode.stretch_y out_h sh dy dh with
      | none => simp [hxs, hys] at hl
      | some ys =>
        simp only [hxs, hys, Option.some_bind, Option.some.injEq] at hl
        subst hl
        exact rowMajor_before ys xs
          (axisList_ascending _ _ _ _ _ _ ys hys hmy hsh)
          (axisList_ascending _ _ _ _ _ _ xs hxs hmx hsw)

/-! ## Tiling engine: fill modes whose rectangles stay inside the output -/

theorem MIN_le_left (a b : Int) : MIN a b ≤ a := by
  unfold MIN
  split_ifs <;> omega

/-- On an axis that has Stretch without Repeat, or no Stretch and offset 0,
every interval lies inside the output extent. -/
theorem axisList_inside (rep stretch : Bool) (out s o : Int) (l : List Interval)
    (hl : axisList rep stretch out s o out = some l) (hs : 0 < s) (hout : 0 < out)
    (hc : (stretch = true ∧ rep = false) ∨ (stretch = false ∧ o = 0)) :
    ∀ x ∈ l, 0 ≤ x.dst_pos ∧ x.dst_pos + x.dst_len ≤ out := by
  have hs0 : ¬ s ≤ 0 := by omega
  have ho0 : ¬ out ≤ 0 := by omega
  rcases hc with ⟨h1, h2⟩ | ⟨h1, h2⟩
  · subst h1
    subst h2
    simp [axisList, axisSetup, axisIntervals, axisWalk, hs0, ho0] at hl
    subst hl
    intro x hx
    rw [List.mem_singleton] at hx
    subst hx
    exact ⟨le_refl _, by simp⟩
  · subst h1
    subst h2
    cases rep with
    | true =>
      rw [axisList_repeat_offset_zero out s out hs (by omega)] at hl
      simp only [Option.some.injEq] at hl
      subst hl
      have hq : 0 ≤ out / s := Int.ediv_nonneg (by omega) (by omega)
      have hqs : out / s * s ≤ out := Int.ediv_mul_le out (by omega)
      have hqs0 : 0 ≤ out / s * s := Int.mul_nonneg hq (by omega)
      intro x hx
      rcases List.mem_append.1 hx with hx | hx
      · rcases List.mem_map.1 hx with ⟨k, hk, rfl⟩
        rw [List.mem_range] at hk
        have hk1 : ((k : Int) + 1) * s ≤ out / s * s :=
          Int.mul_le_mul_of_nonneg_right (by omega) (by omega)
        have e : ((k : Int) + 1) * s = k * s + s := by ring
        have hk0 : 0 ≤ (k : Int) * s := Int.mul_nonneg (by omega) (by omega)
        dsimp only
        omega
      · have hm := Int.emod_add_ediv out s
        have hcomm : s * (out / s) = out / s * s := Int.mul_comm _ _
        split_ifs at hx
        · rw [List.mem_singleton] at hx
          subst hx
          dsimp only
          omega
        · exact absurd hx (List.not_mem_nil _)
    | false =>
      rw [axisList_unfilled_offset_zero out s out hs hout] at hl
      simp only [Option.some.injEq] at hl
      subst hl
      intro x hx
      rw [List.mem_singleton] at hx
      subst hx
      have := MIN_le_left out s
      dsimp only
      omega

/-- The calls of one run all fit the output image when the fill mode is None
with a clipped rectangle inside the output, or when each axis has Stretch
without Repeat on equal extents, or no Stretch and offset 0. -/
theorem calls_fit (out_w out_h : Int) (fillmode : Evas_Filter_Fill_Mode)
    (sw sh ox oy : Int) (l : List Blit)
    (hl : _mapped_blend_cpu.calls out_w out_h fillmode 0 0 sw sh ox oy out_w out_h = some l)
    (hsw : 0 < sw) (hsh : 0 < sh) (hdw : 0 < out_w) (hdh : 0 < out_h)
    (hfam :
      (fillmode = EVAS_FILTER_FILL_MODE_NONE ∧
        0 ≤ (_clip_to_target sw sh ox oy out_w out_h).cols ∧
        0 ≤ (_clip_to_target sw sh ox oy out_w out_h).rows ∧
        0 ≤ (_clip_to_target sw sh ox oy out_w out_h).dx ∧
        (_clip_to_target sw sh ox oy out_w out_h).dx +
          (_clip_to_target sw sh ox oy out_w out_h).cols ≤ out_w ∧
        0 ≤ (_clip_to_target sw sh ox oy out_w out_h).dy ∧
        (_clip_to_target sw sh ox oy out_w out_h).dy +
          (_clip_to_target sw sh ox oy out_w out_h).rows ≤ out_h) ∨
      (fillmode ≠ EVAS_FILTER_FILL_MODE_NONE ∧
        ((fillmode.stretch_x = true ∧ fillmode.repeat_x = false ∧ sw = out_w) ∨
          (fillmode.stretch_x = false ∧ ox = 0)) ∧
        ((fillmode.stretch_y = true ∧ fillmode.repeat_y = false ∧ sh = out_h) ∨
          (fillmode.stretch_y = false ∧ oy = 0)))) :
    ∀ b ∈ l, b.fits out_w out_h := by
  rcases hfam with ⟨hnone, h1, h2, h3, h4, h5, h6⟩ | ⟨hfill, hx, hy⟩
  · subst hnone
    rw [calls_fill_none] at hl
    simp only [Option.some.injEq] at hl
    subst hl
    intro b hb
    rw [List.mem_singleton] at hb
    subst hb
    exact ⟨rfl, rfl, h1, h2, h3, h4, h5, h6⟩
  · rw [calls_eq_rowMajor _ _ _ _ _ _ _ _ _ _ _ hfill] at hl
    cases hxs : axisList fillmode.repeat_x fillmode.stretch_x out_w sw ox out_w with
    | none => simp [hxs] at hl
    | some xs =>
      cases hys : axisList fillmode.repeat_y fillmode.stretch_y out_h sh oy out_h with
      | none => simp [hxs, hys] at hl
      | some ys =>
        simp only [hxs, hys, Option.some_bind, Option.some.injEq] at hl
        subst hl
        intro b hb
        obtain ⟨y, hy2, x, hx2, rfl⟩ := mem_rowMajor ys xs b hb
        have hxl := axisList_len_eq _ _ _ _ _ _ xs hxs
          (by rcases hx with ⟨_, _, h⟩ | ⟨h, _⟩
              · exact Or.inr ⟨h, h⟩
              · exact Or.inl h) x hx2
        have hyl := axisList_len_eq _ _ _ _ _ _ ys hys
          (by rcases hy with ⟨_, _, h⟩ | ⟨h, _⟩
              · exact Or.inr ⟨h, h⟩
              · exact Or.inl h) y hy2
        have hxp := axisList_pos _ _ _ _ _ _ xs hxs x hx2
        have hyp := axisList_pos _ _ _ _ _ _ ys hys y hy2
        have hxi := axisList_inside _ _ _ _ _ xs hxs hsw hdw
          (by rcases hx with ⟨h, h2, _⟩ | ⟨h, h2⟩
              · exact Or.inl ⟨h, h2⟩
              · exact Or.inr ⟨h, h2⟩) x hx2
        have hyi := axisList_inside _ _ _ _ _ ys hys hsh hdh
          (by rcases hy with ⟨h, h2, _⟩ | ⟨h, h2⟩
              · exact Or.inl ⟨h, h2⟩
              · exact Or.inr ⟨h, h2⟩) y hy2
        exact ⟨hxl, hyl, le_of_lt hxp.2, le_of_lt hyp.2, hxi.1, hxi.2, hyi.1, hyi.2⟩

/-! ## Alpha-to-alpha blend applied twice -/

/-- C21: an alpha-to-alpha command on valid buffers with positive extents that
needs no resized copy, in a fill mode whose destination rectangles are inside
the output (None with the clipped rectangle inside the output; or, per axis,
Stretch without Repeat, or no Stretch and offset 0, which covers StretchXY on
equal sizes and Repeat with offset 0), with an operator whose span function
applies a per-pixel combine `f` such that `f(s, f(s, d)) = f(s, d)` for every
byte `s` read from the input: the command succeeds and leaves an output image
`out1`, and the same command applied to `out1` succeeds and leaves `out1`
again. -/
theorem alpha_blend_twice (table : Int → Option Alpha_Gfx_Func)
    (scaled_get : Evas_Filter_Buffer → Int → Int → Option Evas_Filter_Buffer)
    (cmd : Evas_Filter_Command) (input output : Evas_Filter_Buffer) (in_ out : RGBA_Image)
    (d : List Nat) (func : Alpha_Gfx_Func) (f : Nat → Nat → Nat)
    (hin : cmd.input = some input) (hout : cmd.output = some output)
    (hib : input.backing = some in_) (hob : output.backing = some out)
    (hid : in_.data ≠ none) (hod : out.data = some d)
    (hlen : (d.length : Int) = out.w * out.h)
    (hsw : 0 < in_.w) (hsh : 0 < in_.h) (hdw : 0 < out.w) (hdh : 0 < out.h)
    (hH : out.h < 2147483648)
    (hfunc : table cmd.draw.render_op = some func) (happ : AppliesCombine f func)
    (hidem : ∀ (idx : Int) (v : Nat),
      f (peek in_.pixels idx) (f (peek in_.pixels idx) v) = f (peek in_.pixels idx) v)
    (hplain : ¬ ((in_.w ≠ out.w ∨ in_.h ≠ out.h) ∧
      (cmd.draw.fillmode.stretch_x = true ∨ cmd.draw.fillmode.stretch_y = true)))
    (hfam :
      (cmd.draw.fillmode = EVAS_FILTER_FILL_MODE_NONE ∧
        0 ≤ (_clip_to_target in_.w in_.h cmd.draw.ox cmd.draw.oy out.w out.h).cols ∧
        0 ≤ (_clip_to_target in_.w in_.h cmd.draw.ox cmd.draw.oy out.w out.h).rows ∧
        0 ≤ (_clip_to_target in_.w in_.h cmd.draw.ox cmd.draw.oy out.w out.h).dx ∧
        (_clip_to_target in_.w in_.h cmd.draw.ox cmd.draw.oy out.w out.h).dx +
          (_clip_to_target in_.w in_.h cmd.draw.ox cmd.draw.oy out.w out.h).cols ≤ out.w ∧
        0 ≤ (_clip_to_target in_.w in_.h cmd.draw.ox cmd.draw.oy out.w out.h).dy ∧
        (_clip_to_target in_.w in_.h cmd.draw.ox cmd.draw.oy out.w out.h).dy +
          (_clip_to_target in_.w in_.h cmd.draw.ox cmd.draw.oy out.w out.h).rows ≤ out.h) ∨
      (cmd.draw.fillmode ≠ EVAS_FILTER_FILL_MODE_NONE ∧
        ((cmd.draw.fillmode.stretch_x = true ∧ cmd.draw.fillmode.repeat_x = false) ∨
          (cmd.draw.fillmode.stretch_x = false ∧ cmd.draw.ox = 0)) ∧
        ((cmd.draw.fillmode.stretch_y = true ∧ cmd.draw.fillmode.repeat_y = false) ∨
          (cmd.draw.fillmode.stretch_y = false ∧ cmd.draw.oy = 0)))) :
    ∃ (o1 : Outcome) (out1 : RGBA_Image),
      _filter_blend_cpu_alpha table scaled_get cmd = some o1 ∧
      o1.ok = true ∧ o1.backing = some out1 ∧
      ∃ o2 : Outcome,
        _filter_blend_cpu_alpha table scaled_get
          { cmd with output := some { output with backing := some out1 } } = some o2 ∧
        o2.ok = true ∧ o2.backing = some out1 := by
  obtain ⟨W, H, data⟩ := out
  dsimp only at hod hlen hdw hdh hH hplain hfam
  subst hod
  obtain ⟨l, hl⟩ := calls_isSome W H cmd.draw.fillmode 0 0 in_.w in_.h
    cmd.draw.ox cmd.draw.oy W H (by omega) (by omega)
  have hmx : ¬ (cmd.draw.fillmode.repeat_x = true ∧ cmd.draw.fillmode.stretch_x = true) := by
    rcases hfam with ⟨hn, _⟩ | ⟨_, hx, _⟩
    · rw [hn]
      decide
    · rcases hx with ⟨_, h⟩ | ⟨h, _⟩
      · rw [h]
        simp
      · rw [h]
        simp
  have hmy : ¬ (cmd.draw.fillmode.repeat_y = true ∧ cmd.draw.fillmode.stretch_y = true) := by
    rcases hfam with ⟨hn, _⟩ | ⟨_, _, hy⟩
    · rw [hn]
      decide
    · rcases hy with ⟨_, h⟩ | ⟨h, _⟩
      · rw [h]
        simp
      · rw [h]
        simp
  have hfit : ∀ b ∈ l, b.fits W H := by
    refine calls_fit W H cmd.draw.fillmode in_.w in_.h cmd.draw.ox cmd.draw.oy l hl
      hsw hsh hdw hdh ?_
    rcases hfam with h | ⟨hfill, hx, hy⟩
    · exact Or.inl h
    · refine Or.inr ⟨hfill, ?_, ?_⟩
      · rcases hx with ⟨h1, h2⟩ | h
        · refine Or.inl ⟨h1, h2, ?_⟩
          by_contra hne
          exact hplain ⟨Or.inl hne, Or.inl h1⟩
        · exact Or.inr h
      · rcases hy with ⟨h1, h2⟩ | h
        · refine Or.inl ⟨h1, h2, ?_⟩
          by_contra hne
          exact hplain ⟨Or.inr hne, Or.inr h1⟩
        · exact Or.inr h
  have hpw := calls_pairwise_before W H cmd.draw.fillmode 0 0 in_.w in_.h
    cmd.draw.ox cmd.draw.oy W H l hl hmx hmy hsw hsh
  obtain ⟨d1, h1, h2⟩ := blitAll_alpha_twice table
    ⟨cmd.draw.render_op, ARGB_JOIN cmd.draw.A cmd.draw.R cmd.draw.G cmd.draw.B⟩ func f in_ W H
    hfunc happ hidem hH l d hlen hfit hpw
  have hrun1 := generic_do_plain scaled_get (_image_draw_cpu_alpha2alpha table) cmd
    input output in_ ⟨W, H, some d⟩ hin hout hib hob hid (by simp) hsw hsh hdw hdh hplain
  have hrun2 := generic_do_plain scaled_get (_image_draw_cpu_alpha2alpha table)
    { cmd with output := some { output with backing := some ⟨W, H, some d1⟩ } }
    input { output with backing := some ⟨W, H, some d1⟩ } in_ ⟨W, H, some d1⟩
    hin rfl hib rfl hid (by simp) hsw hsh hdw hdh hplain
  dsimp only at hrun1 hrun2
  rw [hl, Option.map_some', h1] at hrun1
  rw [hl, Option.map_some', h2] at hrun2
  exact ⟨_, ⟨W, H, some d1⟩, hrun1, rfl, rfl, _, hrun2, rfl, rfl⟩

/-- Witness of C21: a copy operator, a 1x1 input tiled with `REPEAT_X | REPEAT_Y`
at offset 0 over a 2x2 output. -/
theorem alpha_blend_twice_witness :
    ∃ (o1 : Outcome) (out1 : RGBA_Image),
      _filter_blend_cpu_alpha (fun _ => some (Alpha_Gfx_Func.ofCombine fun s _ => s))
        (fun _ _ _ => none)
        ⟨some ⟨true, false, some ⟨1, 1, some [5]⟩⟩,
          some ⟨true, false, some ⟨2, 2, some [1, 2, 3, 4]⟩⟩,
          ⟨0, 0, ⟨false, false, true, true⟩, 0, 0, 0, 0, 0, false, ⟨0, 0, 0, 0⟩⟩⟩ = some o1 ∧
      o1.ok = true ∧ o1.backing = some out1 ∧
      ∃ o2 : Outcome,
        _filter_blend_cpu_alpha (fun _ => some (Alpha_Gfx_Func.ofCombine fun s _ => s))
          (fun _ _ _ => none)
          ⟨some ⟨true, false, some ⟨1, 1, some [5]⟩⟩,
            some ⟨true, false, some out1⟩,
            ⟨0, 0, ⟨false, false, true, true⟩, 0, 0, 0, 0, 0, false, ⟨0, 0, 0, 0⟩⟩⟩ = some o2 ∧
        o2.ok = true ∧ o2.backing = some out1 :=
  alpha_blend_twice (fun _ => some (Alpha_Gfx_Func.ofCombine fun s _ => s))
    (fun _ _ _ => none)
    ⟨some ⟨true, false, some ⟨1, 1, some [5]⟩⟩,
      some ⟨true, false, some ⟨2, 2, some [1, 2, 3, 4]⟩⟩,
      ⟨0, 0, ⟨false, false, true, true⟩, 0, 0, 0, 0, 0, false, ⟨0, 0, 0, 0⟩⟩⟩
    ⟨true, false, some ⟨1, 1, some [5]⟩⟩ ⟨true, false, some ⟨2, 2, some [1, 2, 3, 4]⟩⟩
    ⟨1, 1, some [5]⟩ ⟨2, 2, some [1, 2, 3, 4]⟩ [1, 2, 3, 4]
    (Alpha_Gfx_Func.ofCombine fun s _ => s) (fun s _ => s)
    rfl rfl rfl rfl (by decide) rfl (by decide) (by decide) (by decide) (by decide)
    (by decide) (by decide) rfl (ofCombine_applies _) (fun _ _ => rfl) (by decide)
    (Or.inr ⟨by decide, Or.inr ⟨rfl, rfl⟩, Or.inr ⟨rfl, rfl⟩⟩)

/-! ## The exponent search of the bit-shift divider -/

/-- The loop of `_smallest_pow2_larger_than` from counter `n`, all smaller
counters having failed the test: it returns the first counter `r ≥ n` that
passes the test, or 32 when none below 32 does. -/
theorem pow2_loop_spec (val : Int) (fuel n : Nat) (h : fuel + n = 32)
    (hprev : ∀ m : Nat, m < n → shl1 m < val) :
    ∃ r : Nat, _smallest_pow2_larger_than.loop val fuel n = (r : Int) ∧ n ≤ r ∧ r ≤ 32 ∧
      (∀ m : Nat, m < r → shl1 m < val) ∧ (r < 32 → val ≤ shl1 r) := by
  induction fuel generalizing n with
  | zero =>
    have hn : n = 32 := by omega
    subst hn
    exact ⟨32, rfl, le_refl _, le_refl _, hprev, fun h32 => absurd h32 (lt_irrefl _)⟩
  | succ fuel ih =>
    rw [_smallest_pow2_larger_than.loop]
    by_cases hc : val ≤ shl1 n
    · rw [if_pos hc]
      exact ⟨n, rfl, le_refl _, by omega, hprev, fun _ => hc⟩
    · rw [if_neg hc]
      obtain ⟨r, hr, h1, h2, h3, h4⟩ := ih (n + 1) (by omega) (fun m hm => by
        rcases Nat.lt_succ_iff_lt_or_eq.1 hm with hlt | heq
        · exact hprev m hlt
        · subst heq
          omega)
      exact ⟨r, hr, by omega, h2, h3, h4⟩

/-- C37: the function `_smallest_pow2_larger_than` is total with a result in
0..32 (its loop runs at most 32 times); for `val ≤ 1` the result is 0; for
`1 ≤ val ≤ 2^30` the result is the least `n` with `val ≤ 2^n`, at most 30, so
a power of two maps to its own exponent. -/
theorem smallest_pow2_least (val : Int) :
    (0 ≤ _smallest_pow2_larger_than val ∧ _smallest_pow2_larger_than val ≤ 32) ∧
      (val ≤ 1 → _smallest_pow2_larger_than val = 0) ∧
      (1 ≤ val → val ≤ 2 ^ 30 →
        ∃ n : Nat, _smallest_pow2_larger_than val = n ∧ n ≤ 30 ∧ val ≤ 2 ^ n ∧
          ∀ m : Nat, val ≤ 2 ^ m → n ≤ m) := by
  obtain ⟨r, hr, _, h2, h3, h4⟩ := pow2_loop_spec val 32 0 rfl (fun m hm => by omega)
  have hr2 : _smallest_pow2_larger_than val = (r : Int) := hr
  refine ⟨by rw [hr2]; omega, ?_, ?_⟩
  · intro hv
    have h0 : val ≤ shl1 0 := by
      have e : shl1 0 = 1 := by decide
      rw [e]
      exact hv
    unfold _smallest_pow2_larger_than
    rw [_smallest_pow2_larger_than.loop, if_pos h0]
    rfl
  · intro _ hv
    have h30 : r ≤ 30 := by
      by_contra hgt
      have h := h3 30 (by omega)
      have e : shl1 30 = 2 ^ 30 := by decide
      rw [e] at h
      omega
    have hpow : ∀ m : Nat, m < 31 → shl1 m = 2 ^ m := by
      intro m hm
      unfold shl1
      rw [if_pos hm]
    refine ⟨r, hr2, h30, ?_, ?_⟩
    · rw [← hpow r (by omega)]
      exact h4 (by omega)
    · intro m hm
      by_contra hlt
      have h := h3 m (by omega)
      rw [hpow m (by omega)] at h
      omega

/-- Witness of C37: 4096 is a power of two and maps to its own exponent 12. -/
theorem smallest_pow2_least_witness :
    _smallest_pow2_larger_than 4096 = 12 ∧
      ∃ n : Nat, _smallest_pow2_larger_than 4096 = n ∧ n ≤ 30 ∧ (4096 : Int) ≤ 2 ^ n ∧
        ∀ m : Nat, (4096 : Int) ≤ 2 ^ m → n ≤ m :=
  ⟨by decide, (smallest_pow2_least 4096).2.2 (by decide) (by decide)⟩

/-! ## Tiling engine: the two axes are treated alike -/

theorem mem_rowMajor_iff (ys xs : List Interval) (b : Blit) :
    b ∈ rowMajor ys xs ↔ ∃ y ∈ ys, ∃ x ∈ xs, b = Blit.ofIntervals x y := by
  constructor
  · exact mem_rowMajor ys xs b
  · rintro ⟨y, hy, x, hx, rfl⟩
    unfold rowMajor
    exact List.mem_flatMap.2 ⟨y, hy, List.mem_map.2 ⟨x, hx, rfl⟩⟩

theorem rowMajor_length (ys xs : List Interval) :
    (rowMajor ys xs).length = ys.length * xs.length := by
  induction ys with
  | nil => simp [rowMajor_nil]
  | cons y ys ih =>
    rw [rowMajor_cons, List.length_append, List.length_map, ih, List.length_cons]
    ring

theorem transpose_ne_none (m : Evas_Filter_Fill_Mode) (h : m ≠ EVAS_FILTER_FILL_MODE_NONE) :
    m.transpose ≠ EVAS_FILTER_FILL_MODE_NONE := by
  obtain ⟨a, b, c, d⟩ := m
  cases a <;> cases b <;> cases c <;> cases d <;> first | exact absurd rfl h | decide

/-- C36: for every fill mode other than None.  The Y-axis setup is the X-axis
setup function applied to the Y inputs and the exchanged flags, and the other
way round.  Running the engine on the exchanged inputs (`sw` with `sh`, `dx`
with `dy`, `dw` with `dh`, `out.w` with `out.h`, X flags with Y flags) traps
exactly when the original run traps, and otherwise makes as many calls, a call
being made by the exchanged run exactly when its transpose is made by the
original run. -/
theorem calls_transpose (out_w out_h : Int) (fillmode : Evas_Filter_Fill_Mode)
    (sx sy sw sh dx dy dw dh : Int) (hfill : fillmode ≠ EVAS_FILTER_FILL_MODE_NONE) :
    _mapped_blend_cpu.ysetup fillmode out_h sh dy dh =
        _mapped_blend_cpu.xsetup fillmode.transpose out_h sh dy dh ∧
      _mapped_blend_cpu.xsetup fillmode out_w sw dx dw =
        _mapped_blend_cpu.ysetup fillmode.transpose out_w sw dx dw ∧
      ((_mapped_blend_cpu.calls out_w out_h fillmode sx sy sw sh dx dy dw dh = none ∧
          _mapped_blend_cpu.calls out_h out_w fillmode.transpose sy sx sh sw dy dx dh dw =
            none) ∨
        ∃ l l2 : List Blit,
          _mapped_blend_cpu.calls out_w out_h fillmode sx sy sw sh dx dy dw dh = some l ∧
          _mapped_blend_cpu.calls out_h out_w fillmode.transpose sy sx sh sw dy dx dh dw =
            some l2 ∧
          l2.length = l.length ∧ ∀ b : Blit, b ∈ l2 ↔ b.transpose ∈ l) := by
  refine ⟨rfl, rfl, ?_⟩
  rw [calls_eq_rowMajor _ _ _ _ _ _ _ _ _ _ _ hfill,
    calls_eq_rowMajor _ _ _ _ _ _ _ _ _ _ _ (transpose_ne_none fillmode hfill)]
  simp only [Evas_Filter_Fill_Mode.transpose]
  cases hxs : axisList fillmode.repeat_x fillmode.stretch_x out_w sw dx dw with
  | none =>
    left
    cases axisList fillmode.repeat_y fillmode.stretch_y out_h sh dy dh <;> exact ⟨rfl, rfl⟩
  | some xs =>
    cases hys : axisList fillmode.repeat_y fillmode.stretch_y out_h sh dy dh with
    | none => exact Or.inl ⟨rfl, rfl⟩
    | some ys =>
      right
      refine ⟨rowMajor ys xs, rowMajor xs ys, rfl, rfl, ?_, ?_⟩
      · rw [rowMajor_length, rowMajor_length, Nat.mul_comm]
      · intro b
        rw [mem_rowMajor_iff, mem_rowMajor_iff]
        constructor
        · rintro ⟨x, hx, y, hy, rfl⟩
          exact ⟨y, hy, x, hx, rfl⟩
        · rintro ⟨y, hy, x, hx, hb⟩
          refine ⟨x, hx, y, hy, ?_⟩
          have h2 : b.transpose.transpose = (Blit.ofIntervals x y).transpose := by rw [hb]
          exact h2

/-- Witness of C36: `REPEAT_X` with a 10x8 tile on a 25x8 output, against
`REPEAT_Y` with an 8x10 tile on an 8x25 output. -/
theorem calls_transpose_witness :
    _mapped_blend_cpu.calls 25 8 EVAS_FILTER_FILL_MODE_REPEAT_X 0 0 10 8 0 0 25 8 =
        some [⟨0, 0, 10, 8, 0, 0, 10, 8⟩, ⟨0, 0, 10, 8, 10, 0, 10, 8⟩,
          ⟨0, 0, 5, 8, 20, 0, 5, 8⟩] ∧
      _mapped_blend_cpu.calls 8 25 EVAS_FILTER_FILL_MODE_REPEAT_Y 0 0 8 10 0 0 8 25 =
        some [⟨0, 0, 8, 10, 0, 0, 8, 10⟩, ⟨0, 0, 8, 10, 0, 10, 8, 10⟩,
          ⟨0, 0, 8, 5, 0, 20, 8, 5⟩] ∧
      _mapped_blend_cpu.ysetup EVAS_FILTER_FILL_MODE_REPEAT_X 8 8 0 8 =
        _mapped_blend_cpu.xsetup EVAS_FILTER_FILL_MODE_REPEAT_Y 8 8 0 8 :=
  ⟨by decide, by decide,
    (calls_transpose 25 8 EVAS_FILTER_FILL_MODE_REPEAT_X 0 0 10 8 0 0 25 8 (by decide)).1⟩

/-! ## The rgba2alpha kernel: what its result depends on -/

/-- The rgba2alpha kernel on a call that fits the destination image: it keeps
the extents and the storage length, each covered position holds the byte
computed from its source pixel, every other position keeps its byte. -/
theorem rgba2alpha_draw_fits (bs : Bool) (src : RGBA_Image) (W H : Int) (d : List Nat)
    (b : Blit) (hlen : (d.length : Int) = W * H) (hW : W < 2147483648)
    (hH : H < 2147483648) (hb : b.fits W H) :
    ∃ d2 : List Nat,
      (_image_draw_cpu_rgba2alpha bs ⟨W, H, some d⟩ src
        b.src_x b.src_y b.src_w b.src_h b.dst_x b.dst_y b.dst_w b.dst_h).2 = ⟨W, H, some d2⟩ ∧
      d2.length = d.length ∧
      (∀ i j : Nat, (i : Int) < b.dst_w → (j : Int) < b.dst_h →
        peek d2 ((b.dst_y + j) * W + b.dst_x + i) =
          _image_draw_cpu_rgba2alpha.pixel bs
            (peek src.pixels ((b.src_y + j) * src.w + b.src_x + i))) ∧
      (∀ idx : Int, ¬ b.covers W idx → peek d2 idx = peek d idx) := by
  obtain ⟨hsw, hsh, hw0, hh0, hx, hxw, hy, hyh⟩ := hb
  have hwc : loopCount b.dst_w = b.dst_w.toNat := loopCount_of_nonneg b.dst_w hw0 (by omega)
  have hhc : loopCount b.dst_h = b.dst_h.toNat := loopCount_of_nonneg b.dst_h hh0 (by omega)
  have hsz : ¬ ¬ (b.dst_w = b.dst_w ∧ b.dst_h = b.dst_h) := by simp
  rw [hsw, hsh]
  refine ⟨_image_draw_cpu_rgba2alpha.rows bs src.pixels src.w W
    b.src_x b.dst_x b.dst_w (loopCount b.dst_h) (b.src_y * src.w) (b.dst_y * W) d, ?_, ?_, ?_, ?_⟩
  · rw [_image_draw_cpu_rgba2alpha, if_neg hsz]
    simp only [RGBA_Image.store, Option.map_some']
  · exact rgba2alpha_rows_length _ _ _ _ _ _ _ _ _ _ _
  · intro i j hi hj
    have hdw : 0 ≤ W := by omega
    have hrow0 : 0 ≤ (b.dst_y + j) * W := Int.mul_nonneg (by omega) hdw
    have hrow1 : (b.dst_y + j + 1) * W ≤ H * W :=
      Int.mul_le_mul_of_nonneg_right (by omega) hdw
    have hexp : (b.dst_y + j + 1) * W = (b.dst_y + j) * W + W := by ring
    have hcomm : W * H = H * W := Int.mul_comm _ _
    have hidx := rect_index b.dst_y j W b.dst_x i
    rw [rect_index b.dst_y j W b.dst_x i, rect_index b.src_y j src.w b.src_x i,
      rgba2alpha_rows_peek_inside]
    · exact hx
    · omega
    · omega
    · omega
    · omega
    · omega
  · intro idx hout
    apply rgba2alpha_rows_peek_outside
    intro r hr hin
    have hrh : (r : Int) < b.dst_h := by omega
    have hk0 : 0 ≤ idx - (b.dst_y * W + r * W + b.dst_x) := by omega
    have hk : ((idx - (b.dst_y * W + r * W + b.dst_x)).toNat : Int) < b.dst_w := by omega
    refine hout ⟨(idx - (b.dst_y * W + r * W + b.dst_x)).toNat, r, hk, hrh, ?_⟩
    rw [rect_index, Int.toNat_of_nonneg hk0]
    omega

/-- C35: the rgba2alpha kernel called with equal extents on a rectangle inside
the destination.  Two runs whose destinations have the same extents but any
prior contents, and whose sources have the same width and the same `R`, `G`, `B`
channels at every pixel of the source rectangle (the alpha channel may differ),
leave the same byte at every position of the destination rectangle.  Running
the kernel a second time on its own result changes nothing.  The blend function
`_filter_blend_cpu_rgba2alpha` gives the same outcome whatever render operator
and tint the command carries: its kernel ignores the draw context. -/
theorem rgba2alpha_depends_on_rgb (bs : Bool) (src src2 : RGBA_Image) (W H : Int)
    (d d2 : List Nat) (src_x src_y w h dst_x dst_y : Int)
    (hlen : (d.length : Int) = W * H) (hlen2 : (d2.length : Int) = W * H)
    (hW : W < 2147483648) (hH : H < 2147483648)
    (hw0 : 0 ≤ w) (hh0 : 0 ≤ h)
    (hx : 0 ≤ dst_x) (hxw : dst_x + w ≤ W) (hy : 0 ≤ dst_y) (hyh : dst_y + h ≤ H)
    (hsw : src2.w = src.w)
    (hrgb : ∀ i j : Nat, (i : Int) < w → (j : Int) < h →
      R_VAL (peek src.pixels ((src_y + j) * src.w + src_x + i)) =
          R_VAL (peek src2.pixels ((src_y + j) * src.w + src_x + i)) ∧
        G_VAL (peek src.pixels ((src_y + j) * src.w + src_x + i)) =
          G_VAL (peek src2.pixels ((src_y + j) * src.w + src_x + i)) ∧
        B_VAL (peek src.pixels ((src_y + j) * src.w + src_x + i)) =
          B_VAL (peek src2.pixels ((src_y + j) * src.w + src_x + i))) :
    (∀ i j : Nat, (i : Int) < w → (j : Int) < h →
        peek (_image_draw_cpu_rgba2alpha bs ⟨W, H, some d⟩ src
            src_x src_y w h dst_x dst_y w h).2.pixels ((dst_y + j) * W + dst_x + i) =
          peek (_image_draw_cpu_rgba2alpha bs ⟨W, H, some d2⟩ src2
            src_x src_y w h dst_x dst_y w h).2.pixels ((dst_y + j) * W + dst_x + i)) ∧
      (_image_draw_cpu_rgba2alpha bs
          (_image_draw_cpu_rgba2alpha bs ⟨W, H, some d⟩ src
            src_x src_y w h dst_x dst_y w h).2 src
          src_x src_y w h dst_x dst_y w h).2 =
        (_image_draw_cpu_rgba2alpha bs ⟨W, H, some d⟩ src
          src_x src_y w h dst_x dst_y w h).2 ∧
      ∀ (scaled_get : Evas_Filter_Buffer → Int → Int → Option Evas_Filter_Buffer)
        (cmd : Evas_Filter_Command) (op : Int) (r g b a : Nat),
        _filter_blend_cpu_rgba2alpha bs scaled_get
            { cmd with draw := { cmd.draw with render_op := op, R := r, G := g, B := b, A := a } } =
          _filter_blend_cpu_rgba2alpha bs scaled_get cmd := by
  have hb : Blit.fits ⟨src_x, src_y, w, h, dst_x, dst_y, w, h⟩ W H :=
    ⟨rfl, rfl, hw0, hh0, hx, hxw, hy, hyh⟩
  obtain ⟨e1, he1, hl1, hin1, hout1⟩ :=
    rgba2alpha_draw_fits bs src W H d ⟨src_x, src_y, w, h, dst_x, dst_y, w, h⟩ hlen hW hH hb
  obtain ⟨e2, he2, _, hin2, _⟩ :=
    rgba2alpha_draw_fits bs src2 W H d2 ⟨src_x, src_y, w, h, dst_x, dst_y, w, h⟩ hlen2 hW hH hb
  obtain ⟨e3, he3, hl3, hin3, hout3⟩ :=
    rgba2alpha_draw_fits bs src W H e1 ⟨src_x, src_y, w, h, dst_x, dst_y, w, h⟩
      (by rw [hl1]; exact hlen) hW hH hb
  dsimp only at he1 he2 he3 hin1 hin2 hin3
  refine ⟨?_, ?_, ?_⟩
  · intro i j hi hj
    obtain ⟨hr, hg, hbl⟩ := hrgb i j hi hj
    rw [he1, he2]
    simp only [RGBA_Image.pixels, Option.getD_some]
    rw [hin1 i j hi hj, hin2 i j hi hj, hsw]
    unfold _image_draw_cpu_rgba2alpha.pixel
    rw [hr, hg, hbl]
  · rw [he1, he3]
    have e : e3 = e1 := by
      apply peek_ext e3 e1 hl3
      intro idx
      by_cases hc : Blit.covers ⟨src_x, src_y, w, h, dst_x, dst_y, w, h⟩ W idx
      · obtain ⟨i, j, hi, hj, rfl⟩ := hc
        rw [hin3 i j hi hj, hin1 i j hi hj]
      · exact hout3 idx hc
    rw [e]
  · intro scaled_get cmd op r g b a
    rfl

/-- Witness of C35: two 1x1 sources that differ in alpha only, onto 1x1
destinations holding 0 and 200. -/
theorem rgba2alpha_depends_on_rgb_witness :
    (_image_draw_cpu_rgba2alpha false ⟨1, 1, some [0]⟩
        ⟨1, 1, some [ARGB_JOIN 255 60 90 120]⟩ 0 0 1 1 0 0 1 1).2 =
      (_image_draw_cpu_rgba2alpha false ⟨1, 1, some [200]⟩
        ⟨1, 1, some [ARGB_JOIN 7 60 90 120]⟩ 0 0 1 1 0 0 1 1).2 ∧
      (_image_draw_cpu_rgba2alpha false
          (_image_draw_cpu_rgba2alpha false ⟨1, 1, some [0]⟩
            ⟨1, 1, some [ARGB_JOIN 255 60 90 120]⟩ 0 0 1 1 0 0 1 1).2
          ⟨1, 1, some [ARGB_JOIN 255 60 90 120]⟩ 0 0 1 1 0 0 1 1).2 =
        (_image_draw_cpu_rgba2alpha false ⟨1, 1, some [0]⟩
          ⟨1, 1, some [ARGB_JOIN 255 60 90 120]⟩ 0 0 1 1 0 0 1 1).2 :=
  ⟨by decide,
    (rgba2alpha_depends_on_rgb false ⟨1, 1, some [ARGB_JOIN 255 60 90 120]⟩
      ⟨1, 1, some [ARGB_JOIN 7 60 90 120]⟩ 1 1 [0] [200] 0 0 1 1 0 0
      (by decide) (by decide) (by decide) (by decide) (by decide) (by decide)
      (by decide) (by decide) (by decide) (by decide) rfl
      (fun i j hi hj => by
        have hi0 : i = 0 := by omega
        have hj0 : j = 0 := by omega
        subst hi0
        subst hj0
        decide)).2.1⟩

/-! ## Tiling engine: no zero divisor, bounded number of calls -/

theorem axisWalk_length_le (stretch : Bool) (s : Int) (a : AxisSetup) (n : Nat) (i : Int) :
    (axisWalk stretch s a n i).length ≤ n := by
  induction n generalizing i with
  | zero => simp [axisWalk]
  | succ n ih =>
    rcases axisWalk_step stretch s a n i with h | ⟨iv, _, _, h⟩
    · rw [h]
      simp
    · rw [h, List.length_cons]
      exact Nat.succ_le_succ (ih (i + 1))

/-- An axis with a positive tile extent and a non-negative destination extent
contributes at most `d / s + 2` intervals. -/
theorem axisList_length_le (rep stretch : Bool) (out s o d : Int) (l : List Interval)
    (hl : axisList rep stretch out s o d = some l) (hs : 0 < s) (hd : 0 ≤ d) :
    (l.length : Int) ≤ d.tdiv s + 2 := by
  have hq : 0 ≤ d.tdiv s := Int.tdiv_nonneg hd (by omega)
  unfold axisList at hl
  cases ha : axisSetup rep stretch out s o d with
  | none => simp [ha] at hl
  | some a =>
    simp only [ha, Option.map_some', Option.some.injEq] at hl
    subst hl
    have hlen := axisWalk_length_le stretch s a
      (a.count - (if a.lead > 0 then -1 else 0) + 1).toNat (if a.lead > 0 then -1 else 0)
    have hcount : a.count = d.tdiv s ∨ a.count = 0 := by
      unfold axisSetup at ha
      cases rep
      · cases stretch
        · simp at ha
          rw [← ha]
          exact Or.inr rfl
        · simp at ha
          rw [← ha]
          exact Or.inr rfl
      · have hs0 : s ≠ 0 := by omega
        simp [hs0] at ha
        rw [← ha]
        exact Or.inl rfl
    unfold axisIntervals
    split_ifs at hlen ⊢ <;> omega

/-- C34: with positive source and destination extents `_mapped_blend_cpu` has
no zero divisor: both axis setups succeed and the run, for any blit callback
and state, ends after the calls of one list `l`, whose length is at most
`(dw / sw + 2) * (dh / sh + 2)`.  The callers pass such extents: they return
before the engine when one of the four is non-positive, and a stretched
`sw`, `sh` is the positive `dw`, `dh`. -/
theorem mapped_blend_cpu_bounded (out_w out_h : Int) (fillmode : Evas_Filter_Fill_Mode)
    (sx sy sw sh dx dy dw dh : Int)
    (hsw : 0 < sw) (hsh : 0 < sh) (hdw : 0 < dw) (hdh : 0 < dh) :
    _mapped_blend_cpu.xsetup fillmode out_w sw dx dw ≠ none ∧
      _mapped_blend_cpu.ysetup fillmode out_h sh dy dh ≠ none ∧
      (∀ bx : Bool, 0 < (if bx then dw else sw)) ∧ (∀ b2 : Bool, 0 < (if b2 then dh else sh)) ∧
      ∃ l : List Blit,
        _mapped_blend_cpu.calls out_w out_h fillmode sx sy sw sh dx dy dw dh = some l ∧
        (l.length : Int) ≤ (dw.tdiv sw + 2) * (dh.tdiv sh + 2) ∧
        ∀ (σ : Type) (image_draw : image_draw_func σ) (st : σ),
          _mapped_blend_cpu image_draw st out_w out_h fillmode sx sy sw sh dx dy dw dh =
            some (runBlits image_draw st l) := by
  have hqx : 0 ≤ dw.tdiv sw := Int.tdiv_nonneg (by omega) (by omega)
  have hqy : 0 ≤ dh.tdiv sh := Int.tdiv_nonneg (by omega) (by omega)
  obtain ⟨ax, hax⟩ := axisSetup_isSome fillmode.repeat_x fillmode.stretch_x out_w sw dx dw
    (by omega)
  obtain ⟨ay, hay⟩ := axisSetup_isSome fillmode.repeat_y fillmode.stretch_y out_h sh dy dh
    (by omega)
  refine ⟨?_, ?_, ?_, ?_, ?_⟩
  · rw [xsetup_eq_axisSetup, hax]
    exact fun h => Option.noConfusion h
  · rw [ysetup_eq_axisSetup, hay]
    exact fun h => Option.noConfusion h
  · intro bx
    cases bx <;> simp [hsw, hdw]
  · intro b2
    cases b2 <;> simp [hsh, hdh]
  · obtain ⟨l, hl⟩ := calls_isSome out_w out_h fillmode sx sy sw sh dx dy dw dh
      (by omega) (by omega)
    refine ⟨l, hl, ?_, ?_⟩
    · by_cases hfill : fillmode = EVAS_FILTER_FILL_MODE_NONE
      · subst hfill
        rw [calls_fill_none] at hl
        simp only [Option.some.injEq] at hl
        subst hl
        have h := Int.mul_le_mul (a := 1) (b := 1) (c := dw.tdiv sw + 2) (d := dh.tdiv sh + 2)
          (by omega) (by omega) (by omega) (by omega)
        simp only [List.length_singleton, Nat.cast_one]
        omega
      · rw [calls_eq_rowMajor _ _ _ _ _ _ _ _ _ _ _ hfill] at hl
        cases hxs : axisList fillmode.repeat_x fillmode.stretch_x out_w sw dx dw with
        | none => simp [hxs] at hl
        | some xs =>
          cases hys : axisList fillmode.repeat_y fillmode.stretch_y out_h sh dy dh with
          | none => simp [hxs, hys] at hl
          | some ys =>
            simp only [hxs, hys, Option.some_bind, Option.some.injEq] at hl
            subst hl
            have hx := axisList_length_le _ _ _ _ _ _ xs hxs hsw (by omega)
            have hy := axisList_length_le _ _ _ _ _ _ ys hys hsh (by omega)
            rw [rowMajor_length, Nat.mul_comm]
            push_cast
            exact Int.mul_le_mul hx hy (by omega) (by omega)
    · intro σ image_draw st
      rw [mapped_blend_cpu_eq_run_calls, hl]
      rfl

/-- Witness of C34: `REPEAT_X` with a 10x8 tile at offset -3 on a 25x8 output
makes four calls, at most `(25 / 10 + 2) * (8 / 8 + 2) = 12`. -/
theorem mapped_blend_cpu_bounded_witness :
    ∃ l : List Blit,
      _mapped_blend_cpu.calls 25 8 EVAS_FILTER_FILL_MODE_REPEAT_X 0 0 10 8 (-3) 0 25 8 = some l ∧
      l.length = 4 ∧
      (l.length : Int) ≤ ((25 : Int).tdiv 10 + 2) * ((8 : Int).tdiv 8 + 2) :=
  let ⟨l, hl, hlen, _⟩ := (mapped_blend_cpu_bounded 25 8 EVAS_FILTER_FILL_MODE_REPEAT_X
    0 0 10 8 (-3) 0 25 8 (by decide) (by decide) (by decide) (by decide)).2.2.2.2
  ⟨l, hl, by
    have h : _mapped_blend_cpu.calls 25 8 EVAS_FILTER_FILL_MODE_REPEAT_X 0 0 10 8 (-3) 0 25 8 =
        some [⟨3, 0, 7, 8, 0, 0, 7, 8⟩, ⟨0, 0, 10, 8, 7, 0, 10, 8⟩, ⟨0, 0, 8, 8, 17, 0, 8, 8⟩,
          ⟨0, 0, 8, 8, 27, 0, 8, 8⟩] := by decide
    rw [h] at hl
    injection hl with hl
    rw [← hl]
    rfl, hlen⟩

/-! ## Blend functions: when they report failure -/

/-- The function `_filter_blend_cpu_rgba` on valid images of which one has a
non-positive extent: success, nothing drawn. -/
theorem rgba_degenerate {κ : Type} (ENFN : Evas_Func κ) (cmd : Evas_Filter_Command)
    (input output : Evas_Filter_Buffer) (in_ out : RGBA_Image)
    (hin : cmd.input = some input) (hout : cmd.output = some output)
    (hib : input.backing = some in_) (hob : output.backing = some out)
    (hid : in_.data ≠ none) (hod : out.data ≠ none)
    (hdeg : out.w ≤ 0 ∨ out.h ≤ 0 ∨ in_.w ≤ 0 ∨ in_.h ≤ 0) :
    _filter_blend_cpu_rgba ENFN cmd = some ⟨true, some out, []⟩ := by
  unfold _filter_blend_cpu_rgba
  simp only [hin, hout, hib, hob]
  rw [if_neg hid, if_neg hod, if_pos hdeg]

/-- The function `_filter_blend_cpu_generic_do` when a resized copy is needed
and the scaler hands back no buffer: failure after the lookup. -/
theorem generic_do_no_buffer
    (scaled_get : Evas_Filter_Buffer → Int → Int → Option Evas_Filter_Buffer)
    (image_draw : kernel_func) (cmd : Evas_Filter_Command) (input output : Evas_Filter_Buffer)
    (in_ out : RGBA_Image)
    (hin : cmd.input = some input) (hout : cmd.output = some output)
    (hib : input.backing = some in_) (hob : output.backing = some out)
    (hid : in_.data ≠ none) (hod : out.data ≠ none)
    (hsw : 0 < in_.w) (hsh : 0 < in_.h) (hdw : 0 < out.w) (hdh : 0 < out.h)
    (hdiff : in_.w ≠ out.w ∨ in_.h ≠ out.h)
    (hstretch : cmd.draw.fillmode.stretch_x = true ∨ cmd.draw.fillmode.stretch_y = true)
    (hfb : scaled_get input (if cmd.draw.fillmode.stretch_x then out.w else in_.w)
      (if cmd.draw.fillmode.stretch_y then out.h else in_.h) = none) :
    ∃ tr, _filter_blend_cpu_generic_do scaled_get image_draw cmd =
      some ⟨false, some out, tr⟩ := by
  have hguard : ¬ (out.w ≤ 0 ∨ out.h ≤ 0 ∨ in_.w ≤ 0 ∨ in_.h ≤ 0) := by omega
  unfold _filter_blend_cpu_generic_do
  simp only [hin, hout, hib, hob]
  rw [if_neg hid, if_neg hod, if_neg hguard, if_pos ⟨hdiff, hstretch⟩]
  simp only [hfb]
  exact ⟨_, rfl⟩

/-- C33: for a command with an input and an output buffer, a scaler that hands
back only buffers with an image, and any kernel.  The function
`_filter_blend_cpu_generic_do` returns, and its result is failure exactly when
the input image, the output image or one of the two pixel storages is null, or
all four extents are positive, the sizes differ, a Stretch flag is set and the
scaler hands back no buffer; the kernel's own results play no part.  The
function `_filter_blend_cpu_rgba` returns, and its result is failure exactly
when an image or a pixel storage is null. -/
theorem blend_failure_iff {κ : Type}
    (scaled_get : Evas_Filter_Buffer → Int → Int → Option Evas_Filter_Buffer)
    (image_draw : kernel_func) (ENFN : Evas_Func κ) (cmd : Evas_Filter_Command)
    (input output : Evas_Filter_Buffer)
    (hin : cmd.input = some input) (hout : cmd.output = some output)
    (hfb : ∀ (w h : Int) (fb : Evas_Filter_Buffer),
      scaled_get input w h = some fb → fb.backing ≠ none) :
    (∃ o : Outcome, _filter_blend_cpu_generic_do scaled_get image_draw cmd = some o ∧
      (o.ok = false ↔
        (input.backing = none ∨ output.backing = none ∨
          (∃ i, input.backing = some i ∧ i.data = none) ∨
          (∃ o2, output.backing = some o2 ∧ o2.data = none)) ∨
        ∃ in_ out : RGBA_Image,
          input.backing = some in_ ∧ output.backing = some out ∧
          in_.data ≠ none ∧ out.data ≠ none ∧
          0 < in_.w ∧ 0 < in_.h ∧ 0 < out.w ∧ 0 < out.h ∧
          (in_.w ≠ out.w ∨ in_.h ≠ out.h) ∧
          (cmd.draw.fillmode.stretch_x = true ∨ cmd.draw.fillmode.stretch_y = true) ∧
          scaled_get input (if cmd.draw.fillmode.stretch_x then out.w else in_.w)
            (if cmd.draw.fillmode.stretch_y then out.h else in_.h) = none)) ∧
      ∃ o : Outcome, _filter_blend_cpu_rgba ENFN cmd = some o ∧
        (o.ok = false ↔
          (input.backing = none ∨ output.backing = none ∨
            (∃ i, input.backing = some i ∧ i.data = none) ∨
            (∃ o2, output.backing = some o2 ∧ o2.data = none))) := by
  by_cases hnull : input.backing = none ∨ output.backing = none ∨
      (∃ i, input.backing = some i ∧ i.data = none) ∨
      (∃ o2, output.backing = some o2 ∧ o2.data = none)
  · exact ⟨⟨_, generic_do_null scaled_get image_draw cmd input output hin hout hnull,
        fun _ => Or.inl hnull, fun _ => rfl⟩,
      ⟨_, rgba_null ENFN cmd input output hin hout hnull, fun _ => hnull, fun _ => rfl⟩⟩
  · cases hib : input.backing with
    | none => exact absurd (Or.inl hib) hnull
    | some in_ =>
      cases hob : output.backing with
      | none => exact absurd (Or.inr (Or.inl hob)) hnull
      | some out =>
        have hid : in_.data ≠ none := fun hd =>
          hnull (Or.inr (Or.inr (Or.inl ⟨in_, hib, hd⟩)))
        have hod : out.data ≠ none := fun hd =>
          hnull (Or.inr (Or.inr (Or.inr ⟨out, hob, hd⟩)))
        have hnull2 : ¬ (some in_ = none ∨ some out = none ∨
            (∃ i, some in_ = some i ∧ i.data = none) ∨
            (∃ o2, some out = some o2 ∧ o2.data = none)) := by
          rw [hib, hob] at hnull
          exact hnull
        by_cases hdeg : out.w ≤ 0 ∨ out.h ≤ 0 ∨ in_.w ≤ 0 ∨ in_.h ≤ 0
        · refine ⟨⟨_, generic_do_degenerate scaled_get image_draw cmd input output in_ out
            hin hout hib hob hid hod (by omega), ?_, ?_⟩,
            ⟨_, rgba_degenerate ENFN cmd input output in_ out hin hout hib hob hid hod hdeg,
              ?_, ?_⟩⟩
          · intro h
            simp at h
          · rintro (h | ⟨i, o2, hi, ho, _, _, h1, h2, h3, h4, _⟩)
            · exact absurd h hnull2
            · injection hi with hi
              injection ho with ho
              subst hi
              subst ho
              omega
          · intro h
            simp at h
          · intro h
            exact absurd h hnull2
        · have hsw : 0 < in_.w := by omega
          have hsh : 0 < in_.h := by omega
          have hdw : 0 < out.w := by omega
          have hdh : 0 < out.h := by omega
          refine ⟨?_, ?_⟩
          · by_cases hsc : (in_.w ≠ out.w ∨ in_.h ≠ out.h) ∧
                (cmd.draw.fillmode.stretch_x = true ∨ cmd.draw.fillmode.stretch_y = true)
            · cases hget : scaled_get input
                  (if cmd.draw.fillmode.stretch_x then out.w else in_.w)
                  (if cmd.draw.fillmode.stretch_y then out.h else in_.h) with
              | none =>
                obtain ⟨tr, htr⟩ := generic_do_no_buffer scaled_get image_draw cmd input output
                  in_ out hin hout hib hob hid hod hsw hsh hdw hdh hsc.1 hsc.2 hget
                exact ⟨_, htr, fun _ => Or.inr ⟨in_, out, rfl, rfl, hid, hod, hsw, hsh, hdw,
                  hdh, hsc.1, hsc.2, hget⟩, fun _ => rfl⟩
              | some fb =>
                cases himg : fb.backing with
                | none => exact absurd himg (hfb _ _ fb hget)
                | some img =>
                  obtain ⟨l, hl⟩ := calls_isSome out.w out.h cmd.draw.fillmode 0 0
                    (if cmd.draw.fillmode.stretch_x then out.w else in_.w)
                    (if cmd.draw.fillmode.stretch_y then out.h else in_.h)
                    cmd.draw.ox cmd.draw.oy out.w out.h
                    (by split_ifs <;> omega) (by split_ifs <;> omega)
                  have hrun := generic_do_scaled scaled_get image_draw cmd input output in_ out
                    fb img hin hout hib hob hid hod hsw hsh hdw hdh hsc.1 hsc.2 hget himg
                  rw [hl, Option.map_some'] at hrun
                  refine ⟨_, hrun, ?_, ?_⟩
                  · intro h
                    simp at h
                  · rintro (h | ⟨i, o2, hi, ho, _, _, _, _, _, _, _, _, hnone⟩)
                    · exact absurd h hnull2
                    · injection hi with hi
                      injection ho with ho
                      subst hi
                      subst ho
                      rw [hget] at hnone
                      exact Option.noConfusion hnone
            · obtain ⟨l, hl⟩ := calls_isSome out.w out.h cmd.draw.fillmode 0 0 in_.w in_.h
                cmd.draw.ox cmd.draw.oy out.w out.h (by omega) (by omega)
              have hrun := generic_do_plain scaled_get image_draw cmd input output in_ out
                hin hout hib hob hid hod hsw hsh hdw hdh hsc
              rw [hl, Option.map_some'] at hrun
              refine ⟨_, hrun, ?_, ?_⟩
              · intro h
                simp at h
              · rintro (h | ⟨i, o2, hi, ho, _, _, _, _, _, _, hd, hs, _⟩)
                · exact absurd h hnull2
                · injection hi with hi
                  injection ho with ho
                  subst hi
                  subst ho
                  exact absurd ⟨hd, hs⟩ hsc
          · obtain ⟨l, hl⟩ := calls_isSome out.w out.h cmd.draw.fillmode 0 0 in_.w in_.h
              cmd.draw.ox cmd.draw.oy out.w out.h (by omega) (by omega)
            have hrun := rgba_plain ENFN cmd input output in_ out hin hout hib hob hid hod
              hsw hsh hdw hdh
            rw [hl, Option.map_some'] at hrun
            refine ⟨_, hrun, ?_, ?_⟩
            · intro h
              simp at h
            · intro h
              exact absurd h hnull2

/-- Witness of C33: a 1x2 input to be stretched onto a 2x2 output with a
scaler that hands back nothing and a kernel that always reports failure: the
generic function fails on the missing buffer, the rgba function succeeds. -/
theorem blend_failure_iff_witness :
    ∃ o o2 : Outcome,
      _filter_blend_cpu_generic_do (fun _ _ _ => none)
          (fun _ surface _ _ _ _ _ _ _ _ _ => (false, surface))
          ⟨some ⟨true, false, some ⟨1, 2, some [1, 2]⟩⟩,
            some ⟨true, false, some ⟨2, 2, some [10, 20, 30, 40]⟩⟩,
            ⟨0, 0, EVAS_FILTER_FILL_MODE_STRETCH_XY, 0, 0, 0, 0, 0, false, ⟨0, 0, 0, 0⟩⟩⟩ =
        some o ∧ o.ok = false ∧
      _filter_blend_cpu_rgba
          (⟨(), fun _ _ _ _ _ => (), fun _ _ => (), fun _ _ _ _ _ => (),
            fun _ _ _ _ _ => (), fun _ surface _ _ _ _ _ _ _ _ _ => (false, surface)⟩ :
            Evas_Func Unit)
          ⟨some ⟨true, false, some ⟨1, 2, some [1, 2]⟩⟩,
            some ⟨true, false, some ⟨2, 2, some [10, 20, 30, 40]⟩⟩,
            ⟨0, 0, EVAS_FILTER_FILL_MODE_STRETCH_XY, 0, 0, 0, 0, 0, false, ⟨0, 0, 0, 0⟩⟩⟩ =
        some o2 ∧ o2.ok = true := by
  obtain ⟨⟨o, ho, hiff⟩, ⟨o2, ho2, hiff2⟩⟩ := blend_failure_iff (fun _ _ _ => none)
    (fun _ surface _ _ _ _ _ _ _ _ _ => (false, surface))
    (⟨(), fun _ _ _ _ _ => (), fun _ _ => (), fun _ _ _ _ _ => (),
      fun _ _ _ _ _ => (), fun _ surface _ _ _ _ _ _ _ _ _ => (false, surface)⟩ :
      Evas_Func Unit)
    ⟨some ⟨true, false, some ⟨1, 2, some [1, 2]⟩⟩,
      some ⟨true, false, some ⟨2, 2, some [10, 20, 30, 40]⟩⟩,
      ⟨0, 0, EVAS_FILTER_FILL_MODE_STRETCH_XY, 0, 0, 0, 0, 0, false, ⟨0, 0, 0, 0⟩⟩⟩
    ⟨true, false, some ⟨1, 2, some [1, 2]⟩⟩ ⟨true, false, some ⟨2, 2, some [10, 20, 30, 40]⟩⟩
    rfl rfl (fun _ _ _ h => Option.noConfusion h)
  refine ⟨o, o2, ho, hiff.2 (Or.inr ⟨⟨1, 2, some [1, 2]⟩, ⟨2, 2, some [10, 20, 30, 40]⟩, rfl, rfl,
    by decide, by decide, by decide, by decide, by decide, by decide, by decide, by decide,
    rfl⟩), ho2, ?_⟩
  cases hok : o2.ok with
  | true => rfl
  | false =>
    have h := hiff2.1 hok
    simp at h

/-! ## Tiling engine: a Repeat axis samples the source in phase -/

/-- Two calls that lie apart, both inside the image in X, cover no common
storage position. -/
theorem apart_disjoint (a b : Blit) (w : Int) (idx : Int) (hab : a.apart b)
    (ha0 : 0 ≤ a.dst_x) (ha1 : a.dst_x + a.dst_w ≤ w)
    (hb0 : 0 ≤ b.dst_x) (hb1 : b.dst_x + b.dst_w ≤ w)
    (hca : a.covers w idx) (hcb : b.covers w idx) : False := by
  rcases hab with h | h
  · exact before_disjoint a b w idx h ha0 ha1 hb0 hb1 hca hcb
  · exact before_disjoint b a w idx h hb0 hb1 ha0 ha1 hcb hca

/-- The alpha2alpha kernel run over a list of calls that fit the destination
image and lie apart from one another, in any order: each position covered by a
call becomes the combine of that call's source byte with the byte before the
run, and every position no call covers keeps its byte. -/
theorem blitAll_alpha_apart (table : Int → Option Alpha_Gfx_Func)
    (dc : Alpha_Blend_Draw_Context) (func : Alpha_Gfx_Func) (f : Nat → Nat → Nat)
    (src : RGBA_Image) (W H : Int)
    (hfunc : table dc.render_op = some func) (happ : AppliesCombine f func)
    (hH : H < 2147483648) (l : List Blit) (d : List Nat)
    (hlen : (d.length : Int) = W * H)
    (hfit : ∀ b ∈ l, b.fits W H) (hpw : l.Pairwise Blit.apart) :
    ∃ d2 : List Nat,
      blitAll (fun surface => _image_draw_cpu_alpha2alpha table dc surface src)
        ⟨W, H, some d⟩ l = ⟨W, H, some d2⟩ ∧
      d2.length = d.length ∧
      (∀ b ∈ l, ∀ i j : Nat, (i : Int) < b.dst_w → (j : Int) < b.dst_h →
        peek d2 ((b.dst_y + j) * W + b.dst_x + i) =
          f (peek src.pixels ((b.src_y + j) * src.w + b.src_x + i))
            (peek d ((b.dst_y + j) * W + b.dst_x + i))) ∧
      (∀ idx : Int, (∀ b ∈ l, ¬ b.covers W idx) → peek d2 idx = peek d idx) := by
  induction l generalizing d with
  | nil =>
    refine ⟨d, rfl, rfl, ?_, ?_⟩
    · intro b hb
      exact absurd hb (List.not_mem_nil _)
    · intro idx _
      rfl
  | cons b l ih =>
    obtain ⟨hbl, hpl⟩ := List.pairwise_cons.1 hpw
    have hfb : b.fits W H := hfit b (List.mem_cons_self _ _)
    have hfl : ∀ c ∈ l, c.fits W H := fun c hc => hfit c (List.mem_cons_of_mem _ hc)
    obtain ⟨d1, hd1, hl1, hin1, hout1⟩ :=
      alpha2alpha_draw_fits table dc func f src W H d b hfunc happ hlen hH hfb
    obtain ⟨d2, hd2, hl2, hin2, hout2⟩ := ih d1 (by rw [hl1]; exact hlen) hfl hpl
    refine ⟨d2, ?_, by rw [hl2, hl1], ?_, ?_⟩
    · rw [blitAll_cons, hd1]
      exact hd2
    · intro c hc i j hi hj
      rcases List.mem_cons.1 hc with hcb | hcl
      · subst hcb
        rw [hout2, hin1 i j hi hj]
        intro e he hcov
        exact apart_disjoint c e W _ (hbl e he) hfb.2.2.2.2.1 hfb.2.2.2.2.2.1
          (hfl e he).2.2.2.2.1 (hfl e he).2.2.2.2.2.1 ⟨i, j, hi, hj, rfl⟩ hcov
      · rw [hin2 c hcl i j hi hj, hout1]
        intro hcov
        exact apart_disjoint b c W _ (hbl c hcl) hfb.2.2.2.2.1 hfb.2.2.2.2.2.1
          (hfl c hcl).2.2.2.2.1 (hfl c hcl).2.2.2.2.2.1 hcov ⟨i, j, hi, hj, rfl⟩
    · intro idx hno
      rw [hout2 idx (fun c hc => hno c (List.mem_cons_of_mem _ hc)),
        hout1 idx (hno b (List.mem_cons_self _ _))]

/-- The alpha2alpha kernel run over such calls gives the same image in every
order of the calls. -/
theorem blitAll_alpha_perm (table : Int → Option Alpha_Gfx_Func)
    (dc : Alpha_Blend_Draw_Context) (func : Alpha_Gfx_Func) (f : Nat → Nat → Nat)
    (src : RGBA_Image) (W H : Int)
    (hfunc : table dc.render_op = some func) (happ : AppliesCombine f func)
    (hH : H < 2147483648) (l l2 : List Blit) (d : List Nat)
    (hlen : (d.length : Int) = W * H)
    (hfit : ∀ b ∈ l, b.fits W H) (hpw : l.Pairwise Blit.apart) (hperm : l2.Perm l) :
    blitAll (fun surface => _image_draw_cpu_alpha2alpha table dc surface src)
        ⟨W, H, some d⟩ l2 =
      blitAll (fun surface => _image_draw_cpu_alpha2alpha table dc surface src)
        ⟨W, H, some d⟩ l := by
  have hsymm : ∀ {x y : Blit}, x.apart y → y.apart x := fun h => Or.symm h
  have hpw2 : l2.Pairwise Blit.apart := (List.Perm.pairwise_iff hsymm hperm).2 hpw
  have hfit2 : ∀ b ∈ l2, b.fits W H := fun b hb => hfit b (hperm.mem_iff.1 hb)
  obtain ⟨e1, he1, hl1, hin1, hout1⟩ :=
    blitAll_alpha_apart table dc func f src W H hfunc happ hH l d hlen hfit hpw
  obtain ⟨e2, he2, hl2, hin2, hout2⟩ :=
    blitAll_alpha_apart table dc func f src W H hfunc happ hH l2 d hlen hfit2 hpw2
  rw [he1, he2]
  have e : e2 = e1 := by
    apply peek_ext e2 e1 (by rw [hl2, hl1])
    intro idx
    by_cases hc : ∃ b ∈ l, b.covers W idx
    · obtain ⟨b, hb, i, j, hi, hj, rfl⟩ := hc
      rw [hin2 b (hperm.mem_iff.2 hb) i j hi hj, hin1 b hb i j hi hj]
    · rw [hout2 idx (fun b hb hcov => hc ⟨b, hperm.mem_iff.1 hb, hcov⟩),
        hout1 idx (fun b hb hcov => hc ⟨b, hb, hcov⟩)]
  rw [e]

/-- The destination positions of an axis that does not have Repeat and
Stretch both set are strictly increasing. -/
theorem axisList_strict (rep stretch : Bool) (out s o d : Int) (l : List Interval)
    (hl : axisList rep stretch out s o d = some l)
    (hm : ¬ (rep = true ∧ stretch = true)) (hs : 0 < s) :
    l.Pairwise fun a b => a.dst_pos < b.dst_pos := by
  have hasc := axisList_ascending rep stretch out s o d l hl hm hs
  have hpos := axisList_pos rep stretch out s o d l hl
  unfold Ascending at hasc
  refine List.Pairwise.imp_of_mem (fun ha _ h => ?_) hasc
  have := (hpos _ ha).2
  omega

/-- C32 at fill mode `REPEAT_X`, a 2x2 tile at offset -1 on a 3x2 output, with
a copy operator: the third call starts at column 3, past the output width 3,
so in the storage it lands on the next row; run in the engine's order the
output ends as `[2, 1, 2, 1, 2, 4]`, run with the third call first it ends as
`[2, 1, 2, 4, 3, 4]`. -/
theorem repeat_lead_order_matters :
    _mapped_blend_cpu.calls 3 2 EVAS_FILTER_FILL_MODE_REPEAT_X 0 0 2 2 (-1) 0 3 2 =
        some [⟨1, 0, 1, 2, 0, 0, 1, 2⟩, ⟨0, 0, 2, 2, 1, 0, 2, 2⟩, ⟨0, 0, 2, 2, 3, 0, 2, 2⟩] ∧
      blitAll (fun surface => _image_draw_cpu_alpha2alpha
          (fun _ => some (Alpha_Gfx_Func.ofCombine fun s _ => s)) ⟨0, 0⟩ surface
          ⟨2, 2, some [1, 2, 3, 4]⟩) ⟨3, 2, some [0, 0, 0, 0, 0, 0]⟩
          [⟨1, 0, 1, 2, 0, 0, 1, 2⟩, ⟨0, 0, 2, 2, 1, 0, 2, 2⟩, ⟨0, 0, 2, 2, 3, 0, 2, 2⟩] =
        ⟨3, 2, some [2, 1, 2, 1, 2, 4]⟩ ∧
      blitAll (fun surface => _image_draw_cpu_alpha2alpha
          (fun _ => some (Alpha_Gfx_Func.ofCombine fun s _ => s)) ⟨0, 0⟩ surface
          ⟨2, 2, some [1, 2, 3, 4]⟩) ⟨3, 2, some [0, 0, 0, 0, 0, 0]⟩
          [⟨0, 0, 2, 2, 3, 0, 2, 2⟩, ⟨1, 0, 1, 2, 0, 0, 1, 2⟩, ⟨0, 0, 2, 2, 1, 0, 2, 2⟩] =
        ⟨3, 2, some [2, 1, 2, 4, 3, 4]⟩ := by
  decide

/-- For every fill mode other than None that does not set Repeat and Stretch
on the same axis, with positive tile extents and any offset: the calls are the
row-major product of a row list and a column list whose destination positions
are strictly increasing, and the destination rectangles of any two calls have
no point in common.  When every call lies inside the output width, no storage
position is covered by two calls; and when every call fits the output, the
alpha2alpha kernel with a per-pixel combine leaves the same image whatever the
order of the calls. -/
theorem calls_disjoint_ascending (out_w out_h : Int) (fillmode : Evas_Filter_Fill_Mode)
    (sx sy sw sh dx dy dw dh : Int) (l : List Blit)
    (hfill : fillmode ≠ EVAS_FILTER_FILL_MODE_NONE)
    (hmx : ¬ (fillmode.repeat_x = true ∧ fillmode.stretch_x = true))
    (hmy : ¬ (fillmode.repeat_y = true ∧ fillmode.stretch_y = true))
    (hsw : 0 < sw) (hsh : 0 < sh)
    (hl : _mapped_blend_cpu.calls out_w out_h fillmode sx sy sw sh dx dy dw dh = some l) :
    (∃ xs ys : List Interval, l = rowMajor ys xs ∧
        (xs.Pairwise fun a b => a.dst_pos < b.dst_pos) ∧
        (ys.Pairwise fun a b => a.dst_pos < b.dst_pos)) ∧
      (l.Pairwise fun a b => ∀ x y : Int,
        ¬ ((a.dst_x ≤ x ∧ x < a.dst_x + a.dst_w ∧ a.dst_y ≤ y ∧ y < a.dst_y + a.dst_h) ∧
          (b.dst_x ≤ x ∧ x < b.dst_x + b.dst_w ∧ b.dst_y ≤ y ∧ y < b.dst_y + b.dst_h))) ∧
      ((∀ b ∈ l, 0 ≤ b.dst_x ∧ b.dst_x + b.dst_w ≤ out_w) →
        l.Pairwise fun a b => ∀ idx : Int, ¬ (a.covers out_w idx ∧ b.covers out_w idx)) ∧
      ∀ (table : Int → Option Alpha_Gfx_Func) (dc : Alpha_Blend_Draw_Context)
        (func : Alpha_Gfx_Func) (f : Nat → Nat → Nat) (src : RGBA_Image) (d : List Nat)
        (l2 : List Blit),
        table dc.render_op = some func → AppliesCombine f func →
        (d.length : Int) = out_w * out_h → out_h < 2147483648 →
        (∀ b ∈ l, b.fits out_w out_h) → l2.Perm l →
        blitAll (fun surface => _image_draw_cpu_alpha2alpha table dc surface src)
            ⟨out_w, out_h, some d⟩ l2 =
          blitAll (fun surface => _image_draw_cpu_alpha2alpha table dc surface src)
            ⟨out_w, out_h, some d⟩ l := by
  have hpw := calls_pairwise_before out_w out_h fillmode sx sy sw sh dx dy dw dh l hl
    hmx hmy hsw hsh
  refine ⟨?_, ?_, ?_, ?_⟩
  · rw [calls_eq_rowMajor _ _ _ _ _ _ _ _ _ _ _ hfill] at hl
    cases hxs : axisList fillmode.repeat_x fillmode.stretch_x out_w sw dx dw with
    | none => simp [hxs] at hl
    | some xs =>
      cases hys : axisList fillmode.repeat_y fillmode.stretch_y out_h sh dy dh with
      | none => simp [hxs, hys] at hl
      | some ys =>
        simp only [hxs, hys, Option.some_bind, Option.some.injEq] at hl
        exact ⟨xs, ys, hl.symm, axisList_strict _ _ _ _ _ _ xs hxs hmx hsw,
          axisList_strict _ _ _ _ _ _ ys hys hmy hsh⟩
  · refine List.Pairwise.imp (fun hab x y => ?_) hpw
    unfold Blit.before at hab
    omega
  · intro hin
    refine List.Pairwise.imp_of_mem (fun ha hb hab idx hc => ?_) hpw
    exact before_disjoint _ _ out_w idx hab (hin _ ha).1 (hin _ ha).2 (hin _ hb).1 (hin _ hb).2
      hc.1 hc.2
  · intro table dc func f src d l2 hfunc happ hlen hH hfit hperm
    exact blitAll_alpha_perm table dc func f src out_w out_h hfunc happ hH l l2 d hlen hfit
      (List.Pairwise.imp (fun h => Or.inl h) hpw) hperm

/-- An instance: `REPEAT_X` alone, a 10x8 tile at offset 0 on a 25x8 output has
one row and three columns at 0, 10, 20. -/
theorem calls_disjoint_ascending_repeat_x :
    _mapped_blend_cpu.calls 25 8 EVAS_FILTER_FILL_MODE_REPEAT_X 0 0 10 8 0 0 25 8 =
        some [⟨0, 0, 10, 8, 0, 0, 10, 8⟩, ⟨0, 0, 10, 8, 10, 0, 10, 8⟩,
          ⟨0, 0, 5, 8, 20, 0, 5, 8⟩] ∧
      ∃ xs ys : List Interval,
        ([⟨0, 0, 10, 8, 0, 0, 10, 8⟩, ⟨0, 0, 10, 8, 10, 0, 10, 8⟩,
          ⟨0, 0, 5, 8, 20, 0, 5, 8⟩] : List Blit) = rowMajor ys xs ∧
        (xs.Pairwise fun a b => a.dst_pos < b.dst_pos) ∧
        (ys.Pairwise fun a b => a.dst_pos < b.dst_pos) :=
  ⟨by decide,
    (calls_disjoint_ascending 25 8 EVAS_FILTER_FILL_MODE_REPEAT_X 0 0 10 8 0 0 25 8
      [⟨0, 0, 10, 8, 0, 0, 10, 8⟩, ⟨0, 0, 10, 8, 10, 0, 10, 8⟩, ⟨0, 0, 5, 8, 20, 0, 5, 8⟩]
      (by decide) (by decide) (by decide) (by decide) (by decide) (by decide)).1⟩

end EvasFilterBlend
